import Mathlib

/-!
Verification development for the `forth3` embeddable Forth VM.

The Rust sources under `src/` are shallowly embedded below:

* `src/fastr.rs` — `LenHash` / `FaStr` string fingerprints;
* `src/dictionary.rs` — `DictionaryBump` arena and dictionary entries;
* `src/vm/mod.rs` — `Forth::lookup`, `process_line`, the `munch_*` compiler;
* `src/vm/builtins.rs` — the builtin words and `Forth::interpret`;
* `src/vm/async_vm.rs` — `AsyncForth::process_line` error cleanup.

Machine integers are modelled as `Nat`/`Int` with explicit wrapping
(`% 2^w`) where the source relies on fixed-width arithmetic.  Bit masking
with `0x00FF_FFFF`-style constants is rendered as `% 2^k` / `/ 2^k`, which
agrees with the source's `&`/`>>` on these mask shapes.  Raw pointers are
modelled as `Nat` addresses (arena), indices into the static builtin table,
or structured pointers into a parameter field.  Rust panics (traps) are
modelled by the dedicated outcome `Error.panicked`.

Components that live outside `src/` (the `Stack`, `CallContext`,
`WordStrBuf` and `OutputBuf` collaborators from `lib.rs`, `input.rs`,
`output.rs`) are modelled from the spec, as marked on their definitions.

Recursion in the interpreter/compiler is bounded by an explicit fuel
parameter; running out of fuel yields the artificial `Error.fuelExhausted`,
which no theorem ever treats as real program behaviour.
-/

set_option maxRecDepth 10000

namespace Forth3

/-! ### Byte strings -/

/-- Names, tokens and the output buffer are byte lists (values < 256). -/
abbrev Bytes := List Nat

/-- Bytes of an ASCII string literal (used to spell concrete names). -/
def bws (s : String) : Bytes := s.toList.map Char.toNat

/-! ### `src/fastr.rs`: `LenHash` and `FaStr` -/

/-- FNV-1a 32-bit prime (the `hash32` crate's `FnvHasher`). -/
def fnvPrime : Nat := 16777619

/-- FNV-1a 32-bit offset basis. -/
def fnvBasis : Nat := 2166136261

/-- 32-bit FNV-1a over a byte list (`FnvHasher::write` + `finish32`). -/
def fnv1a32 (bs : Bytes) : Nat :=
  bs.foldl (fun h b => ((h ^^^ b) * fnvPrime) % 2 ^ 32) fnvBasis

/-- `LenHash`: packed `(3-bit reserved | 5-bit len | 24-bit hash)` in a `u32`. -/
structure LenHash where
  inner : Nat
  deriving DecidableEq, Repr

/-- `LenHash::from_bstr`: hash the first `min(len, 31)` bytes, pack
`(len << 24) | (hash & 0x00FF_FFFF)`. -/
def LenHash.fromBstr (s : Bytes) : LenHash :=
  let len := Nat.min s.length 31
  let hash := fnv1a32 (s.take len)
  ⟨len * 2 ^ 24 + hash % 2 ^ 24⟩

/-- `LenHash::len`: `(inner & LEN_MASK) >> 24`. -/
def LenHash.len (lh : LenHash) : Nat := lh.inner / 2 ^ 24 % 32

/-- `LenHash::eq_ignore_bits`: compare everything below the 3 reserved
high bits, i.e. the low 29 bits. -/
def LenHash.eqIgnoreBits (a b : LenHash) : Bool := a.inner % 2 ^ 29 == b.inner % 2 ^ 29

/-- `FaStr`: a pointed-to byte region together with its fingerprint.  The
fingerprint is a function of the region, so we store the region and derive
the `LenHash` (as `FaStr::new` does at construction time). -/
structure FaStr where
  region : Bytes
  deriving DecidableEq, Repr

/-- The stored `len_hash` of a `FaStr`. -/
def FaStr.lenHash (f : FaStr) : LenHash := LenHash.fromBstr f.region

/-- `FaStr::as_bytes`: the first `len_hash.len()` bytes of the region. -/
def FaStr.asBytes (f : FaStr) : Bytes := f.region.take f.lenHash.len

/-- `impl PartialEq for FaStr`: fingerprints equal (ignoring reserved bits),
then byte ranges equal. -/
def FaStr.beq (a b : FaStr) : Bool :=
  if a.lenHash.eqIgnoreBits b.lenHash then a.asBytes == b.asBytes else false

/-! ### `src/dictionary.rs`: bump arena -/

/-- `BumpError`. -/
inductive BumpError where
  | outOfMemory
  | cantAllocUtf8
  deriving DecidableEq, Repr

/-- `DictionaryBump`: `[start, endp)` byte region with cursor `cur`;
`mem` is the contents of the underlying buffer. -/
structure DictionaryBump where
  start : Nat
  cur : Nat
  endp : Nat
  mem : Nat → Nat

/-- `DictionaryBump::new` over a caller-provided buffer with contents `m0`. -/
def DictionaryBump.new (bottom size : Nat) (m0 : Nat → Nat) : DictionaryBump :=
  ⟨bottom, bottom, bottom + size, m0⟩

/-- `ptr::align_offset` for the shapes used here: distance from `p` up to
the next multiple of `a`. -/
def alignOffset (p a : Nat) : Nat := if a = 0 then 0 else (a - p % a) % a

/-- Store `bs` into memory `m` starting at address `a`. -/
def writeBytes (m : Nat → Nat) (a : Nat) (bs : Bytes) : Nat → Nat :=
  fun i => if a ≤ i ∧ i < a + bs.length then bs.getD (i - a) 0 else m i

/-- Zero-fill `[a, a + n)` in memory `m`. -/
def zeroFill (m : Nat → Nat) (a n : Nat) : Nat → Nat :=
  fun i => if a ≤ i ∧ i < a + n then 0 else m i

/-- `DictionaryBump::bump_u8s(n)`: `None` when `n = 0` or out of space,
otherwise the old cursor; the state is returned alongside. -/
def DictionaryBump.bumpU8s (b : DictionaryBump) (n : Nat) :
    Option Nat × DictionaryBump :=
  if n = 0 then (none, b)
  else
    let req := b.cur + n
    if req > b.endp then (none, b)
    else (some b.cur, { b with cur := req })

/-- `DictionaryBump::bump_u8`. -/
def DictionaryBump.bumpU8 (b : DictionaryBump) : Option Nat × DictionaryBump :=
  if b.cur ≥ b.endp then (none, b)
  else (some b.cur, { b with cur := b.cur + 1 })

/-- `DictionaryBump::bump::<T>` for a type of the given alignment and size:
zero the padding bytes, then advance if the aligned allocation fits.  As in
the source, the padding is zeroed before the capacity check. -/
def DictionaryBump.bump (b : DictionaryBump) (align sz : Nat) :
    Except BumpError Nat × DictionaryBump :=
  let off := alignOffset b.cur align
  let mem' := zeroFill b.mem b.cur off
  let alignCur := b.cur + off
  let newCur := alignCur + sz
  if newCur > b.endp then (.error .outOfMemory, { b with mem := mem' })
  else (.ok alignCur, { b with cur := newCur, mem := mem' })

/-- `u8::to_ascii_lowercase`. -/
def lowerByte (c : Nat) : Nat := if 65 ≤ c ∧ c ≤ 90 then c + 32 else c

/-- `DictionaryBump::bump_str`: copy at most 31 bytes, lowercased, into the
arena; non-ASCII bytes are rejected first. -/
def DictionaryBump.bumpStr (b : DictionaryBump) (s : Bytes) :
    Except BumpError FaStr × DictionaryBump :=
  let len := Nat.min s.length 31
  let astr := s.take len
  if astr.all (fun c => c < 128) then
    match b.bumpU8s len with
    | (none, b') => (.error .outOfMemory, b')
    | (some addr, b') =>
      let lowered := astr.map lowerByte
      (.ok ⟨lowered⟩, { b' with mem := writeBytes b'.mem addr lowered })
  else (.error .cantAllocUtf8, b)

/-- `DictionaryBump::contains`. -/
def DictionaryBump.containsAddr (b : DictionaryBump) (p : Nat) : Prop :=
  b.start ≤ p ∧ p < b.endp

instance (b : DictionaryBump) (p : Nat) : Decidable (b.containsAddr p) :=
  inferInstanceAs (Decidable (_ ∧ _))

/-- `DictionaryBump::capacity`. -/
def DictionaryBump.capacity (b : DictionaryBump) : Nat := b.endp - b.start

/-- `DictionaryBump::used`. -/
def DictionaryBump.used (b : DictionaryBump) : Nat := b.cur - b.start

/-- One arena request, for stating invariants over allocation sequences. -/
inductive ArenaOp where
  | opBump (align sz : Nat)
  | opBumpU8s (n : Nat)
  | opBumpU8
  | opBumpStr (s : Bytes)
  deriving DecidableEq, Repr

/-- Run one request, keeping only the state. -/
def applyArenaOp (b : DictionaryBump) : ArenaOp → DictionaryBump
  | .opBump a s => (b.bump a s).2
  | .opBumpU8s n => (b.bumpU8s n).2
  | .opBumpU8 => b.bumpU8.2
  | .opBumpStr s => (b.bumpStr s).2

/-- Run a sequence of arena requests. -/
def applyArenaOps (b : DictionaryBump) (ops : List ArenaOp) : DictionaryBump :=
  ops.foldl applyArenaOp b

/-! ### Fixed-width integer helpers -/

/-- Wrap an integer to `i32`. -/
def wrap32 (z : Int) : Int := (z + 2 ^ 31) % 2 ^ 32 - 2 ^ 31

/-- Wrap an integer to `i64`. -/
def wrap64 (z : Int) : Int := (z + 2 ^ 63) % 2 ^ 64 - 2 ^ 63

/-- `i64::wrapping_div` for a non-zero divisor (the one overflow case wraps
back to `i64::MIN`); division by zero is handled by the callers. -/
def wrap64div (a b : Int) : Int :=
  if a = -2 ^ 63 ∧ b = -1 then -2 ^ 63 else Int.tdiv a b

/-! ### Layout constants (64-bit host, cf. `dictionary.rs` size tests) -/

/-- `size_of::<Word>()`: one pointer-sized cell. -/
def wordSize : Nat := 8

/-- `align_of::<Word>()`. -/
def wordAlign : Nat := 8

/-- `size_of::<DictionaryEntry<T>>()`: 24-byte `EntryHeader` + function
pointer + link. -/
def dictEntrySize : Nat := 40

/-- `align_of::<DictionaryEntry<T>>()`. -/
def dictEntryAlign : Nat := 8

/-! ### Cells, stacks, frames -/

/-- A pointer to an entry header: either into the static builtin table or to
a `DictionaryEntry` in the arena. -/
inductive Ref where
  | bi (i : Nat)
  | de (addr : Nat)
  deriving DecidableEq, Repr

/-- A `Word` cell.  The source stores untagged 64-bit unions; the compile-
time grammar determines the live view, which the embedding makes explicit:
an entry pointer, an integer payload, one cell of inline string bytes, or a
pointer into a parameter field (`(variable)` / `w+`). -/
inductive Cell where
  | xt (r : Ref)
  | lit (v : Int)
  | chunk (bs : Bytes)
  | addr (r : Ref) (i : Int)
  deriving DecidableEq, Repr

/-- `Word::data` view.  Reading a pointer cell as an integer yields
machine-dependent bits; the embedding fixes that unobservable case to 0. -/
def Cell.dataView : Cell → Int
  | .lit v => v
  | _ => 0

/-- Modelled from the spec (§4.1): the fixed-capacity `Stack` collaborator
(`stack.rs` is not under `src/`).  Top of stack is the list head. -/
structure Stk (α : Type) where
  items : List α
  cap : Nat
  deriving DecidableEq, Repr

/-- Modelled from the spec: `Stack::push`, failing with overflow when full. -/
def Stk.push {α} (s : Stk α) (x : α) : Option (Stk α) :=
  if s.items.length < s.cap then some { s with items := x :: s.items } else none

/-- Modelled from the spec: `Stack::pop`. -/
def Stk.pop {α} (s : Stk α) : Option (α × Stk α) :=
  match s.items with
  | [] => none
  | x :: xs => some (x, { s with items := xs })

/-- Modelled from the spec: `Stack::peek`. -/
def Stk.peek {α} (s : Stk α) : Option α := s.items.head?

/-- Modelled from the spec: `Stack::peek_back_n` (0 is the top). -/
def Stk.peekBackN {α} (s : Stk α) (n : Nat) : Option α := s.items[n]?

/-- Modelled from the spec: `Stack::overwrite_back_n`. -/
def Stk.overwriteBackN {α} (s : Stk α) (n : Nat) (x : α) : Option (Stk α) :=
  if n < s.items.length then some { s with items := s.items.set n x } else none

/-- Modelled from the spec: `Stack::clear`. -/
def Stk.clear {α} (s : Stk α) : Stk α := { s with items := [] }

/-- `CallContext`: entry header pointer, next cell index, cell count. -/
structure Frame where
  eh : Ref
  idx : Nat
  len : Nat
  deriving DecidableEq, Repr

/-- Modelled from the spec (§3, §4.5): `CallContext::offset` — move `idx`
by a signed cell count, keeping the invariant `idx ≤ len`. -/
def Frame.offsetBy (fr : Frame) (off : Int) : Option Frame :=
  let t : Int := (fr.idx : Int) + off
  if 0 ≤ t ∧ t ≤ (fr.len : Int) then some { fr with idx := t.toNat } else none

/-! ### Entries and the builtin table -/

/-- `EntryKind` (the async variant is not modelled). -/
inductive EntryKind where
  | staticBuiltin
  | runtimeBuiltin
  | dictionary
  deriving DecidableEq, Repr

/-- Tags for the builtin functions of `FULL_BUILTINS` (`vm/builtins.rs`).
The ten floating-point builtins are not modelled (floating point is outside
the embedding); every other entry of the table is present. -/
inductive BFn where
  | add | minus | div | modu | divMod | mul | abs | negate | min | max
  | starSlash | starSlashMod
  | invert | and | equal | greater | less | zeroEqual | zeroGreater | zeroLess
  | swap | dup | over | rot | dsDrop
  | swap2 | dup2 | over2 | dsDrop2
  | emit | cr | space | spaces | popPrint | unsignedPopPrint
  | colon | forget
  | dataToReturnStack | data2ToReturn2Stack | returnToDataStack
  | loopI | loopItick | loopJ | loopLeave
  | varLoad | varStore | wordAdd
  | zeroConst | oneConst
  | writeStrLit | jumpDoloop | jumpIfZero | jump | literal | constant | varWord
  deriving DecidableEq, Repr

/-- The function pointer stored in an entry header: `Forth::interpret` for
user definitions, or one of the static builtin functions. -/
inductive FuncId where
  | interp
  | table (f : BFn)
  deriving DecidableEq, Repr

/-- One row of the static builtin table. -/
structure BuiltinEntry where
  name : Bytes
  fn : BFn
  deriving DecidableEq, Repr

/-- `Forth::FULL_BUILTINS` in source order (floating-point rows omitted,
see `BFn`).  `[105, 39]` is the name `i'`. -/
def fullBuiltins : List BuiltinEntry := [
  ⟨bws "+", .add⟩, ⟨bws "-", .minus⟩, ⟨bws "/", .div⟩, ⟨bws "mod", .modu⟩,
  ⟨bws "/mod", .divMod⟩, ⟨bws "*", .mul⟩, ⟨bws "abs", .abs⟩,
  ⟨bws "negate", .negate⟩, ⟨bws "min", .min⟩, ⟨bws "max", .max⟩,
  ⟨bws "*/", .starSlash⟩, ⟨bws "*/mod", .starSlashMod⟩,
  ⟨bws "not", .invert⟩, ⟨bws "and", .and⟩, ⟨bws "=", .equal⟩,
  ⟨bws ">", .greater⟩, ⟨bws "<", .less⟩, ⟨bws "0=", .zeroEqual⟩,
  ⟨bws "0>", .zeroGreater⟩, ⟨bws "0<", .zeroLess⟩,
  ⟨bws "swap", .swap⟩, ⟨bws "dup", .dup⟩, ⟨bws "over", .over⟩,
  ⟨bws "rot", .rot⟩, ⟨bws "drop", .dsDrop⟩,
  ⟨bws "2swap", .swap2⟩, ⟨bws "2dup", .dup2⟩, ⟨bws "2over", .over2⟩,
  ⟨bws "2drop", .dsDrop2⟩,
  ⟨bws "emit", .emit⟩, ⟨bws "cr", .cr⟩, ⟨bws "space", .space⟩,
  ⟨bws "spaces", .spaces⟩, ⟨bws ".", .popPrint⟩, ⟨bws "u.", .unsignedPopPrint⟩,
  ⟨bws ":", .colon⟩, ⟨bws "forget", .forget⟩,
  ⟨bws "d>r", .dataToReturnStack⟩, ⟨bws "2d>2r", .data2ToReturn2Stack⟩,
  ⟨bws "r>d", .returnToDataStack⟩,
  ⟨bws "i", .loopI⟩, ⟨[105, 39], .loopItick⟩, ⟨bws "j", .loopJ⟩,
  ⟨bws "leave", .loopLeave⟩,
  ⟨bws "@", .varLoad⟩, ⟨bws "!", .varStore⟩, ⟨bws "w+", .wordAdd⟩,
  ⟨bws "0", .zeroConst⟩, ⟨bws "1", .oneConst⟩,
  ⟨bws "(write-str)", .writeStrLit⟩, ⟨bws "(jmp-doloop)", .jumpDoloop⟩,
  ⟨bws "(jump-zero)", .jumpIfZero⟩, ⟨bws "(jmp)", .jump⟩,
  ⟨bws "(literal)", .literal⟩, ⟨bws "(constant)", .constant⟩,
  ⟨bws "(variable)", .varWord⟩ ]

/-- A `DictionaryEntry` in the arena: header fields, function pointer,
back-link, and the parameter field (the compiled body as cells). -/
structure DictEntry where
  name : FaStr
  kind : EntryKind
  flen : Nat
  func : FuncId
  link : Option Nat
  body : List Cell
  deriving DecidableEq, Repr

/-! ### Input tokenizer (external collaborator) -/

/-- One unit the tokenizer can yield: a whitespace-delimited word or (after
`advance_str`) a string literal. -/
inductive InTok where
  | word (w : Bytes)
  | str (s : Bytes)
  deriving DecidableEq, Repr

/-- Modelled from the spec (§6): the `WordStrBuf` input collaborator
(`input.rs` is not under `src/`): remaining units plus the current one. -/
structure InBuf where
  toks : List InTok
  cur : Option InTok
  deriving DecidableEq, Repr

/-- Modelled from the spec: `WordStrBuf::advance`. -/
def InBuf.advance (b : InBuf) : InBuf :=
  match b.toks with
  | [] => { toks := [], cur := none }
  | t :: ts => { toks := ts, cur := some t }

/-- Modelled from the spec: `WordStrBuf::cur_word` (a string literal is not
a word). -/
def InBuf.curWord (b : InBuf) : Option Bytes :=
  match b.cur with
  | some (.word w) => some w
  | _ => none

/-- Modelled from the spec: `WordStrBuf::advance_str`, succeeding only when
the input holds a well-formed string literal next. -/
def InBuf.advanceStr (b : InBuf) : Option InBuf :=
  match b.toks with
  | .str s :: ts => some { toks := ts, cur := some (.str s) }
  | _ => none

/-- Modelled from the spec: `WordStrBuf::cur_str_literal`. -/
def InBuf.curStrLiteral (b : InBuf) : Option Bytes :=
  match b.cur with
  | some (.str s) => some s
  | _ => none

/-- `Forth::munch_comment`'s token loop: consume units until one ends with
`)` (or the line ends); the result is the final `(cur, remaining)` pair. -/
def munchCommentToks : List InTok → Option InTok × List InTok
  | [] => (none, [])
  | .word w :: ts =>
    if w.getLast? = some 41 then (some (.word w), ts) else munchCommentToks ts
  | .str s :: ts => (some (.str s), ts)

/-- `Forth::munch_comment` acting on the input buffer. -/
def InBuf.munchComment (b : InBuf) : InBuf :=
  let r := munchCommentToks b.toks
  { toks := r.2, cur := r.1 }

/-! ### Errors -/

/-- `Error` (flattening the nested `StackError` / `BumpError` /
`OutputError` variants).  `panicked` models a Rust panic (trap);
`fuelExhausted` is the bounded-recursion artifact. -/
inductive Error where
  | stackOverflow | stackEmpty
  | bumpOutOfMemory | bumpCantAllocUtf8
  | outputFormattingErr
  | lookupFailed | wordNotInDict
  | colonCompileMissingName | colonCompileMissingSemicolon
  | interpretingCompileOnlyWord
  | badStrLiteral | lQuoteMissingRQuote | literalStringTooLong
  | ifWithoutThen | ifElseWithoutThen | duplicateElse | doWithoutLoop
  | elseBeforeIf | thenBeforeIf | loopBeforeDo
  | divideByZero | loopCountIsNegative | badWordOffset | badCfaOffset
  | nullPointerInCFA | callStackCorrupted
  | cantForgetBuiltins | forgetNotInDict | forgetWithoutWordName
  | internalError
  | panicked
  | fuelExhausted
  deriving DecidableEq, Repr

/-- Lift a `BumpError`. -/
def bumpErr : BumpError → Error
  | .outOfMemory => .bumpOutOfMemory
  | .cantAllocUtf8 => .bumpCantAllocUtf8

/-! ### The VM state -/

/-- `Mode`. -/
inductive Mode where
  | run
  | compile
  deriving DecidableEq, Repr

/-- The `Forth<T>` context together with its I/O buffers.  `heap` is the
logical view of the dictionary entries living in the arena, keyed by their
arena address; `dictAlloc` carries the byte-level cursor accounting. -/
structure VM where
  mode : Mode
  dataStack : Stk Cell
  returnStack : Stk Cell
  callStack : Stk Frame
  dictAlloc : DictionaryBump
  heap : List (Nat × DictEntry)
  runDictTail : Option Nat
  input : InBuf
  output : Bytes

/-- Results of fallible VM operations; errors carry the state at the point
of failure (in Rust the mutations up to the error remain visible). -/
abbrev Res (α : Type) : Type := Except (Error × VM) α

/-! #### Stack primitives on the VM -/

/-- Push onto the data stack. -/
def VM.pushData (vm : VM) (c : Cell) : Res VM :=
  match vm.dataStack.push c with
  | some s => .ok { vm with dataStack := s }
  | none => .error (.stackOverflow, vm)

/-- `try_pop` on the data stack. -/
def VM.tryPopData (vm : VM) : Res (Cell × VM) :=
  match vm.dataStack.pop with
  | some (c, s) => .ok (c, { vm with dataStack := s })
  | none => .error (.stackEmpty, vm)

/-- `try_peek` on the data stack. -/
def VM.tryPeekData (vm : VM) : Res Cell :=
  match vm.dataStack.peek with
  | some c => .ok c
  | none => .error (.stackEmpty, vm)

/-- `try_peek_back_n` on the data stack. -/
def VM.tryPeekDataBackN (vm : VM) (n : Nat) : Res Cell :=
  match vm.dataStack.peekBackN n with
  | some c => .ok c
  | none => .error (.stackEmpty, vm)

/-- Push onto the return stack. -/
def VM.pushRet (vm : VM) (c : Cell) : Res VM :=
  match vm.returnStack.push c with
  | some s => .ok { vm with returnStack := s }
  | none => .error (.stackOverflow, vm)

/-- `try_pop` on the return stack. -/
def VM.tryPopRet (vm : VM) : Res (Cell × VM) :=
  match vm.returnStack.pop with
  | some (c, s) => .ok (c, { vm with returnStack := s })
  | none => .error (.stackEmpty, vm)

/-- `try_peek` on the return stack. -/
def VM.tryPeekRet (vm : VM) : Res Cell :=
  match vm.returnStack.peek with
  | some c => .ok c
  | none => .error (.stackEmpty, vm)

/-- `try_peek_back_n` on the return stack. -/
def VM.tryPeekRetBackN (vm : VM) (n : Nat) : Res Cell :=
  match vm.returnStack.peekBackN n with
  | some c => .ok c
  | none => .error (.stackEmpty, vm)

/-- `try_peek` on the call stack. -/
def VM.tryPeekCall (vm : VM) : Res Frame :=
  match vm.callStack.peek with
  | some fr => .ok fr
  | none => .error (.stackEmpty, vm)

/-- `try_peek_back_n` on the call stack. -/
def VM.tryPeekCallBackN (vm : VM) (n : Nat) : Res Frame :=
  match vm.callStack.peekBackN n with
  | some fr => .ok fr
  | none => .error (.stackEmpty, vm)

/-- `overwrite_back_n` on the call stack. -/
def VM.overwriteCallBackN (vm : VM) (n : Nat) (fr : Frame) : Res VM :=
  match vm.callStack.overwriteBackN n fr with
  | some s => .ok { vm with callStack := s }
  | none => .error (.stackEmpty, vm)

/-- Append bytes to the output buffer (`OutputBuf` is modelled from the
spec as unbounded, so pushes cannot fail). -/
def VM.pushOut (vm : VM) (bs : Bytes) : VM :=
  { vm with output := vm.output ++ bs }

/-! #### Dictionary access -/

/-- Read the dictionary entry at an arena address. -/
def VM.heapGet (vm : VM) (a : Nat) : Option DictEntry :=
  (vm.heap.find? (fun p => p.1 == a)).map (·.2)

/-- The entry header a `Ref` points to. -/
def VM.entryOf (vm : VM) (r : Ref) : Option DictEntry :=
  match r with
  | .bi i =>
    (fullBuiltins[i]?).map fun b =>
      { name := ⟨b.name⟩, kind := .staticBuiltin, flen := 0,
        func := .table b.fn, link := none, body := [] }
  | .de a => vm.heapGet a

/-- Read cell `i` of the parameter field behind `r`. -/
def VM.cellAt (vm : VM) (r : Ref) (i : Int) : Option Cell :=
  match vm.entryOf r with
  | none => none
  | some e => if 0 ≤ i then e.body[i.toNat]? else none

/-- Write cell `i` of the parameter field behind a dictionary address
(`!` stores into compiled bodies). -/
def VM.heapSetCell (vm : VM) (a : Nat) (i : Nat) (c : Cell) : VM :=
  { vm with heap := vm.heap.map fun p =>
      if p.1 = a then (p.1, { p.2 with body := p.2.body.set i c }) else p }

/-- `Forth::find_in_dict`: walk the links from `run_dict_tail`.  The walk
is fueled by the heap size; well-formed states never exhaust it. -/
def findInDictGo (heap : List (Nat × DictEntry)) (q : FaStr) :
    Nat → Option Nat → Option Nat
  | 0, _ => none
  | _, none => none
  | fuel + 1, some a =>
    match (heap.find? (fun p => p.1 == a)).map (·.2) with
    | none => none
    | some e =>
      if FaStr.beq e.name q then some a else findInDictGo heap q fuel e.link

/-- `Forth::find_in_dict` from the current tail. -/
def VM.findInDict (vm : VM) (q : FaStr) : Option Nat :=
  findInDictGo vm.heap q (vm.heap.length + 1) vm.runDictTail

/-- `Forth::find_in_bis`: first matching row of the static table. -/
def findInBis (q : FaStr) : Option Nat :=
  fullBuiltins.findIdx? (fun b => FaStr.beq ⟨b.name⟩ q)

/-- `Forth::find_word`: user dictionary first, then builtins. -/
def VM.findWord (vm : VM) (w : Bytes) : Option Ref :=
  match vm.findInDict ⟨w⟩ with
  | some a => some (.de a)
  | none => (findInBis ⟨w⟩).map .bi

/-! #### `Forth::lookup` -/

/-- `Lookup`. -/
inductive Lookup where
  | semicolon | ifTok | elseTok | thenTok | doTok | loopTok | lparen | lquote
  | dict (addr : Nat)
  | builtin (i : Nat)
  | literalTok (v : Int)
  deriving DecidableEq, Repr

/-- `i32::from_str`: optional sign, at least one decimal digit, value in
`i32` range. -/
def parseNum (w : Bytes) : Option Int :=
  match w with
  | [] => none
  | c :: rest =>
    let p : Int × Bytes :=
      if c = 43 then (1, rest) else if c = 45 then (-1, rest) else (1, w)
    if p.2 = [] then none
    else if p.2.all (fun d => 48 ≤ d ∧ d ≤ 57) then
      let v : Int := p.1 * ((p.2.foldl (fun a d => a * 10 + (d - 48)) 0 : Nat) : Int)
      if -2 ^ 31 ≤ v ∧ v ≤ 2 ^ 31 - 1 then some v else none
    else none

/-- `Forth::lookup`: reserved tokens, then the user dictionary, then the
builtin table, then numeric literals. -/
def VM.lookup (vm : VM) (w : Bytes) : Except Error Lookup :=
  if w = bws ";" then .ok .semicolon
  else if w = bws "if" then .ok .ifTok
  else if w = bws "else" then .ok .elseTok
  else if w = bws "then" then .ok .thenTok
  else if w = bws "do" then .ok .doTok
  else if w = bws "loop" then .ok .loopTok
  else if w = bws "(" then .ok .lparen
  else if w = bws ".\"" then .ok .lquote
  else
    match vm.findInDict ⟨w⟩ with
    | some a => .ok (.dict a)
    | none =>
      match findInBis ⟨w⟩ with
      | some i => .ok (.builtin i)
      | none =>
        match parseNum w with
        | some v => .ok (.literalTok v)
        | none => .error .lookupFailed

/-! ### Builtin words (`src/vm/builtins.rs`), non-recursive ones

Each definition mirrors the Rust method of the same name on `Forth<T>`.
Builtins that only touch the data stack, the return stack and the output
buffer are written over that restricted view (`Kern`) and lifted to the
full VM by `liftK`; the remaining builtins act on the whole VM. -/

/-- The part of the VM state the simple builtins read and write. -/
structure Kern where
  dataStack : Stk Cell
  returnStack : Stk Cell
  output : Bytes
  deriving DecidableEq, Repr

/-- Results of simple builtins; errors carry the state at failure. -/
abbrev KRes : Type := Except (Error × Kern) Kern

/-- Push onto the data stack. -/
def Kern.pushData (k : Kern) (c : Cell) : KRes :=
  match k.dataStack.push c with
  | some s => .ok { k with dataStack := s }
  | none => .error (.stackOverflow, k)

/-- `try_pop` on the data stack. -/
def Kern.tryPopData (k : Kern) : Except (Error × Kern) (Cell × Kern) :=
  match k.dataStack.pop with
  | some (c, s) => .ok (c, { k with dataStack := s })
  | none => .error (.stackEmpty, k)

/-- `try_peek` on the data stack. -/
def Kern.tryPeekData (k : Kern) : Except (Error × Kern) Cell :=
  match k.dataStack.peek with
  | some c => .ok c
  | none => .error (.stackEmpty, k)

/-- `try_peek_back_n` on the data stack. -/
def Kern.tryPeekDataBackN (k : Kern) (n : Nat) : Except (Error × Kern) Cell :=
  match k.dataStack.peekBackN n with
  | some c => .ok c
  | none => .error (.stackEmpty, k)

/-- Push onto the return stack. -/
def Kern.pushRet (k : Kern) (c : Cell) : KRes :=
  match k.returnStack.push c with
  | some s => .ok { k with returnStack := s }
  | none => .error (.stackOverflow, k)

/-- `try_pop` on the return stack. -/
def Kern.tryPopRet (k : Kern) : Except (Error × Kern) (Cell × Kern) :=
  match k.returnStack.pop with
  | some (c, s) => .ok (c, { k with returnStack := s })
  | none => .error (.stackEmpty, k)

/-- `try_peek` on the return stack. -/
def Kern.tryPeekRet (k : Kern) : Except (Error × Kern) Cell :=
  match k.returnStack.peek with
  | some c => .ok c
  | none => .error (.stackEmpty, k)

/-- `try_peek_back_n` on the return stack. -/
def Kern.tryPeekRetBackN (k : Kern) (n : Nat) : Except (Error × Kern) Cell :=
  match k.returnStack.peekBackN n with
  | some c => .ok c
  | none => .error (.stackEmpty, k)

/-- Append bytes to the output buffer. -/
def Kern.pushOut (k : Kern) (bs : Bytes) : Kern :=
  { k with output := k.output ++ bs }

namespace Forth

/-- `Forth::add` (`+`): `wrapping_add` on the `i32` views. -/
def add (k : Kern) : KRes := do
  let (a, k) ← k.tryPopData
  let (b, k) ← k.tryPopData
  k.pushData (.lit (wrap32 (a.dataView + b.dataView)))

/-- `Forth::minus` (`-`). -/
def minus (k : Kern) : KRes := do
  let (a, k) ← k.tryPopData
  let (b, k) ← k.tryPopData
  k.pushData (.lit (wrap32 (b.dataView - a.dataView)))

/-- `Forth::mul` (`*`). -/
def mul (k : Kern) : KRes := do
  let (a, k) ← k.tryPopData
  let (b, k) ← k.tryPopData
  k.pushData (.lit (wrap32 (a.dataView * b.dataView)))

/-- `Forth::div` (`/`): explicit divide-by-zero check, then plain `i32`
division (which itself panics on the `i32::MIN / -1` overflow). -/
def div (k : Kern) : KRes := do
  let (a, k) ← k.tryPopData
  let (b, k) ← k.tryPopData
  if a.dataView = 0 then .error (.divideByZero, k)
  else if b.dataView = -2 ^ 31 ∧ a.dataView = -1 then .error (.panicked, k)
  else k.pushData (.lit (Int.tdiv b.dataView a.dataView))

/-- `Forth::modu` (`mod`): checked zero divisor, plain `%` (panics on the
`i32::MIN % -1` overflow). -/
def modu (k : Kern) : KRes := do
  let (a, k) ← k.tryPopData
  let (b, k) ← k.tryPopData
  if a.dataView = 0 then .error (.divideByZero, k)
  else if b.dataView = -2 ^ 31 ∧ a.dataView = -1 then .error (.panicked, k)
  else k.pushData (.lit (Int.tmod b.dataView a.dataView))

/-- `Forth::div_mod` (`/mod`): checked zero divisor, pushes remainder then
quotient. -/
def divMod (k : Kern) : KRes := do
  let (a, k) ← k.tryPopData
  let (b, k) ← k.tryPopData
  if a.dataView = 0 then .error (.divideByZero, k)
  else if b.dataView = -2 ^ 31 ∧ a.dataView = -1 then .error (.panicked, k)
  else do
    let k ← k.pushData (.lit (Int.tmod b.dataView a.dataView))
    k.pushData (.lit (Int.tdiv b.dataView a.dataView))

/-- `Forth::star_slash` (`*/`): widen to `i64`, `wrapping_mul` then
`wrapping_div`, truncate to `i32`.  There is no zero-divisor check:
`wrapping_div` panics on a zero divisor. -/
def starSlash (k : Kern) : KRes := do
  let (n3, k) ← k.tryPopData
  let (n2, k) ← k.tryPopData
  let (n1, k) ← k.tryPopData
  let top := wrap64 (n1.dataView * n2.dataView)
  if n3.dataView = 0 then .error (.panicked, k)
  else k.pushData (.lit (wrap32 (wrap64div top n3.dataView)))

/-- `Forth::star_slash_mod` (`*/mod`): widen to `i64`, `wrapping_mul`, then
plain `/` and `%` (panicking on a zero divisor and on overflow); pushes
remainder then quotient, truncated to `i32`. -/
def starSlashMod (k : Kern) : KRes := do
  let (n3, k) ← k.tryPopData
  let (n2, k) ← k.tryPopData
  let (n1, k) ← k.tryPopData
  let top := wrap64 (n1.dataView * n2.dataView)
  let d := n3.dataView
  if d = 0 then .error (.panicked, k)
  else if top = -2 ^ 63 ∧ d = -1 then .error (.panicked, k)
  else do
    let k ← k.pushData (.lit (wrap32 (Int.tmod top d)))
    k.pushData (.lit (wrap32 (Int.tdiv top d)))

/-- `Forth::abs`: `wrapping_abs`. -/
def absW (k : Kern) : KRes := do
  let (a, k) ← k.tryPopData
  k.pushData (.lit (wrap32 (if a.dataView < 0 then -a.dataView else a.dataView)))

/-- `Forth::negate`: `wrapping_neg`. -/
def negate (k : Kern) : KRes := do
  let (a, k) ← k.tryPopData
  k.pushData (.lit (wrap32 (-a.dataView)))

/-- `Forth::min`. -/
def minW (k : Kern) : KRes := do
  let (a, k) ← k.tryPopData
  let (b, k) ← k.tryPopData
  k.pushData (.lit (Min.min a.dataView b.dataView))

/-- `Forth::max`. -/
def maxW (k : Kern) : KRes := do
  let (a, k) ← k.tryPopData
  let (b, k) ← k.tryPopData
  k.pushData (.lit (Max.max a.dataView b.dataView))

/-- `Forth::invert` (`not`): zero becomes -1, anything else 0.  `Word`
equality is the untagged cell comparison. -/
def invert (k : Kern) : KRes := do
  let (a, k) ← k.tryPopData
  k.pushData (if a = .lit 0 then .lit (-1) else .lit 0)

/-- `Forth::and` (bitwise `&` of the `i32` views, via the `u32` images). -/
def andW (k : Kern) : KRes := do
  let (a, k) ← k.tryPopData
  let (b, k) ← k.tryPopData
  let ua := (a.dataView % 2 ^ 32).toNat
  let ub := (b.dataView % 2 ^ 32).toNat
  k.pushData (.lit (wrap32 ((ua &&& ub : Nat) : Int)))

/-- `Forth::equal` (`=`): untagged cell comparison. -/
def equal (k : Kern) : KRes := do
  let (a, k) ← k.tryPopData
  let (b, k) ← k.tryPopData
  k.pushData (if a = b then .lit (-1) else .lit 0)

/-- `Forth::greater` (`>`). -/
def greater (k : Kern) : KRes := do
  let (a, k) ← k.tryPopData
  let (b, k) ← k.tryPopData
  k.pushData (if b.dataView > a.dataView then .lit (-1) else .lit 0)

/-- `Forth::less` (`<`). -/
def less (k : Kern) : KRes := do
  let (a, k) ← k.tryPopData
  let (b, k) ← k.tryPopData
  k.pushData (if b.dataView < a.dataView then .lit (-1) else .lit 0)

/-- `Forth::zero_equal` (`0=`): push 0, then `=`. -/
def zeroEqual (k : Kern) : KRes := do
  let k ← k.pushData (.lit 0)
  equal k

/-- `Forth::zero_greater` (`0>`). -/
def zeroGreater (k : Kern) : KRes := do
  let k ← k.pushData (.lit 0)
  greater k

/-- `Forth::zero_less` (`0<`). -/
def zeroLess (k : Kern) : KRes := do
  let k ← k.pushData (.lit 0)
  less k

/-- `Forth::swap`. -/
def swap (k : Kern) : KRes := do
  let (a, k) ← k.tryPopData
  let (b, k) ← k.tryPopData
  let k ← k.pushData a
  k.pushData b

/-- `Forth::dup`. -/
def dup (k : Kern) : KRes := do
  let v ← k.tryPeekData
  k.pushData v

/-- `Forth::over`. -/
def over (k : Kern) : KRes := do
  let a ← k.tryPeekDataBackN 1
  k.pushData a

/-- `Forth::rot`. -/
def rot (k : Kern) : KRes := do
  let (n1, k) ← k.tryPopData
  let (n2, k) ← k.tryPopData
  let (n3, k) ← k.tryPopData
  let k ← k.pushData n2
  let k ← k.pushData n1
  k.pushData n3

/-- `Forth::ds_drop` (`drop`). -/
def dsDrop (k : Kern) : KRes := do
  let (_, k) ← k.tryPopData
  .ok k

/-- `Forth::swap_2` (`2swap`). -/
def swap2 (k : Kern) : KRes := do
  let (a, k) ← k.tryPopData
  let (b, k) ← k.tryPopData
  let (c, k) ← k.tryPopData
  let (d, k) ← k.tryPopData
  let k ← k.pushData b
  let k ← k.pushData a
  let k ← k.pushData d
  k.pushData c

/-- `Forth::dup_2` (`2dup`). -/
def dup2 (k : Kern) : KRes := do
  let (a, k) ← k.tryPopData
  let (b, k) ← k.tryPopData
  let k ← k.pushData b
  let k ← k.pushData a
  let k ← k.pushData b
  k.pushData a

/-- `Forth::over_2` (`2over`). -/
def over2 (k : Kern) : KRes := do
  let a ← k.tryPeekDataBackN 2
  let b ← k.tryPeekDataBackN 3
  let k ← k.pushData b
  k.pushData a

/-- `Forth::ds_drop_2` (`2drop`). -/
def dsDrop2 (k : Kern) : KRes := do
  let (_, k) ← k.tryPopData
  let (_, k) ← k.tryPopData
  .ok k

/-- `Forth::emit`: write the low byte. -/
def emit (k : Kern) : KRes := do
  let (a, k) ← k.tryPopData
  .ok (k.pushOut [(a.dataView % 256).toNat])

/-- `Forth::cr`. -/
def cr (k : Kern) : KRes := .ok (k.pushOut [10])

/-- `Forth::space`. -/
def space (k : Kern) : KRes := .ok (k.pushOut [32])

/-- `Forth::spaces`: negative counts are rejected. -/
def spaces (k : Kern) : KRes := do
  let (a, k) ← k.tryPopData
  if a.dataView < 0 then .error (.loopCountIsNegative, k)
  else .ok (k.pushOut (List.replicate a.dataView.toNat 32))

/-- `Forth::pop_print` (`.`): decimal `i32` plus one space. -/
def popPrint (k : Kern) : KRes := do
  let (a, k) ← k.tryPopData
  .ok (k.pushOut (bws (toString a.dataView) ++ [32]))

/-- `Forth::unsigned_pop_print` (`u.`): the `u32` image plus one space. -/
def unsignedPopPrint (k : Kern) : KRes := do
  let (a, k) ← k.tryPopData
  .ok (k.pushOut (bws (toString (a.dataView % 2 ^ 32).toNat) ++ [32]))

/-- `Forth::data_to_return_stack` (`d>r`). -/
def dataToReturnStack (k : Kern) : KRes := do
  let (v, k) ← k.tryPopData
  k.pushRet v

/-- `Forth::data2_to_return2_stack` (`2d>2r`). -/
def data2ToReturn2Stack (k : Kern) : KRes := do
  let (a, k) ← k.tryPopData
  let (b, k) ← k.tryPopData
  let k ← k.pushRet b
  k.pushRet a

/-- `Forth::return_to_data_stack` (`r>d`). -/
def returnToDataStack (k : Kern) : KRes := do
  let (v, k) ← k.tryPopRet
  k.pushData v

/-- `Forth::loop_i` (`i`). -/
def loopI (k : Kern) : KRes := do
  let a ← k.tryPeekRet
  k.pushData a

/-- `Forth::loop_itick`. -/
def loopItick (k : Kern) : KRes := do
  let a ← k.tryPeekRetBackN 1
  k.pushData a

/-- `Forth::loop_j` (`j`). -/
def loopJ (k : Kern) : KRes := do
  let a ← k.tryPeekRetBackN 2
  k.pushData a

/-- `Forth::loop_leave` (`leave`): discard the index, push `limit - 1`
(`wrapping_sub`) so the next loop test terminates. -/
def loopLeave (k : Kern) : KRes := do
  let (_, k) ← k.tryPopRet
  let a ← k.tryPeekRet
  k.pushRet (.lit (wrap32 (a.dataView - 1)))

/-- `Forth::zero_const` (`0`). -/
def zeroConst (k : Kern) : KRes := k.pushData (.lit 0)

/-- `Forth::one_const` (`1`). -/
def oneConst (k : Kern) : KRes := k.pushData (.lit 1)

end Forth

/-- Run a simple builtin on the restricted view of the VM. -/
def liftK (f : Kern → KRes) (vm : VM) : Res VM :=
  match f ⟨vm.dataStack, vm.returnStack, vm.output⟩ with
  | .ok k =>
    .ok { vm with dataStack := k.dataStack, returnStack := k.returnStack,
                  output := k.output }
  | .error (e, k) =>
    .error (e, { vm with dataStack := k.dataStack,
                         returnStack := k.returnStack, output := k.output })

namespace Forth

/-- `Forth::var_load` (`@`): read through a parameter-field pointer.
Dereferencing anything else is undefined behaviour in the source and
surfaces as `internalError` in the embedding. -/
def varLoad (vm : VM) : Res VM := do
  let (w, vm) ← vm.tryPopData
  match w with
  | .addr r i =>
    match vm.cellAt r i with
    | some c => vm.pushData c
    | none => .error (.internalError, vm)
  | _ => .error (.internalError, vm)

/-- `Forth::var_store` (`!`). -/
def varStore (vm : VM) : Res VM := do
  let (wAddr, vm) ← vm.tryPopData
  let (wVal, vm) ← vm.tryPopData
  match wAddr with
  | .addr (.de a) i =>
    if 0 ≤ i ∧ (vm.cellAt (.de a) i).isSome then
      .ok (vm.heapSetCell a i.toNat wVal)
    else .error (.internalError, vm)
  | _ => .error (.internalError, vm)

/-- `Forth::word_add` (`w+`): word-granularity pointer offset.  Pointer
arithmetic on non-parameter-field pointers is not modelled. -/
def wordAdd (vm : VM) : Res VM := do
  let (wOff, vm) ← vm.tryPopData
  let (wAddr, vm) ← vm.tryPopData
  match wAddr with
  | .addr r i => vm.pushData (.addr r (i + wOff.dataView))
  | _ => .error (.internalError, vm)

/-- `Forth::constant` (`(constant)`): push parameter-field word 0 of the
entry being executed. -/
def constant (vm : VM) : Res VM := do
  let me ← vm.tryPeekCall
  match vm.cellAt me.eh 0 with
  | some c => vm.pushData c
  | none => .error (.internalError, vm)

/-- `Forth::variable` (`(variable)`): push the parameter-field address of
the entry being executed. -/
def varWord (vm : VM) : Res VM := do
  let me ← vm.tryPeekCall
  vm.pushData (.addr me.eh 0)

/-- `CallContext::get_next_val` (modelled from the spec, §4.5): the cell at
`idx + 1` read as an `i32`. -/
def getNextVal (vm : VM) (fr : Frame) : Except Error Int :=
  match vm.cellAt fr.eh ((fr.idx : Int) + 1) with
  | some (.lit v) => .ok v
  | some _ => .error .internalError
  | none => .error .badCfaOffset

/-- `Forth::jump` (`(jmp)`): read the offset after the caller's current
cell and move the caller by it. -/
def jump (vm : VM) : Res VM := do
  let parent ← vm.tryPeekCallBackN 1
  match getNextVal vm parent with
  | .error e => .error (e, vm)
  | .ok off =>
    match parent.offsetBy off with
    | some fr => vm.overwriteCallBackN 1 fr
    | none => .error (.badCfaOffset, vm)

/-- `Forth::skip_literal`: advance the caller past one literal cell. -/
def skipLiteral (vm : VM) : Res VM := do
  let parent ← vm.tryPeekCallBackN 1
  match parent.offsetBy 1 with
  | some fr => vm.overwriteCallBackN 1 fr
  | none => .error (.badCfaOffset, vm)

/-- `Forth::jump_if_zero` (`(jump-zero)`). -/
def jumpIfZero (vm : VM) : Res VM := do
  let (v, vm) ← vm.tryPopData
  if v.dataView = 0 then jump vm else skipLiteral vm

/-- `Forth::jump_doloop` (`(jmp-doloop)`): pop the counter, compare
`counter + 1` with the limit below it; loop back or fall through. -/
def jumpDoloop (vm : VM) : Res VM := do
  let (a, vm) ← vm.tryPopRet
  let b ← vm.tryPeekRet
  let ctr : Cell := .lit (wrap32 (a.dataView + 1))
  if ctr ≠ b then do
    let vm ← vm.pushRet ctr
    jump vm
  else do
    let (_, vm) ← vm.tryPopRet
    skipLiteral vm

/-- `Forth::literal` (`(literal)`): push the caller's next cell and advance
the caller past it. -/
def literal (vm : VM) : Res VM := do
  let parent ← vm.tryPeekCallBackN 1
  match vm.cellAt parent.eh ((parent.idx : Int) + 1) with
  | none => .error (.badCfaOffset, vm)
  | some c =>
    match parent.offsetBy 1 with
    | none => .error (.badCfaOffset, vm)
    | some fr => do
      let vm ← vm.overwriteCallBackN 1 fr
      vm.pushData c

/-- Gather `n` chunk cells of the caller's body starting at cell index
`start`. -/
def gatherChunks (vm : VM) (r : Ref) (start : Nat) : Nat → Option Bytes
  | 0 => some []
  | n + 1 =>
    match vm.cellAt r (start : Int) with
    | some (.chunk bs) =>
      match gatherChunks vm r (start + 1) n with
      | some rest => some (bs ++ rest)
      | none => none
    | _ => none

/-- `Forth::write_str_lit` (`(write-str)`): read the byte length, then the
inline chunk cells; push the bytes to the output and advance the caller
past the length and the chunks. -/
def writeStrLit (vm : VM) : Res VM := do
  let parent ← vm.tryPeekCallBackN 1
  match getNextVal vm parent with
  | .error e => .error (e, vm)
  | .ok len =>
    if len < 0 ∨ len > 65535 then .error (.literalStringTooLong, vm)
    else
      let lenWords := 1 + (len.toNat + (wordSize - 1)) / wordSize
      match gatherChunks vm parent.eh (parent.idx + 2) (lenWords - 1) with
      | none => .error (.internalError, vm)
      | some bytes =>
        let vm := vm.pushOut (bytes.take len.toNat)
        match parent.offsetBy (lenWords : Int) with
        | some fr => vm.overwriteCallBackN 1 fr
        | none => .error (.badCfaOffset, vm)

/-- `Forth::forget`: read a name, find it in the user dictionary (a static
builtin cannot be forgotten), unlink it, zero the arena from its address to
the cursor, and rewind the cursor.  As in the source, `run_dict_tail` is
rewound before the address sanity check. -/
def forget (vm : VM) : Res VM :=
  let vm := { vm with input := vm.input.advance }
  match vm.input.curWord with
  | none => .error (.forgetWithoutWordName, vm)
  | some w =>
    match vm.findInDict ⟨w⟩ with
    | none =>
      if (findInBis ⟨w⟩).isSome then .error (.cantForgetBuiltins, vm)
      else .error (.forgetNotInDict, vm)
    | some a =>
      match vm.heapGet a with
      | none => .error (.internalError, vm)
      | some e =>
        let vm := { vm with runDictTail := e.link }
        let d := vm.dictAlloc
        if d.containsAddr a ∧ a ≤ d.cur then
          let len := d.cur - a
          let d2 := { d with cur := a, mem := zeroFill d.mem a len }
          .ok { vm with dictAlloc := d2,
                        heap := vm.heap.filter (fun p => decide (p.1 < a)) }
        else .error (.internalError, vm)

end Forth

/-! ### The compiler (`munch_*`) and interpreter loops

These mirror `vm/mod.rs` and the recursive builtins of `vm/builtins.rs`.
The munch functions return the list of cells they appended to the
parameter field under construction (the running `*len` counter of the
source is the length of that list); the arena cursor accounting happens in
`VM.bumpWord`.  All loops are fueled. -/

/-- `dict_alloc.bump_write::<Word>(..)`: reserve one aligned cell in the
arena (the cell value itself is tracked logically by the munch caller). -/
def VM.bumpWord (vm : VM) : Res VM :=
  match vm.dictAlloc.bump wordAlign wordSize with
  | (.ok _, d) => .ok { vm with dictAlloc := d }
  | (.error e, d) => .error (bumpErr e, { vm with dictAlloc := d })

/-- Split inline string bytes into word-sized chunk cells. -/
def chunkify : Bytes → List Cell
  | [] => []
  | b :: rest =>
    .chunk ((b :: rest).take wordSize) :: chunkify ((b :: rest).drop wordSize)
  termination_by bs => bs.length
  decreasing_by simp [wordSize]; omega

/-- Cells appended plus the state, the result type of the munch family. -/
abbrev MRes : Type := Res (List Cell × VM)

/-- `Forth::munch_str` (`."` in compile mode): emit `(write-str)`, the byte
length, and the inline bytes rounded up to whole cells. -/
def munchStr (vm : VM) : MRes :=
  match vm.input.advanceStr with
  | none => .error (.lQuoteMissingRQuote, vm)
  | some ib =>
    let vm := { vm with input := ib }
    match vm.input.curStrLiteral with
    | none => .error (.lQuoteMissingRQuote, vm)
    | some s =>
      if s.length > 65535 then .error (.literalStringTooLong, vm)
      else
        match vm.findWord (bws "(write-str)") with
        | none => .error (.wordNotInDict, vm)
        | some r => do
          let vm ← vm.bumpWord
          let vm ← vm.bumpWord
          match vm.dictAlloc.bumpU8s s.length with
          | (none, d) => .error (.bumpOutOfMemory, { vm with dictAlloc := d })
          | (some _, d) =>
            .ok (.xt r :: .lit (s.length : Int) :: chunkify s,
                 { vm with dictAlloc := d })

mutual

/-- `Forth::process_line`: take one token, look it up, dispatch; append
`ok.\n` once the line is exhausted. -/
def processLine : Nat → VM → Res VM
  | 0, vm => .error (.fuelExhausted, vm)
  | fuel + 1, vm =>
    let vm := { vm with input := vm.input.advance }
    match vm.input.curWord with
    | none => .ok (vm.pushOut (bws "ok.\n"))
    | some w =>
      match vm.lookup w with
      | .error e => .error (e, vm)
      | .ok (.dict a) =>
        match vm.heapGet a with
        | none => .error (.internalError, vm)
        | some de =>
          match vm.callStack.push ⟨.de a, 0, de.flen⟩ with
          | none => .error (.stackOverflow, vm)
          | some cs =>
            match execFunc fuel de.func { vm with callStack := cs } with
            | .ok vm2 =>
              match vm2.callStack.pop with
              | none => .error (.callStackCorrupted, vm2)
              | some (_, cs2) => processLine fuel { vm2 with callStack := cs2 }
            | .error (e, vm2) =>
              match vm2.callStack.pop with
              | none => .error (.callStackCorrupted, vm2)
              | some (_, cs2) => .error (e, { vm2 with callStack := cs2 })
      | .ok (.builtin i) =>
        match fullBuiltins[i]? with
        | none => .error (.internalError, vm)
        | some b =>
          match vm.callStack.push ⟨.bi i, 0, 0⟩ with
          | none => .error (.stackOverflow, vm)
          | some cs =>
            match execBFn fuel b.fn { vm with callStack := cs } with
            | .ok vm2 =>
              match vm2.callStack.pop with
              | none => .error (.callStackCorrupted, vm2)
              | some (_, cs2) => processLine fuel { vm2 with callStack := cs2 }
            | .error (e, vm2) =>
              match vm2.callStack.pop with
              | none => .error (.callStackCorrupted, vm2)
              | some (_, cs2) => .error (e, { vm2 with callStack := cs2 })
      | .ok (.literalTok v) =>
        match vm.dataStack.push (.lit v) with
        | none => .error (.stackOverflow, vm)
        | some ds => processLine fuel { vm with dataStack := ds }
      | .ok .lparen => processLine fuel { vm with input := vm.input.munchComment }
      | .ok .semicolon => .error (.interpretingCompileOnlyWord, vm)
      | .ok .ifTok => .error (.interpretingCompileOnlyWord, vm)
      | .ok .elseTok => .error (.interpretingCompileOnlyWord, vm)
      | .ok .thenTok => .error (.interpretingCompileOnlyWord, vm)
      | .ok .doTok => .error (.interpretingCompileOnlyWord, vm)
      | .ok .loopTok => .error (.interpretingCompileOnlyWord, vm)
      | .ok .lquote =>
        match vm.input.advanceStr with
        | none => .error (.badStrLiteral, vm)
        | some ib =>
          match ib.curStrLiteral with
          | none => .error (.panicked, { vm with input := ib })
          | some s =>
            processLine fuel (VM.pushOut { vm with input := ib } s)

/-- `Forth::colon` (`:`): read the name, reserve it and the entry header in
the arena, then compile until `;` (`colonLoop`). -/
def colonFn : Nat → VM → Res VM
  | 0, vm => .error (.fuelExhausted, vm)
  | fuel + 1, vm =>
    let vm := { vm with input := vm.input.advance }
    match vm.input.curWord with
    | none => .error (.colonCompileMissingName, vm)
    | some nameBytes =>
      let oldMode := vm.mode
      let vm := { vm with mode := .compile }
      match vm.dictAlloc.bumpStr nameBytes with
      | (.error e, d) => .error (bumpErr e, { vm with dictAlloc := d })
      | (.ok name, d) =>
        let vm := { vm with dictAlloc := d }
        match vm.dictAlloc.bump dictEntryAlign dictEntrySize with
        | (.error e, d2) => .error (bumpErr e, { vm with dictAlloc := d2 })
        | (.ok base, d2) =>
          colonLoop fuel { vm with dictAlloc := d2 } name base oldMode []

/-- The compile loop of `Forth::colon`: munch until a lone `;`; finalize
the reserved entry (only then is it linked into `run_dict_tail`). -/
def colonLoop : Nat → VM → FaStr → Nat → Mode → List Cell → Res VM
  | 0, vm, _, _, _, _ => .error (.fuelExhausted, vm)
  | fuel + 1, vm, name, base, oldMode, acc =>
    match munchOne fuel vm with
    | .error e => .error e
    | .ok (cs, vm') =>
      if cs.isEmpty then
        match vm'.input.curWord with
        | some w =>
          if w = bws ";" then
            let entry : DictEntry :=
              { name := name, kind := .dictionary, flen := acc.length,
                func := .interp, link := vm'.runDictTail, body := acc }
            .ok { vm' with heap := (base, entry) :: vm'.heap,
                           runDictTail := some base, mode := oldMode }
          else colonLoop fuel vm' name base oldMode acc
        | none => .error (.colonCompileMissingSemicolon, vm')
      else colonLoop fuel vm' name base oldMode (acc ++ cs)

/-- `Forth::munch_one`: compile a single token. -/
def munchOne : Nat → VM → MRes
  | 0, vm => .error (.fuelExhausted, vm)
  | fuel + 1, vm =>
    let vm := { vm with input := vm.input.advance }
    match vm.input.curWord with
    | none => .ok ([], vm)
    | some w =>
      match vm.lookup w with
      | .error e => .error (e, vm)
      | .ok .ifTok => munchIf fuel vm
      | .ok .elseTok => .error (.elseBeforeIf, vm)
      | .ok .thenTok => .error (.thenBeforeIf, vm)
      | .ok .semicolon => .ok ([], vm)
      | .ok (.dict a) => do
        let vm ← vm.bumpWord
        .ok ([.xt (.de a)], vm)
      | .ok (.builtin i) => do
        let vm ← vm.bumpWord
        .ok ([.xt (.bi i)], vm)
      | .ok (.literalTok v) =>
        match vm.findWord (bws "(literal)") with
        | none => .error (.wordNotInDict, vm)
        | some r => do
          let vm ← vm.bumpWord
          let vm ← vm.bumpWord
          .ok ([.xt r, .lit v], vm)
      | .ok .doTok => munchDo fuel vm
      | .ok .loopTok => .error (.loopBeforeDo, vm)
      | .ok .lparen => .ok ([], { vm with input := vm.input.munchComment })
      | .ok .lquote => munchStr vm

/-- `Forth::munch_if`: `(jump-zero)` plus offset slot, the body up to
`else`/`then`, and for `else` a `(jmp)` plus offset slot and the else-body;
the offsets are patched in terms of the compiled body lengths. -/
def munchIf : Nat → VM → MRes
  | 0, vm => .error (.fuelExhausted, vm)
  | fuel + 1, vm =>
    match vm.findWord (bws "(jump-zero)") with
    | none => .error (.wordNotInDict, vm)
    | some rjz => do
      let vm ← vm.bumpWord
      let vm ← vm.bumpWord
      match munchIfLoopA fuel vm with
      | .error e => .error e
      | .ok (body, sawElse, vm2) =>
        if sawElse then
          match vm2.findWord (bws "(jmp)") with
          | none => .error (.wordNotInDict, vm2)
          | some rj => do
            let vm2 ← vm2.bumpWord
            let vm2 ← vm2.bumpWord
            match munchIfLoopB fuel vm2 with
            | .error e => .error e
            | .ok (ebody, vm3) =>
              .ok (.xt rjz :: .lit ((body.length : Int) + 3) ::
                     (body ++ .xt rj :: .lit ((ebody.length : Int) + 1) :: ebody),
                   vm3)
        else
          .ok (.xt rjz :: .lit ((body.length : Int) + 1) :: body, vm2)

/-- The first munch loop of `munch_if`: until `else` or `then`. -/
def munchIfLoopA : Nat → VM → Res (List Cell × Bool × VM)
  | 0, vm => .error (.fuelExhausted, vm)
  | fuel + 1, vm =>
    match munchOne fuel vm with
    | .ok ([], vm') => .error (.ifWithoutThen, vm')
    | .ok (cs, vm') =>
      match munchIfLoopA fuel vm' with
      | .ok (rest, sawElse, vm'') => .ok (cs ++ rest, sawElse, vm'')
      | .error e => .error e
    | .error (.elseBeforeIf, vm') => .ok ([], true, vm')
    | .error (.thenBeforeIf, vm') => .ok ([], false, vm')
    | .error e => .error e

/-- The second munch loop of `munch_if`: the else-body until `then`. -/
def munchIfLoopB : Nat → VM → Res (List Cell × VM)
  | 0, vm => .error (.fuelExhausted, vm)
  | fuel + 1, vm =>
    match munchOne fuel vm with
    | .ok ([], vm') => .error (.ifElseWithoutThen, vm')
    | .ok (cs, vm') =>
      match munchIfLoopB fuel vm' with
      | .ok (rest, vm'') => .ok (cs ++ rest, vm'')
      | .error e => .error e
    | .error (.elseBeforeIf, vm') => .error (.duplicateElse, vm')
    | .error (.thenBeforeIf, vm') => .ok ([], vm')
    | .error e => .error e

/-- `Forth::munch_do`: `2d>2r`, the body up to `loop`, then
`(jmp-doloop)` with the negative offset back to the body start. -/
def munchDo : Nat → VM → MRes
  | 0, vm => .error (.fuelExhausted, vm)
  | fuel + 1, vm =>
    match vm.findWord (bws "2d>2r") with
    | none => .error (.wordNotInDict, vm)
    | some r2 => do
      let vm ← vm.bumpWord
      match munchDoLoop fuel vm with
      | .error e => .error e
      | .ok (body, vm2) =>
        match vm2.findWord (bws "(jmp-doloop)") with
        | none => .error (.wordNotInDict, vm2)
        | some rdj => do
          let vm2 ← vm2.bumpWord
          let vm2 ← vm2.bumpWord
          .ok (.xt r2 :: (body ++ [.xt rdj, .lit (-((body.length : Int) + 1))]),
               vm2)

/-- The munch loop of `munch_do`: until `loop`. -/
def munchDoLoop : Nat → VM → Res (List Cell × VM)
  | 0, vm => .error (.fuelExhausted, vm)
  | fuel + 1, vm =>
    match munchOne fuel vm with
    | .ok ([], vm') => .error (.doWithoutLoop, vm')
    | .ok (cs, vm') =>
      match munchDoLoop fuel vm' with
      | .ok (rest, vm'') => .ok (cs ++ rest, vm'')
      | .error e => .error e
    | .error (.loopBeforeDo, vm') => .ok ([], vm')
    | .error e => .error e

/-- `Forth::interpret`: walk the caller's parameter field, pushing one
child frame per threaded call. -/
def interpretFn : Nat → VM → Res VM
  | 0, vm => .error (.fuelExhausted, vm)
  | fuel + 1, vm =>
    match vm.callStack.peek with
    | none => .error (.stackEmpty, vm)
    | some me =>
      if me.idx < me.len then
        match vm.cellAt me.eh (me.idx : Int) with
        | none => .ok vm
        | some (.lit v) =>
          if v = 0 then .error (.nullPointerInCFA, vm)
          else .error (.internalError, vm)
        | some (.chunk _) => .error (.internalError, vm)
        | some (.addr _ _) => .error (.internalError, vm)
        | some (.xt r) =>
          match vm.entryOf r with
          | none => .error (.internalError, vm)
          | some ent =>
            match vm.callStack.push ⟨r, 0, ent.flen⟩ with
            | none => .error (.stackOverflow, vm)
            | some cs =>
              match execFunc fuel ent.func { vm with callStack := cs } with
              | .ok vm2 =>
                match vm2.callStack.pop with
                | none => .error (.stackEmpty, vm2)
                | some (_, cs2) =>
                  let vm3 := { vm2 with callStack := cs2 }
                  match vm3.callStack.peek with
                  | none => .error (.stackEmpty, vm3)
                  | some me' =>
                    match me'.offsetBy 1 with
                    | none => .error (.badCfaOffset, vm3)
                    | some fr =>
                      match vm3.callStack.overwriteBackN 0 fr with
                      | none => .error (.stackEmpty, vm3)
                      | some cs3 => interpretFn fuel { vm3 with callStack := cs3 }
              | .error (e, vm2) =>
                match vm2.callStack.pop with
                | none => .error (.stackEmpty, vm2)
                | some (_, cs2) => .error (e, { vm2 with callStack := cs2 })
      else .ok vm

/-- Invoke the function pointer of an entry header. -/
def execFunc : Nat → FuncId → VM → Res VM
  | 0, _, vm => .error (.fuelExhausted, vm)
  | fuel + 1, .interp, vm => interpretFn fuel vm
  | fuel + 1, .table f, vm => execBFn fuel f vm

/-- Dispatch one static builtin function. -/
def execBFn : Nat → BFn → VM → Res VM
  | 0, _, vm => .error (.fuelExhausted, vm)
  | fuel + 1, f, vm =>
    match f with
    | .colon => colonFn fuel vm
    | .forget => Forth.forget vm
    | .add => liftK Forth.add vm
    | .minus => liftK Forth.minus vm
    | .div => liftK Forth.div vm
    | .modu => liftK Forth.modu vm
    | .divMod => liftK Forth.divMod vm
    | .mul => liftK Forth.mul vm
    | .abs => liftK Forth.absW vm
    | .negate => liftK Forth.negate vm
    | .min => liftK Forth.minW vm
    | .max => liftK Forth.maxW vm
    | .starSlash => liftK Forth.starSlash vm
    | .starSlashMod => liftK Forth.starSlashMod vm
    | .invert => liftK Forth.invert vm
    | .and => liftK Forth.andW vm
    | .equal => liftK Forth.equal vm
    | .greater => liftK Forth.greater vm
    | .less => liftK Forth.less vm
    | .zeroEqual => liftK Forth.zeroEqual vm
    | .zeroGreater => liftK Forth.zeroGreater vm
    | .zeroLess => liftK Forth.zeroLess vm
    | .swap => liftK Forth.swap vm
    | .dup => liftK Forth.dup vm
    | .over => liftK Forth.over vm
    | .rot => liftK Forth.rot vm
    | .dsDrop => liftK Forth.dsDrop vm
    | .swap2 => liftK Forth.swap2 vm
    | .dup2 => liftK Forth.dup2 vm
    | .over2 => liftK Forth.over2 vm
    | .dsDrop2 => liftK Forth.dsDrop2 vm
    | .emit => liftK Forth.emit vm
    | .cr => liftK Forth.cr vm
    | .space => liftK Forth.space vm
    | .spaces => liftK Forth.spaces vm
    | .popPrint => liftK Forth.popPrint vm
    | .unsignedPopPrint => liftK Forth.unsignedPopPrint vm
    | .dataToReturnStack => liftK Forth.dataToReturnStack vm
    | .data2ToReturn2Stack => liftK Forth.data2ToReturn2Stack vm
    | .returnToDataStack => liftK Forth.returnToDataStack vm
    | .loopI => liftK Forth.loopI vm
    | .loopItick => liftK Forth.loopItick vm
    | .loopJ => liftK Forth.loopJ vm
    | .loopLeave => liftK Forth.loopLeave vm
    | .varLoad => Forth.varLoad vm
    | .varStore => Forth.varStore vm
    | .wordAdd => Forth.wordAdd vm
    | .zeroConst => liftK Forth.zeroConst vm
    | .oneConst => liftK Forth.oneConst vm
    | .writeStrLit => Forth.writeStrLit vm
    | .jumpDoloop => Forth.jumpDoloop vm
    | .jumpIfZero => Forth.jumpIfZero vm
    | .jump => Forth.jump vm
    | .literal => Forth.literal vm
    | .constant => Forth.constant vm
    | .varWord => Forth.varWord vm

end

/-- `AsyncForth::process_line` (`vm/async_vm.rs`).  Modelled from the spec
for the inner loop (`start_processing_line` and `Step` live outside
`src/`; with no async builtins registered the inner loop behaves as the
synchronous `process_line`).  The error cleanup — clearing all three
stacks — is embedded from the source. -/
def AsyncForth.processLine (fuel : Nat) (vm : VM) : Res VM :=
  match Forth3.processLine fuel vm with
  | .ok vm' => .ok vm'
  | .error (e, vm') =>
    .error (e, { vm' with dataStack := vm'.dataStack.clear,
                          returnStack := vm'.returnStack.clear,
                          callStack := vm'.callStack.clear })

/-! ### Result projections and frame conditions (for stating invariants) -/

/-- The state carried by a munch result (success or failure). -/
def mresVM : MRes → VM
  | .ok (_, v) => v
  | .error (_, v) => v

/-- The state carried by a `munchIfLoopA` result. -/
def triVM : Res (List Cell × Bool × VM) → VM
  | .ok (_, _, v) => v
  | .error (_, v) => v

/-- The state carried by a `Res VM` result. -/
def resVM : Res VM → VM
  | .ok v => v
  | .error (_, v) => v

/-- What the munch family preserves: everything but the input buffer and
the arena cursor/contents — and the cursor only ever advances. -/
def MunchPres (vm vm' : VM) : Prop :=
  vm'.heap = vm.heap ∧ vm'.runDictTail = vm.runDictTail ∧
  vm'.callStack = vm.callStack ∧ vm'.dataStack = vm.dataStack ∧
  vm'.returnStack = vm.returnStack ∧ vm'.mode = vm.mode ∧
  vm'.output = vm.output ∧ vm.dictAlloc.cur ≤ vm'.dictAlloc.cur ∧
  vm'.dictAlloc.start = vm.dictAlloc.start ∧
  vm'.dictAlloc.endp = vm.dictAlloc.endp

/-! ### Concrete states used by witnesses -/

/-- An initial VM: empty stacks of small capacity, a 4 KiB arena at
address 1000, no user definitions. -/
def vm0 : VM :=
  { mode := .run,
    dataStack := ⟨[], 64⟩, returnStack := ⟨[], 64⟩, callStack := ⟨[], 64⟩,
    dictAlloc := DictionaryBump.new 1000 4096 (fun _ => 0),
    heap := [], runDictTail := none,
    input := ⟨[], none⟩, output := [] }

/-- Split an ASCII line into word tokens. -/
def wordToks (s : String) : List InTok := (s.splitOn " ").map (fun w => .word (bws w))

/-- Run one input line on a VM with generous fuel. -/
def runLine (vm : VM) (ts : List InTok) : Res VM :=
  processLine 400 { vm with input := ⟨ts, none⟩ }

/-- The eight reserved tokens of `Forth::lookup`. -/
def reservedToks : List Bytes :=
  [bws ";", bws "if", bws "else", bws "then", bws "do", bws "loop",
   bws "(", bws ".\""]

/-- A dictionary entry for witnesses: a user word whose body is a single
threaded call. -/
def mkUserEntry (name : String) (link : Option Nat) (body : List Cell) : DictEntry :=
  { name := ⟨bws name⟩, kind := .dictionary, flen := body.length,
    func := .interp, link := link, body := body }

/-- Witness VM for lookup precedence: user words named `+` (shadowing a
builtin) and `5` (shadowing a numeric literal). -/
def vmC10 : VM :=
  { vm0 with
    heap := [(1080, mkUserEntry "+" (some 1000) [.xt (.bi 49)]),
             (1000, mkUserEntry "5" none [.xt (.bi 48)])],
    runDictTail := some 1080 }

/-- Witness state for the division builtins: data stack `[0, 2, 1]` (top
first). -/
def kC4 : Kern := ⟨⟨[.lit 0, .lit 2, .lit 1], 64⟩, ⟨[], 64⟩, []⟩

/-- Well-formedness of the dictionary chain: every link points strictly
below its entry (true in any reachable state, since `link` is set at
finalize time to the strictly older list head). -/
def ChainDecreasing (heap : List (Nat × DictEntry)) : Prop :=
  ∀ p ∈ heap, ∀ l, p.2.link = some l → l < p.1

/-- Witness VM for `forget`: words `x` (at 1100) then `y` (at 1200), with
the arena cursor at 1300 and the input holding the token `y`. -/
def vmC5 : VM :=
  { vm0 with
    heap := [(1200, mkUserEntry "y" (some 1100) []),
             (1100, mkUserEntry "x" none [])],
    runDictTail := some 1200,
    dictAlloc := { DictionaryBump.new 1000 4096 (fun _ => 0) with cur := 1300 },
    input := ⟨[.word (bws "y")], none⟩ }

/-- The state after `forget y` on `vmC5`. -/
def vmC5' : VM :=
  match Forth.forget vmC5 with
  | .ok v => v
  | .error _ => vmC5

/-- Witness VM for an unterminated colon definition: the input line is
`: x 1` with no closing `;`. -/
def vmC6 : VM := { vm0 with input := ⟨[.word (bws "x"), .word (bws "1")], none⟩ }

/-- The state after the failing `:` on `vmC6`. -/
def vmC6' : VM :=
  match colonFn 10 vmC6 with
  | .ok v => v
  | .error (_, v) => v

/-- Witness VM for `if … then` code generation: the body is `dup then`. -/
def vmC2a : VM := { vm0 with input := ⟨[.word (bws "dup"), .word (bws "then")], none⟩ }

/-- `vmC2a` after reserving the `(jump-zero)` cell. -/
def vmC2b : VM := resVM vmC2a.bumpWord

/-- `vmC2b` after reserving the offset cell. -/
def vmC2c : VM := resVM vmC2b.bumpWord

/-- The state after munching the if-body on `vmC2c`. -/
def vmC2d : VM := triVM (munchIfLoopA 10 vmC2c)

/-- Witness VM for `do … loop` code generation: the body is `dup loop`. -/
def vmC3a : VM := { vm0 with input := ⟨[.word (bws "dup"), .word (bws "loop")], none⟩ }

/-- `vmC3a` after reserving the `2d>2r` cell. -/
def vmC3b : VM := resVM vmC3a.bumpWord

/-- The state after munching the do-body on `vmC3b`. -/
def vmC3c : VM := mresVM (munchDoLoop 10 vmC3b)

/-- `vmC3c` after reserving the `(jmp-doloop)` cell. -/
def vmC3d : VM := resVM vmC3c.bumpWord

/-- `vmC3d` after reserving its offset cell. -/
def vmC3e : VM := resVM vmC3d.bumpWord

/-- Witness VM for the `(jmp-doloop)` runtime: counter 0, limit 5 on the
return stack; the caller is at the `(jmp-doloop)` cell of the compiled
empty loop `2d>2r (jmp-doloop) -1`. -/
def vmC3r : VM :=
  { vm0 with
    heap := [(2000, { name := ⟨bws "lp"⟩, kind := .dictionary, flen := 3,
                      func := .interp, link := none,
                      body := [.xt (.bi 38), .xt (.bi 50), .lit (-1)] })],
    runDictTail := some 2000,
    returnStack := ⟨[.lit 0, .lit 5], 64⟩,
    callStack := ⟨[⟨.bi 50, 0, 0⟩, ⟨.de 2000, 1, 3⟩], 64⟩ }

/-- Witness VM for the call-frame balance on failure: one unknown token,
so line processing fails with `LookupFailed`. -/
def vmC9e : VM := { vm0 with input := ⟨[.word (bws "q")], none⟩ }

/-- The error state the async variant reports for `vmC9e`: lookup failed
on `q` and the (already empty) stacks were cleared. -/
def vmC9err : VM := { vmC9e with input := vmC9e.input.advance }

/-! ### The kernel-only fragment (for the compile/interpret duality) -/

/-- The `Kern` function a builtin tag dispatches to through `liftK`: the
rows of `execBFn` that are simple stack/output builtins (`none` for the
builtins that touch the input, the dictionary or the call stack). -/
def BFn.kernView : BFn → Option (Kern → KRes)
  | .add => some Forth.add
  | .minus => some Forth.minus
  | .div => some Forth.div
  | .modu => some Forth.modu
  | .divMod => some Forth.divMod
  | .mul => some Forth.mul
  | .abs => some Forth.absW
  | .negate => some Forth.negate
  | .min => some Forth.minW
  | .max => some Forth.maxW
  | .starSlash => some Forth.starSlash
  | .starSlashMod => some Forth.starSlashMod
  | .invert => some Forth.invert
  | .and => some Forth.andW
  | .equal => some Forth.equal
  | .greater => some Forth.greater
  | .less => some Forth.less
  | .zeroEqual => some Forth.zeroEqual
  | .zeroGreater => some Forth.zeroGreater
  | .zeroLess => some Forth.zeroLess
  | .swap => some Forth.swap
  | .dup => some Forth.dup
  | .over => some Forth.over
  | .rot => some Forth.rot
  | .dsDrop => some Forth.dsDrop
  | .swap2 => some Forth.swap2
  | .dup2 => some Forth.dup2
  | .over2 => some Forth.over2
  | .dsDrop2 => some Forth.dsDrop2
  | .emit => some Forth.emit
  | .cr => some Forth.cr
  | .space => some Forth.space
  | .spaces => some Forth.spaces
  | .popPrint => some Forth.popPrint
  | .unsignedPopPrint => some Forth.unsignedPopPrint
  | .dataToReturnStack => some Forth.dataToReturnStack
  | .data2ToReturn2Stack => some Forth.data2ToReturn2Stack
  | .returnToDataStack => some Forth.returnToDataStack
  | .loopI => some Forth.loopI
  | .loopItick => some Forth.loopItick
  | .loopJ => some Forth.loopJ
  | .loopLeave => some Forth.loopLeave
  | .zeroConst => some Forth.zeroConst
  | .oneConst => some Forth.oneConst
  | _ => none

/-- The kernel function of builtin-table row `i`, if that row is a simple
stack/output builtin. -/
def kernOf (i : Nat) : Option (Kern → KRes) :=
  match fullBuiltins[i]? with
  | some b => b.fn.kernView
  | none => none

/-- `Forth::lookup` as a function of the dictionary view it reads — the
heap and the list tail (definitionally equal to `VM.lookup`). -/
def lookupIn (heap : List (Nat × DictEntry)) (tail : Option Nat) (w : Bytes) :
    Except Error Lookup :=
  if w = bws ";" then .ok .semicolon
  else if w = bws "if" then .ok .ifTok
  else if w = bws "else" then .ok .elseTok
  else if w = bws "then" then .ok .thenTok
  else if w = bws "do" then .ok .doTok
  else if w = bws "loop" then .ok .loopTok
  else if w = bws "(" then .ok .lparen
  else if w = bws ".\"" then .ok .lquote
  else
    match findInDictGo heap ⟨w⟩ (heap.length + 1) tail with
    | some a => .ok (.dict a)
    | none =>
      match findInBis ⟨w⟩ with
      | some i => .ok (.builtin i)
      | none =>
        match parseNum w with
        | some v => .ok (.literalTok v)
        | none => .error .lookupFailed

/-- The builtin-table row a word resolves to under `lookupIn`. -/
def lookupBI (heap : List (Nat × DictEntry)) (tail : Option Nat) (w : Bytes) :
    Option Nat :=
  match lookupIn heap tail w with
  | .ok (.builtin i) => some i
  | _ => none

/-- Run a list of kernel functions in sequence. -/
def runK : List (Kern → KRes) → Kern → KRes
  | [], k => .ok k
  | g :: gs, k =>
    match g k with
    | .ok k2 => runK gs k2
    | .error e => .error e

/-- The kernel view of a VM. -/
def VM.kern (vm : VM) : Kern := ⟨vm.dataStack, vm.returnStack, vm.output⟩

/-- Threaded calls to the given builtin rows. -/
def xtsOf (is : List Nat) : List Cell := is.map (fun i => .xt (.bi i))

/-- The token line `: nx ws… ;`. -/
def mkColonLine (nx : Bytes) (ws : List Bytes) : List InTok :=
  .word (bws ":") :: .word nx :: ws.map .word ++ [.word (bws ";")]

/-- Witness VM for the duality: a `3` already on the data stack. -/
def vmC1 : VM := { vm0 with dataStack := ⟨[.lit 3], 64⟩ }

/-- Arena state after reserving the name `sq` on `vmC1`. -/
def dC1a : DictionaryBump := (vmC1.dictAlloc.bumpStr (bws "sq")).2

/-- Arena state after also reserving the entry header. -/
def dC1b : DictionaryBump := (dC1a.bump dictEntryAlign dictEntrySize).2

/-- Arena state after reserving the name `y` on `vm0` (counterexample). -/
def dY1 : DictionaryBump := (vm0.dictAlloc.bumpStr (bws "y")).2

/-- Arena state after also reserving `y`'s entry header. -/
def dY2 : DictionaryBump := (dY1.bump dictEntryAlign dictEntrySize).2

/-- The entry the direct line `: y ; 65 emit` defines. -/
def entY : DictEntry :=
  { name := ⟨bws "y"⟩, kind := .dictionary, flen := 0, func := .interp,
    link := none, body := [] }

/-- The state after the direct line `: y ; 65 emit`. -/
def vmD : VM :=
  { vm0 with heap := [(1008, entY)], runDictTail := some 1008,
             dictAlloc := dY2, input := ⟨[], none⟩,
             output := 65 :: bws "ok.\n" }

/-- Arena state after reserving the name `x` on `vm0` (counterexample). -/
def dX1 : DictionaryBump := (vm0.dictAlloc.bumpStr (bws "x")).2

/-- Arena state after also reserving `x`'s entry header. -/
def dX2 : DictionaryBump := (dX1.bump dictEntryAlign dictEntrySize).2

/-- The error state of the failed compilation `: x : y ; 65 emit ;`: the
inner `:` compiled to a threaded call, then `y` failed to resolve; the
header stays reserved and unlinked, the mode stays compile, nothing was
printed. -/
def vmE : VM :=
  { vm0 with mode := .compile,
             dictAlloc := { dX2 with cur := dX2.cur + 8 },
             input := ⟨[.word (bws ";"), .word (bws "65"),
                        .word (bws "emit"), .word (bws ";")],
                       some (.word (bws "y"))⟩ }

/-! ### Theorems -/

/-! #### Helper lemmas about `LenHash` / `FaStr` -/

theorem fnv1a32_lt (bs : Bytes) : fnv1a32 bs < 2 ^ 32 := by
  induction bs using List.reverseRecOn with
  | nil => simp [fnv1a32, fnvBasis]
  | append_singleton xs x _ =>
    simp only [fnv1a32, List.foldl_append, List.foldl_cons, List.foldl_nil]
    exact Nat.mod_lt _ (by norm_num)

theorem LenHash.len_fromBstr (s : Bytes) :
    (LenHash.fromBstr s).len = Nat.min s.length 31 := by
  unfold LenHash.fromBstr LenHash.len
  simp only
  have h1 : fnv1a32 (s.take (Nat.min s.length 31)) % 2 ^ 24 < 2 ^ 24 :=
    Nat.mod_lt _ (by norm_num)
  have h2 : Nat.min s.length 31 ≤ 31 := Nat.min_le_right _ _
  generalize Nat.min s.length 31 = len at *
  generalize fnv1a32 (s.take len) % 2 ^ 24 = h at *
  omega

theorem FaStr.asBytes_take (f : FaStr) :
    f.asBytes = f.region.take (Nat.min f.region.length 31) := by
  unfold FaStr.asBytes FaStr.lenHash
  rw [LenHash.len_fromBstr]

theorem FaStr.lenHash_of_asBytes {a b : FaStr} (h : a.asBytes = b.asBytes) :
    a.lenHash = b.lenHash := by
  have hl : Nat.min a.region.length 31 = Nat.min b.region.length 31 := by
    have := congrArg List.length h
    rw [FaStr.asBytes_take, FaStr.asBytes_take] at this
    simpa using this
  have ht : a.region.take (Nat.min a.region.length 31) =
      b.region.take (Nat.min b.region.length 31) := by
    rw [← FaStr.asBytes_take, ← FaStr.asBytes_take]
    exact h
  unfold FaStr.lenHash LenHash.fromBstr
  simp only
  rw [ht, hl]

theorem FaStr.beq_iff_asBytes (a b : FaStr) :
    FaStr.beq a b = true ↔ a.asBytes = b.asBytes := by
  unfold FaStr.beq
  constructor
  · intro h
    split at h
    · simpa using h
    · simp at h
  · intro h
    have he : a.lenHash.eqIgnoreBits b.lenHash = true := by
      rw [FaStr.lenHash_of_asBytes h]
      simp [LenHash.eqIgnoreBits]
    rw [he]
    simpa using h

/-- C8.  FaStr name identity: equality holds iff the packed `(hash, len)`
descriptors match ignoring the 3 reserved high bits and the byte ranges are
byte-equal; the relation is reflexive, symmetric and transitive; and any
two distinct byte sequences of length ≤ 31 compare unequal. -/
theorem c8_fastr_name_identity :
    (∀ a b : FaStr, FaStr.beq a b = true ↔
      (a.lenHash.eqIgnoreBits b.lenHash = true ∧ a.asBytes = b.asBytes))
    ∧ (∀ a : FaStr, FaStr.beq a a = true)
    ∧ (∀ a b : FaStr, FaStr.beq a b = true → FaStr.beq b a = true)
    ∧ (∀ a b c : FaStr,
        FaStr.beq a b = true → FaStr.beq b c = true → FaStr.beq a c = true)
    ∧ (∀ a b : FaStr, a.region.length ≤ 31 → b.region.length ≤ 31 →
        a.region ≠ b.region → FaStr.beq a b = false) := by
  refine ⟨?_, ?_, ?_, ?_, ?_⟩
  · intro a b
    rw [FaStr.beq_iff_asBytes]
    constructor
    · intro h
      refine ⟨?_, h⟩
      rw [FaStr.lenHash_of_asBytes h]
      simp [LenHash.eqIgnoreBits]
    · intro h
      exact h.2
  · intro a
    rw [FaStr.beq_iff_asBytes]
  · intro a b h
    rw [FaStr.beq_iff_asBytes] at h ⊢
    exact h.symm
  · intro a b c h1 h2
    rw [FaStr.beq_iff_asBytes] at h1 h2 ⊢
    exact h1.trans h2
  · intro a b ha hb hne
    by_contra hcon
    rw [Bool.not_eq_false, FaStr.beq_iff_asBytes] at hcon
    rw [FaStr.asBytes_take, FaStr.asBytes_take] at hcon
    have hma : Nat.min a.region.length 31 = a.region.length := Nat.min_eq_left ha
    have hmb : Nat.min b.region.length 31 = b.region.length := Nat.min_eq_left hb
    rw [hma, hmb, List.take_length, List.take_length] at hcon
    exact hne hcon

/-- C8 witness: the identity theorem applied at concrete names. -/
theorem c8_fastr_name_identity_witness :
    FaStr.beq ⟨bws "dup"⟩ ⟨bws "dup"⟩ = true ∧
    FaStr.beq ⟨bws "dup"⟩ ⟨bws "swap"⟩ = false :=
  ⟨c8_fastr_name_identity.2.1 ⟨bws "dup"⟩,
   c8_fastr_name_identity.2.2.2.2 ⟨bws "dup"⟩ ⟨bws "swap"⟩
     (by decide) (by decide) (by decide)⟩

/-! #### C7: arena bounds -/

theorem bumpU8s_none_state (b : DictionaryBump) (n : Nat)
    (h : (b.bumpU8s n).1 = none) : (b.bumpU8s n).2 = b := by
  by_cases h0 : n = 0
  · simp [DictionaryBump.bumpU8s, h0]
  · by_cases h1 : b.cur + n > b.endp
    · simp [DictionaryBump.bumpU8s, h0, h1]
    · simp [DictionaryBump.bumpU8s, h0, h1] at h

theorem bumpU8s_frame (b : DictionaryBump) (n : Nat) (h : b.cur ≤ b.endp) :
    (b.bumpU8s n).2.endp = b.endp ∧ (b.bumpU8s n).2.start = b.start ∧
      (b.bumpU8s n).2.cur ≤ b.endp := by
  by_cases h0 : n = 0
  · simp [DictionaryBump.bumpU8s, h0, h]
  · by_cases h1 : b.cur + n > b.endp
    · simp [DictionaryBump.bumpU8s, h0, h1, h]
    · simp [DictionaryBump.bumpU8s, h0, h1]
      omega

theorem bumpU8_frame (b : DictionaryBump) (h : b.cur ≤ b.endp) :
    b.bumpU8.2.endp = b.endp ∧ b.bumpU8.2.start = b.start ∧
      b.bumpU8.2.cur ≤ b.endp := by
  by_cases h1 : b.cur ≥ b.endp
  · simp [DictionaryBump.bumpU8, h1, h]
  · simp [DictionaryBump.bumpU8, h1]
    omega

theorem bump_frame (b : DictionaryBump) (a s : Nat) (h : b.cur ≤ b.endp) :
    (b.bump a s).2.endp = b.endp ∧ (b.bump a s).2.start = b.start ∧
      (b.bump a s).2.cur ≤ b.endp := by
  by_cases h1 : b.cur + alignOffset b.cur a + s > b.endp
  · simp [DictionaryBump.bump, h1, h]
  · simp [DictionaryBump.bump, h1]
    omega

theorem bumpStr_frame (b : DictionaryBump) (s : Bytes) (h : b.cur ≤ b.endp) :
    (b.bumpStr s).2.endp = b.endp ∧ (b.bumpStr s).2.start = b.start ∧
      (b.bumpStr s).2.cur ≤ b.endp := by
  simp only [DictionaryBump.bumpStr]
  split
  · rcases hb : b.bumpU8s (Nat.min s.length 31) with ⟨r, b'⟩
    have hf := bumpU8s_frame b (Nat.min s.length 31) h
    rw [hb] at hf
    cases r with
    | none => simpa using hf
    | some addr => simpa using hf
  · exact ⟨rfl, rfl, h⟩

theorem applyArenaOp_cur_le (b : DictionaryBump) (op : ArenaOp)
    (h : b.cur ≤ b.endp) : (applyArenaOp b op).cur ≤ (applyArenaOp b op).endp := by
  cases op with
  | opBump a s =>
    have hf := bump_frame b a s h
    simp only [applyArenaOp]
    omega
  | opBumpU8s n =>
    have hf := bumpU8s_frame b n h
    simp only [applyArenaOp]
    omega
  | opBumpU8 =>
    have hf := bumpU8_frame b h
    simp only [applyArenaOp]
    omega
  | opBumpStr s =>
    have hf := bumpStr_frame b s h
    simp only [applyArenaOp]
    omega

theorem applyArenaOps_cur_le (b : DictionaryBump) (ops : List ArenaOp)
    (h : b.cur ≤ b.endp) :
    (applyArenaOps b ops).cur ≤ (applyArenaOps b ops).endp := by
  induction ops generalizing b with
  | nil => exact h
  | cons op rest ih =>
    exact ih (applyArenaOp b op) (applyArenaOp_cur_le b op h)

/-- C7.  Arena bounds: for any sequence of allocations on a freshly
constructed arena, `used ≤ capacity`; and whenever `bump`, `bump_u8s`,
`bump_u8` or `bump_str` fails with out-of-memory, the cursor is exactly the
cursor at entry. -/
theorem c7_arena_bounds :
    (∀ bottom size m0 (ops : List ArenaOp),
      (applyArenaOps (DictionaryBump.new bottom size m0) ops).used ≤
        (applyArenaOps (DictionaryBump.new bottom size m0) ops).capacity)
    ∧ (∀ (b : DictionaryBump) (align sz : Nat),
        (b.bump align sz).1 = .error .outOfMemory → (b.bump align sz).2.cur = b.cur)
    ∧ (∀ (b : DictionaryBump) (n : Nat),
        (b.bumpU8s n).1 = none → (b.bumpU8s n).2.cur = b.cur)
    ∧ (∀ b : DictionaryBump, b.bumpU8.1 = none → b.bumpU8.2.cur = b.cur)
    ∧ (∀ (b : DictionaryBump) (s : Bytes),
        (b.bumpStr s).1 = .error .outOfMemory → (b.bumpStr s).2.cur = b.cur) := by
  refine ⟨?_, ?_, ?_, ?_, ?_⟩
  · intro bottom size m0 ops
    have hcur : (applyArenaOps (DictionaryBump.new bottom size m0) ops).cur ≤
        (applyArenaOps (DictionaryBump.new bottom size m0) ops).endp :=
      applyArenaOps_cur_le _ _ (by simp [DictionaryBump.new])
    unfold DictionaryBump.used DictionaryBump.capacity
    omega
  · intro b align sz h
    by_cases hc : b.cur + alignOffset b.cur align + sz > b.endp
    · simp [DictionaryBump.bump, hc]
    · simp [DictionaryBump.bump, hc] at h
  · intro b n h
    rw [bumpU8s_none_state b n h]
  · intro b h
    by_cases hc : b.cur ≥ b.endp
    · simp [DictionaryBump.bumpU8, hc]
    · simp [DictionaryBump.bumpU8, hc] at h
  · intro b s h
    by_cases hascii : ((s.take (Nat.min s.length 31)).all fun c => decide (c < 128)) = true
    · rcases hb : b.bumpU8s (Nat.min s.length 31) with ⟨r, b'⟩
      cases r with
      | none =>
        have hst : b' = b := by
          have := bumpU8s_none_state b (Nat.min s.length 31) (by rw [hb])
          rw [hb] at this
          exact this
        subst hst
        simp [DictionaryBump.bumpStr, hascii, hb]
      | some addr =>
        exfalso
        simp [DictionaryBump.bumpStr, hascii, hb] at h
    · simp [DictionaryBump.bumpStr, hascii] at h

/-- C7 witness: the bounds theorem at a concrete arena and a concrete
failing allocation. -/
theorem c7_arena_bounds_witness :
    (applyArenaOps (DictionaryBump.new 0 16 (fun _ => 0))
        [.opBump 8 8, .opBumpU8, .opBumpStr (bws "xy"), .opBump 8 8]).used ≤
      (applyArenaOps (DictionaryBump.new 0 16 (fun _ => 0))
        [.opBump 8 8, .opBumpU8, .opBumpStr (bws "xy"), .opBump 8 8]).capacity
    ∧ ((DictionaryBump.new 0 4 (fun _ => 0)).bump 8 8).2.cur =
        (DictionaryBump.new 0 4 (fun _ => 0)).cur :=
  ⟨c7_arena_bounds.1 0 16 (fun _ => 0) _,
   c7_arena_bounds.2.1 (DictionaryBump.new 0 4 (fun _ => 0)) 8 8 rfl⟩

/-! #### C10: lookup precedence -/

/-- C10.  Lookup precedence: the eight reserved tokens resolve first; for
any other token the user dictionary (newest-first) is searched before the
builtin table, which is searched before signed 32-bit decimal parsing.
Consequently a user definition shadows a builtin of the same name, and a
user definition whose name parses as a number shadows the literal. -/
theorem c10_lookup_precedence :
    (∀ vm : VM,
      vm.lookup (bws ";") = .ok .semicolon ∧
      vm.lookup (bws "if") = .ok .ifTok ∧
      vm.lookup (bws "else") = .ok .elseTok ∧
      vm.lookup (bws "then") = .ok .thenTok ∧
      vm.lookup (bws "do") = .ok .doTok ∧
      vm.lookup (bws "loop") = .ok .loopTok ∧
      vm.lookup (bws "(") = .ok .lparen ∧
      vm.lookup (bws ".\"") = .ok .lquote)
    ∧ (∀ (vm : VM) (w : Bytes) (a : Nat), w ∉ reservedToks →
        vm.findInDict ⟨w⟩ = some a → vm.lookup w = .ok (.dict a))
    ∧ (∀ (vm : VM) (w : Bytes) (i : Nat), w ∉ reservedToks →
        vm.findInDict ⟨w⟩ = none → findInBis ⟨w⟩ = some i →
        vm.lookup w = .ok (.builtin i))
    ∧ (∀ (vm : VM) (w : Bytes) (v : Int), w ∉ reservedToks →
        vm.findInDict ⟨w⟩ = none → findInBis ⟨w⟩ = none →
        parseNum w = some v → vm.lookup w = .ok (.literalTok v))
    ∧ (∀ (vm : VM) (w : Bytes), w ∉ reservedToks →
        vm.findInDict ⟨w⟩ = none → findInBis ⟨w⟩ = none →
        parseNum w = none → vm.lookup w = .error .lookupFailed) := by
  refine ⟨?_, ?_, ?_, ?_, ?_⟩
  · intro vm
    refine ⟨?_, ?_, ?_, ?_, ?_, ?_, ?_, ?_⟩ <;> simp [VM.lookup, bws]
  · intro vm w a hres hdict
    simp only [reservedToks, List.mem_cons, List.not_mem_nil, or_false, not_or] at hres
    obtain ⟨h1, h2, h3, h4, h5, h6, h7, h8⟩ := hres
    simp [VM.lookup, h1, h2, h3, h4, h5, h6, h7, h8, hdict]
  · intro vm w i hres hdict hbis
    simp only [reservedToks, List.mem_cons, List.not_mem_nil, or_false, not_or] at hres
    obtain ⟨h1, h2, h3, h4, h5, h6, h7, h8⟩ := hres
    simp [VM.lookup, h1, h2, h3, h4, h5, h6, h7, h8, hdict, hbis]
  · intro vm w v hres hdict hbis hnum
    simp only [reservedToks, List.mem_cons, List.not_mem_nil, or_false, not_or] at hres
    obtain ⟨h1, h2, h3, h4, h5, h6, h7, h8⟩ := hres
    simp [VM.lookup, h1, h2, h3, h4, h5, h6, h7, h8, hdict, hbis, hnum]
  · intro vm w hres hdict hbis hnum
    simp only [reservedToks, List.mem_cons, List.not_mem_nil, or_false, not_or] at hres
    obtain ⟨h1, h2, h3, h4, h5, h6, h7, h8⟩ := hres
    simp [VM.lookup, h1, h2, h3, h4, h5, h6, h7, h8, hdict, hbis, hnum]

/-- C10 witness: on `vmC10`, the user word `+` shadows the builtin `+`, the
user word `5` shadows the numeric literal `5`, and `if` stays reserved. -/
theorem c10_lookup_precedence_witness :
    vmC10.lookup (bws "+") = .ok (.dict 1080) ∧
    vmC10.lookup (bws "5") = .ok (.dict 1000) ∧
    vmC10.lookup (bws "if") = .ok .ifTok :=
  ⟨c10_lookup_precedence.2.1 vmC10 (bws "+") 1080 (by decide) (by decide),
   c10_lookup_precedence.2.1 vmC10 (bws "5") 1000 (by decide) (by decide),
   (c10_lookup_precedence.1 vmC10).2.1⟩

/-! #### C4: division builtins on a zero divisor -/

/-- C4 counterexample: `*/` with a zero divisor does not return the
divide-by-zero error — `i64::wrapping_div` panics (a trap), modelled as
`Error.panicked`.  The data stack of `kC4` is `[0, 2, 1]`. -/
theorem c4_star_slash_zero_traps :
    Forth.starSlash kC4 = .error (.panicked, { kC4 with dataStack := ⟨[], 64⟩ }) ∧
    Error.panicked ≠ Error.divideByZero := by
  constructor
  · rfl
  · decide

/-- C4 (amended).  On a zero divisor on top of the data stack, `/`, `mod`
and `/mod` return the `DivideByZero` runtime error, while `*/` and `*/mod`
perform unchecked `i64` division and trap (panic). -/
theorem c4_divide_by_zero :
    (∀ (k : Kern) (b : Cell) (rest : List Cell),
      k.dataStack.items = .lit 0 :: b :: rest →
      ∃ k', Forth.div k = .error (.divideByZero, k'))
    ∧ (∀ (k : Kern) (b : Cell) (rest : List Cell),
        k.dataStack.items = .lit 0 :: b :: rest →
        ∃ k', Forth.modu k = .error (.divideByZero, k'))
    ∧ (∀ (k : Kern) (b : Cell) (rest : List Cell),
        k.dataStack.items = .lit 0 :: b :: rest →
        ∃ k', Forth.divMod k = .error (.divideByZero, k'))
    ∧ (∀ (k : Kern) (n2 n1 : Cell) (rest : List Cell),
        k.dataStack.items = .lit 0 :: n2 :: n1 :: rest →
        ∃ k', Forth.starSlash k = .error (.panicked, k'))
    ∧ (∀ (k : Kern) (n2 n1 : Cell) (rest : List Cell),
        k.dataStack.items = .lit 0 :: n2 :: n1 :: rest →
        ∃ k', Forth.starSlashMod k = .error (.panicked, k')) := by
  refine ⟨?_, ?_, ?_, ?_, ?_⟩
  · intro k b rest h
    refine ⟨{ k with dataStack := { k.dataStack with items := rest } }, ?_⟩
    simp [Forth.div, Kern.tryPopData, Stk.pop, h, Cell.dataView, Bind.bind, Except.bind]
  · intro k b rest h
    refine ⟨{ k with dataStack := { k.dataStack with items := rest } }, ?_⟩
    simp [Forth.modu, Kern.tryPopData, Stk.pop, h, Cell.dataView, Bind.bind, Except.bind]
  · intro k b rest h
    refine ⟨{ k with dataStack := { k.dataStack with items := rest } }, ?_⟩
    simp [Forth.divMod, Kern.tryPopData, Stk.pop, h, Cell.dataView, Bind.bind, Except.bind]
  · intro k n2 n1 rest h
    refine ⟨{ k with dataStack := { k.dataStack with items := rest } }, ?_⟩
    simp [Forth.starSlash, Kern.tryPopData, Stk.pop, h, Cell.dataView, Bind.bind, Except.bind]
  · intro k n2 n1 rest h
    refine ⟨{ k with dataStack := { k.dataStack with items := rest } }, ?_⟩
    simp [Forth.starSlashMod, Kern.tryPopData, Stk.pop, h, Cell.dataView, Bind.bind, Except.bind]

/-- C4 witness: the amended theorem at the concrete stack `[0, 2, 1]`. -/
theorem c4_divide_by_zero_witness :
    (∃ k', Forth.div kC4 = .error (.divideByZero, k')) ∧
    (∃ k', Forth.starSlash kC4 = .error (.panicked, k')) :=
  ⟨c4_divide_by_zero.1 kC4 (.lit 2) [.lit 1] rfl,
   c4_divide_by_zero.2.2.2.1 kC4 (.lit 2) (.lit 1) [] rfl⟩

/-! #### C5: forget -/

theorem heapGet_mem {vm : VM} {a : Nat} {e : DictEntry}
    (h : vm.heapGet a = some e) : (a, e) ∈ vm.heap := by
  unfold VM.heapGet at h
  rcases hf : vm.heap.find? (fun p => p.1 == a) with _ | p
  · rw [hf] at h
    simp at h
  · rw [hf] at h
    simp only [Option.map_some', Option.some_inj] at h
    have hp1 := List.find?_some hf
    have hmem := List.mem_of_find?_eq_some hf
    have : p = (a, e) := by
      rcases p with ⟨p1, p2⟩
      simp at hp1 h
      simp [hp1, h]
    rw [← this]
    exact hmem

theorem findInDictGo_none (heap : List (Nat × DictEntry)) (q : FaStr) (n : Nat) :
    findInDictGo heap q n none = none := by
  cases n <;> rfl

theorem findInDictGo_filter_lt {heap : List (Nat × DictEntry)} {a : Nat}
    (hc : ChainDecreasing heap) :
    ∀ (fuel : Nat) (q : FaStr) (s : Nat), s < a →
      ∀ r, findInDictGo (heap.filter (fun p => decide (p.1 < a))) q fuel (some s) =
        some r → r < a := by
  intro fuel
  induction fuel with
  | zero =>
    intro q s hs r h
    rw [show findInDictGo (heap.filter (fun p => decide (p.1 < a))) q 0 (some s) =
          none from rfl] at h
    simp at h
  | succ n ih =>
    intro q s hs r h
    unfold findInDictGo at h
    rcases hf : (heap.filter (fun p => decide (p.1 < a))).find? (fun p => p.1 == s)
      with _ | p
    · rw [hf] at h
      simp at h
    · rw [hf] at h
      simp only [Option.map_some', Option.some_inj] at h
      have hp1 := List.find?_some hf
      have hmem' := List.mem_filter.mp (List.mem_of_find?_eq_some hf)
      split at h
      · rw [Option.some_inj] at h
        omega
      · rcases hl : p.2.link with _ | l
        · rw [hl, findInDictGo_none] at h
          simp at h
        · rw [hl] at h
          have hlt : l < p.1 := hc p hmem'.1 l hl
          have hps : p.1 = s := by
            simpa using hp1
          exact ih q l (by omega) r h

theorem findInDict_inputUpdate (vm : VM) (x : InBuf) (q : FaStr) :
    ({ vm with input := x } : VM).findInDict q = vm.findInDict q := rfl

theorem heapGet_inputUpdate (vm : VM) (x : InBuf) (a : Nat) :
    ({ vm with input := x } : VM).heapGet a = vm.heapGet a := rfl

/-- C5.  `forget` semantics: a missing token, a builtin-only name and an
unknown name produce the three dedicated errors; on success the tail is
rewound to the entry's link, the arena bytes from the entry's address to
the cursor are zero-filled, the cursor is rewound to the entry's address,
and (for a well-formed chain) no entry at or above that address is
reachable through `find_in_dict` any more. -/
theorem c5_forget_semantics :
    (∀ vm : VM, vm.input.advance.curWord = none →
      Forth.forget vm =
        .error (.forgetWithoutWordName, { vm with input := vm.input.advance }))
    ∧ (∀ (vm : VM) (w : Bytes), vm.input.advance.curWord = some w →
        vm.findInDict ⟨w⟩ = none → (findInBis ⟨w⟩).isSome = true →
        Forth.forget vm =
          .error (.cantForgetBuiltins, { vm with input := vm.input.advance }))
    ∧ (∀ (vm : VM) (w : Bytes), vm.input.advance.curWord = some w →
        vm.findInDict ⟨w⟩ = none → findInBis ⟨w⟩ = none →
        Forth.forget vm =
          .error (.forgetNotInDict, { vm with input := vm.input.advance }))
    ∧ (∀ (vm vm' : VM) (w : Bytes) (a : Nat) (e : DictEntry),
        vm.input.advance.curWord = some w →
        vm.findInDict ⟨w⟩ = some a →
        vm.heapGet a = some e →
        Forth.forget vm = .ok vm' →
        vm'.runDictTail = e.link ∧
        vm'.dictAlloc.cur = a ∧
        (∀ i, a ≤ i → i < vm.dictAlloc.cur → vm'.dictAlloc.mem i = 0) ∧
        vm'.heap = vm.heap.filter (fun p => decide (p.1 < a)) ∧
        (ChainDecreasing vm.heap →
          ∀ (q : FaStr) (r : Nat), vm'.findInDict q = some r → r < a)) := by
  refine ⟨?_, ?_, ?_, ?_⟩
  · intro vm hcw
    simp [Forth.forget, hcw]
  · intro vm w hcw hdict hbis
    simp [Forth.forget, hcw, findInDict_inputUpdate, hdict, hbis]
  · intro vm w hcw hdict hbis
    simp [Forth.forget, hcw, findInDict_inputUpdate, hdict, hbis]
  · intro vm vm' w a e hcw hdict hget hok
    simp only [Forth.forget, findInDict_inputUpdate, heapGet_inputUpdate] at hok
    rw [hcw] at hok
    simp only [hdict, hget] at hok
    split at hok
    · next hchk =>
      rw [Except.ok.injEq] at hok
      subst hok
      refine ⟨rfl, rfl, ?_, rfl, ?_⟩
      · intro i hai hic
        simp only [zeroFill]
        have : a ≤ i ∧ i < a + (vm.dictAlloc.cur - a) := by omega
        simp [this]
      · intro hc q r hfind
        have hmem := heapGet_mem hget
        unfold VM.findInDict at hfind
        simp only at hfind
        rcases hl : e.link with _ | l
        · rw [hl, findInDictGo_none] at hfind
          simp at hfind
        · rw [hl] at hfind
          have hla : l < a := hc (a, e) hmem l hl
          exact findInDictGo_filter_lt hc _ q l hla r hfind
    · simp at hok

/-! #### The munch family's frame condition -/

theorem munchPres_refl (vm : VM) : MunchPres vm vm := by
  simp [MunchPres]

theorem munchPres_trans {a b c : VM} (h1 : MunchPres a b) (h2 : MunchPres b c) :
    MunchPres a c := by
  obtain ⟨e1, e2, e3, e4, e5, e6, e7, e8, e9, e10⟩ := h1
  obtain ⟨f1, f2, f3, f4, f5, f6, f7, f8, f9, f10⟩ := h2
  refine ⟨f1.trans e1, f2.trans e2, f3.trans e3, f4.trans e4, f5.trans e5,
    f6.trans e6, f7.trans e7, by omega, f9.trans e9, f10.trans e10⟩

theorem munchPres_inputUpdate (vm : VM) (x : InBuf) :
    MunchPres vm { vm with input := x } := by
  simp [MunchPres]

theorem bump_mono (b : DictionaryBump) (a s : Nat) :
    b.cur ≤ (b.bump a s).2.cur ∧ (b.bump a s).2.start = b.start ∧
      (b.bump a s).2.endp = b.endp := by
  by_cases h1 : b.cur + alignOffset b.cur a + s > b.endp
  · simp [DictionaryBump.bump, h1]
  · simp [DictionaryBump.bump, h1]
    try omega

theorem bumpU8s_mono (b : DictionaryBump) (n : Nat) :
    b.cur ≤ (b.bumpU8s n).2.cur ∧ (b.bumpU8s n).2.start = b.start ∧
      (b.bumpU8s n).2.endp = b.endp := by
  by_cases h0 : n = 0
  · simp [DictionaryBump.bumpU8s, h0]
  · by_cases h1 : b.cur + n > b.endp
    · simp [DictionaryBump.bumpU8s, h0, h1]
    · simp [DictionaryBump.bumpU8s, h0, h1]
      try omega

theorem bumpWord_pres (vm : VM) : MunchPres vm (resVM vm.bumpWord) := by
  have hb := bump_mono vm.dictAlloc wordAlign wordSize
  unfold VM.bumpWord
  rcases hbw : vm.dictAlloc.bump wordAlign wordSize with ⟨r, d⟩
  rw [hbw] at hb
  cases r with
  | ok addr => exact ⟨rfl, rfl, rfl, rfl, rfl, rfl, rfl, hb.1, hb.2.1, hb.2.2⟩
  | error e => exact ⟨rfl, rfl, rfl, rfl, rfl, rfl, rfl, hb.1, hb.2.1, hb.2.2⟩

theorem bumpWord_pres_ok {vm vm' : VM} (h : vm.bumpWord = .ok vm') :
    MunchPres vm vm' := by
  have := bumpWord_pres vm
  rw [h] at this
  exact this

theorem bumpWord_pres_err {vm vm' : VM} {e : Error}
    (h : vm.bumpWord = .error (e, vm')) : MunchPres vm vm' := by
  have := bumpWord_pres vm
  rw [h] at this
  exact this

theorem munchStr_pres (vm : VM) : MunchPres vm (mresVM (munchStr vm)) := by
  unfold munchStr
  rcases hadv : vm.input.advanceStr with _ | ib
  · exact munchPres_refl vm
  · dsimp only
    have hupd := munchPres_inputUpdate vm ib
    rcases hcs : ({ vm with input := ib } : VM).input.curStrLiteral with _ | s
    · exact hupd
    · dsimp only
      split
      · exact hupd
      · rcases hfw : ({ vm with input := ib } : VM).findWord (bws "(write-str)")
          with _ | r
        · exact hupd
        · dsimp only [Bind.bind, Except.bind]
          rcases hb1 : ({ vm with input := ib } : VM).bumpWord with ⟨e1, v1⟩ | v1
          · exact munchPres_trans hupd (bumpWord_pres_err hb1)
          · dsimp only
            have p1 := munchPres_trans hupd (bumpWord_pres_ok hb1)
            rcases hb2 : v1.bumpWord with ⟨e2, v2⟩ | v2
            · exact munchPres_trans p1 (bumpWord_pres_err hb2)
            · dsimp only
              have p2 := munchPres_trans p1 (bumpWord_pres_ok hb2)
              have hu := bumpU8s_mono v2.dictAlloc s.length
              rcases hb3 : v2.dictAlloc.bumpU8s s.length with ⟨r3, d3⟩
              rw [hb3] at hu
              cases r3 with
              | none =>
                exact munchPres_trans p2
                  ⟨rfl, rfl, rfl, rfl, rfl, rfl, rfl, hu.1, hu.2.1, hu.2.2⟩
              | some addr =>
                exact munchPres_trans p2
                  ⟨rfl, rfl, rfl, rfl, rfl, rfl, rfl, hu.1, hu.2.1, hu.2.2⟩

theorem munch_family_pres : ∀ fuel : Nat,
    (∀ vm, MunchPres vm (mresVM (munchOne fuel vm))) ∧
    (∀ vm, MunchPres vm (mresVM (munchIf fuel vm))) ∧
    (∀ vm, MunchPres vm (triVM (munchIfLoopA fuel vm))) ∧
    (∀ vm, MunchPres vm (mresVM (munchIfLoopB fuel vm))) ∧
    (∀ vm, MunchPres vm (mresVM (munchDo fuel vm))) ∧
    (∀ vm, MunchPres vm (mresVM (munchDoLoop fuel vm))) := by
  intro fuel
  induction fuel with
  | zero =>
    refine ⟨?_, ?_, ?_, ?_, ?_, ?_⟩ <;>
      intro vm <;>
      exact munchPres_refl vm
  | succ n ih =>
    obtain ⟨ihOne, ihIf, ihA, ihB, ihDo, ihDL⟩ := ih
    have hOne : ∀ vm, MunchPres vm (mresVM (munchOne (n + 1) vm)) := by
      intro vm
      unfold munchOne
      try dsimp only
      have hadv := munchPres_inputUpdate vm vm.input.advance
      rcases hcw : ({ vm with input := vm.input.advance } : VM).input.curWord
        with _ | w
      · exact hadv
      · try dsimp only
        rcases hlk : ({ vm with input := vm.input.advance } : VM).lookup w
          with e | lk
        · exact hadv
        · try dsimp only
          cases lk with
          | ifTok => exact munchPres_trans hadv (ihIf _)
          | elseTok => exact hadv
          | thenTok => exact hadv
          | semicolon => exact hadv
          | doTok => exact munchPres_trans hadv (ihDo _)
          | loopTok => exact hadv
          | lparen => exact munchPres_trans hadv (munchPres_inputUpdate _ _)
          | lquote => exact munchPres_trans hadv (munchStr_pres _)
          | dict a =>
            dsimp only [Bind.bind, Except.bind]
            rcases hb : ({ vm with input := vm.input.advance} : VM).bumpWord
              with ⟨e1, v1⟩ | v1
            · exact munchPres_trans hadv (bumpWord_pres_err hb)
            · exact munchPres_trans hadv (bumpWord_pres_ok hb)
          | builtin i =>
            dsimp only [Bind.bind, Except.bind]
            rcases hb : ({ vm with input := vm.input.advance} : VM).bumpWord
              with ⟨e1, v1⟩ | v1
            · exact munchPres_trans hadv (bumpWord_pres_err hb)
            · exact munchPres_trans hadv (bumpWord_pres_ok hb)
          | literalTok v =>
            rcases hfw : ({ vm with input := vm.input.advance} : VM).findWord
                (bws "(literal)") with _ | r
            · exact hadv
            · dsimp only [Bind.bind, Except.bind]
              rcases hb : ({ vm with input := vm.input.advance} : VM).bumpWord
                with ⟨e1, v1⟩ | v1
              · exact munchPres_trans hadv (bumpWord_pres_err hb)
              · dsimp only
                rcases hb2 : v1.bumpWord with ⟨e2, v2⟩ | v2
                · exact munchPres_trans hadv
                    (munchPres_trans (bumpWord_pres_ok hb) (bumpWord_pres_err hb2))
                · exact munchPres_trans hadv
                    (munchPres_trans (bumpWord_pres_ok hb) (bumpWord_pres_ok hb2))
    have hIf : ∀ vm, MunchPres vm (mresVM (munchIf (n + 1) vm)) := by
      intro vm
      unfold munchIf
      rcases hfw : vm.findWord (bws "(jump-zero)") with _ | rjz
      · exact munchPres_refl vm
      · dsimp only [Bind.bind, Except.bind]
        rcases hb : vm.bumpWord with ⟨e1, v1⟩ | v1
        · exact bumpWord_pres_err hb
        · dsimp only
          rcases hb2 : v1.bumpWord with ⟨e2, v2⟩ | v2
          · exact munchPres_trans (bumpWord_pres_ok hb) (bumpWord_pres_err hb2)
          · dsimp only
            have p2 := munchPres_trans (bumpWord_pres_ok hb) (bumpWord_pres_ok hb2)
            have hA2 := ihA v2
            rcases hla : munchIfLoopA n v2 with ⟨e3, v3⟩ | ⟨body, sawElse, v3⟩
            · rw [hla] at hA2
              exact munchPres_trans p2 hA2
            · rw [hla] at hA2
              simp only [triVM] at hA2
              have p3 := munchPres_trans p2 hA2
              try dsimp only
              cases sawElse with
              | false => exact p3
              | true =>
                try dsimp only
                rcases hfw2 : v3.findWord (bws "(jmp)") with _ | rj
                · exact p3
                · dsimp only [Bind.bind, Except.bind]
                  rcases hb3 : v3.bumpWord with ⟨e4, v4⟩ | v4
                  · exact munchPres_trans p3 (bumpWord_pres_err hb3)
                  · dsimp only
                    rcases hb4 : v4.bumpWord with ⟨e5, v5⟩ | v5
                    · exact munchPres_trans p3
                        (munchPres_trans (bumpWord_pres_ok hb3) (bumpWord_pres_err hb4))
                    · dsimp only
                      have p5 := munchPres_trans p3
                        (munchPres_trans (bumpWord_pres_ok hb3) (bumpWord_pres_ok hb4))
                      have hB2 := ihB v5
                      rcases hlb : munchIfLoopB n v5 with ⟨e6, v6⟩ | ⟨ebody, v6⟩
                      · rw [hlb] at hB2
                        exact munchPres_trans p5 hB2
                      · rw [hlb] at hB2
                        simp only [mresVM] at hB2
                        exact munchPres_trans p5 hB2
    have hLoopA : ∀ vm, MunchPres vm (triVM (munchIfLoopA (n + 1) vm)) := by
      intro vm
      unfold munchIfLoopA
      have h1 := ihOne vm
      rcases hm : munchOne n vm with ⟨e1, v1⟩ | ⟨cs, v1⟩
      · rw [hm] at h1
        simp only [mresVM] at h1
        try dsimp only
        cases e1 <;> exact h1
      · rw [hm] at h1
        simp only [mresVM] at h1
        try dsimp only
        cases cs with
        | nil => exact h1
        | cons c cs' =>
          try dsimp only
          have h2 := ihA v1
          rcases hla : munchIfLoopA n v1 with ⟨e3, v3⟩ | ⟨rest, b, v3⟩ <;>
            rw [hla] at h2 <;> simp only [triVM] at h2 <;>
            exact munchPres_trans h1 h2
    have hLoopB : ∀ vm, MunchPres vm (mresVM (munchIfLoopB (n + 1) vm)) := by
      intro vm
      unfold munchIfLoopB
      have h1 := ihOne vm
      rcases hm : munchOne n vm with ⟨e1, v1⟩ | ⟨cs, v1⟩
      · rw [hm] at h1
        simp only [mresVM] at h1
        try dsimp only
        cases e1 <;> exact h1
      · rw [hm] at h1
        simp only [mresVM] at h1
        try dsimp only
        cases cs with
        | nil => exact h1
        | cons c cs' =>
          try dsimp only
          have h2 := ihB v1
          rcases hlb : munchIfLoopB n v1 with ⟨e3, v3⟩ | ⟨rest, v3⟩ <;>
            rw [hlb] at h2 <;> simp only [mresVM] at h2 <;>
            exact munchPres_trans h1 h2
    have hDoLoop : ∀ vm, MunchPres vm (mresVM (munchDoLoop (n + 1) vm)) := by
      intro vm
      unfold munchDoLoop
      have h1 := ihOne vm
      rcases hm : munchOne n vm with ⟨e1, v1⟩ | ⟨cs, v1⟩
      · rw [hm] at h1
        simp only [mresVM] at h1
        try dsimp only
        cases e1 <;> exact h1
      · rw [hm] at h1
        simp only [mresVM] at h1
        try dsimp only
        cases cs with
        | nil => exact h1
        | cons c cs' =>
          try dsimp only
          have h2 := ihDL v1
          rcases hdl : munchDoLoop n v1 with ⟨e3, v3⟩ | ⟨rest, v3⟩ <;>
            rw [hdl] at h2 <;> simp only [mresVM] at h2 <;>
            exact munchPres_trans h1 h2
    have hDo : ∀ vm, MunchPres vm (mresVM (munchDo (n + 1) vm)) := by
      intro vm
      unfold munchDo
      rcases hfw : vm.findWord (bws "2d>2r") with _ | r2
      · exact munchPres_refl vm
      · dsimp only [Bind.bind, Except.bind]
        rcases hb : vm.bumpWord with ⟨e1, v1⟩ | v1
        · exact bumpWord_pres_err hb
        · dsimp only
          have p1 := bumpWord_pres_ok hb
          have h2 := ihDL v1
          rcases hdl : munchDoLoop n v1 with ⟨e2, v2⟩ | ⟨body, v2⟩
          · rw [hdl] at h2
            exact munchPres_trans p1 h2
          · rw [hdl] at h2
            simp only [mresVM] at h2
            have p2 := munchPres_trans p1 h2
            try dsimp only
            rcases hfw2 : v2.findWord (bws "(jmp-doloop)") with _ | rdj
            · exact p2
            · dsimp only [Bind.bind, Except.bind]
              rcases hb2 : v2.bumpWord with ⟨e3, v3⟩ | v3
              · exact munchPres_trans p2 (bumpWord_pres_err hb2)
              · dsimp only
                rcases hb3 : v3.bumpWord with ⟨e4, v4⟩ | v4
                · exact munchPres_trans p2
                    (munchPres_trans (bumpWord_pres_ok hb2) (bumpWord_pres_err hb3))
                · exact munchPres_trans p2
                    (munchPres_trans (bumpWord_pres_ok hb2) (bumpWord_pres_ok hb3))
    exact ⟨hOne, hIf, hLoopA, hLoopB, hDo, hDoLoop⟩

/-! #### C6: colon without a closing semicolon -/

theorem bump_ok_cur {b : DictionaryBump} {a s addr : Nat}
    (h : (b.bump a s).1 = .ok addr) :
    (b.bump a s).2.cur = b.cur + alignOffset b.cur a + s := by
  by_cases h1 : b.cur + alignOffset b.cur a + s > b.endp
  · simp [DictionaryBump.bump, h1] at h
  · simp [DictionaryBump.bump, h1]

theorem bumpStr_mono (b : DictionaryBump) (s : Bytes) :
    b.cur ≤ (b.bumpStr s).2.cur := by
  simp only [DictionaryBump.bumpStr]
  split
  · rcases hb : b.bumpU8s (Nat.min s.length 31) with ⟨r, b'⟩
    have hm := bumpU8s_mono b (Nat.min s.length 31)
    rw [hb] at hm
    cases r with
    | none => simpa using hm.1
    | some addr => simpa using hm.1
  · exact Nat.le_refl _

theorem colonLoop_err_pres :
    ∀ (fuel : Nat) (vm : VM) (name : FaStr) (base : Nat) (oldMode : Mode)
      (acc : List Cell) (e : Error) (vm' : VM),
      colonLoop fuel vm name base oldMode acc = .error (e, vm') →
      MunchPres vm vm' := by
  intro fuel
  induction fuel with
  | zero =>
    intro vm name base oldMode acc e vm' h
    unfold colonLoop at h
    rw [Except.error.injEq, Prod.mk.injEq] at h
    exact h.2 ▸ munchPres_refl vm
  | succ n ih =>
    intro vm name base oldMode acc e vm' h
    unfold colonLoop at h
    have h1 := (munch_family_pres n).1 vm
    rcases hm : munchOne n vm with ⟨e1, v1⟩ | ⟨cs, v1⟩
    · rw [hm] at h1
      simp only [mresVM] at h1
      rw [hm] at h
      dsimp only at h
      rw [Except.error.injEq, Prod.mk.injEq] at h
      exact h.2 ▸ h1
    · rw [hm] at h1
      simp only [mresVM] at h1
      rw [hm] at h
      dsimp only at h
      cases cs with
      | nil =>
        simp only [List.isEmpty_nil, if_true] at h
        rcases hcw : v1.input.curWord with _ | w
        · rw [hcw] at h
          dsimp only at h
          rw [Except.error.injEq, Prod.mk.injEq] at h
          exact h.2 ▸ h1
        · rw [hcw] at h
          dsimp only at h
          by_cases hw : w = bws ";"
          · rw [if_pos hw] at h
            exact absurd h (by simp)
          · rw [if_neg hw] at h
            exact munchPres_trans h1 (ih v1 name base oldMode acc e vm' h)
      | cons c cs' =>
        simp only [List.isEmpty_cons, Bool.false_eq_true, if_false] at h
        exact munchPres_trans h1 (ih v1 name base oldMode _ e vm' h)

/-- C6.  An unterminated `:` definition: when `colon` fails with
`ColonCompileMissingSemicolon`, the reserved entry was never linked (heap
and `run_dict_tail` — and hence every lookup — are unchanged), while the
arena cursor has moved forward by at least the reserved entry header (no
rewind: the partial bytes stay allocated). -/
theorem c6_colon_missing_semicolon :
    ∀ (fuel : Nat) (vm vm' : VM),
      colonFn fuel vm = .error (.colonCompileMissingSemicolon, vm') →
      vm'.heap = vm.heap ∧ vm'.runDictTail = vm.runDictTail ∧
      (∀ q : FaStr, vm'.findInDict q = vm.findInDict q) ∧
      vm.dictAlloc.cur + dictEntrySize ≤ vm'.dictAlloc.cur := by
  intro fuel vm vm' h
  cases fuel with
  | zero =>
    unfold colonFn at h
    rw [Except.error.injEq, Prod.mk.injEq] at h
    exact absurd h.1 (by simp)
  | succ n =>
    unfold colonFn at h
    dsimp only at h
    rcases hcw : ({ vm with input := vm.input.advance } : VM).input.curWord
      with _ | nb
    · rw [hcw] at h
      try dsimp only at h
      rw [Except.error.injEq, Prod.mk.injEq] at h
      exact absurd h.1 (by simp)
    · rw [hcw] at h
      try dsimp only at h
      rcases hbs : vm.dictAlloc.bumpStr nb with ⟨r, d⟩
      have hsm := bumpStr_mono vm.dictAlloc nb
      rw [hbs] at hsm
      rw [hbs] at h
      cases r with
      | error e2 =>
        try dsimp only at h
        rw [Except.error.injEq, Prod.mk.injEq] at h
        cases e2 <;> exact absurd h.1 (by simp [bumpErr])
      | ok name =>
        try dsimp only at h
        rcases hbe : d.bump dictEntryAlign dictEntrySize with ⟨r2, d2⟩
        have hbc := bump_mono d dictEntryAlign dictEntrySize
        rw [hbe] at hbc
        rw [hbe] at h
        cases r2 with
        | error e3 =>
          try dsimp only at h
          rw [Except.error.injEq, Prod.mk.injEq] at h
          cases e3 <;> exact absurd h.1 (by simp [bumpErr])
        | ok base =>
          try dsimp only at h
          have hcur2 : d2.cur = d.cur + alignOffset d.cur dictEntryAlign +
              dictEntrySize := by
            have := bump_ok_cur
              (show (d.bump dictEntryAlign dictEntrySize).1 = Except.ok base
                by rw [hbe])
            rw [hbe] at this
            exact this
          have hp := colonLoop_err_pres n _ name base vm.mode []
            .colonCompileMissingSemicolon vm' h
          obtain ⟨p1, p2, p3, p4, p5, p6, p7, p8, p9, p10⟩ := hp
          refine ⟨p1, p2, ?_, ?_⟩
          · intro q
            unfold VM.findInDict
            rw [p1, p2]
          · simp only at p8
            simp only at hsm
            omega

/-- C6 witness: `: x 1` (no `;`) on `vmC6` leaves the dictionary and every
lookup unchanged and leaks at least the reserved header bytes. -/
theorem c6_colon_missing_semicolon_witness :
    vmC6'.heap = vmC6.heap ∧ vmC6'.runDictTail = vmC6.runDictTail ∧
    vmC6'.findInDict ⟨bws "x"⟩ = vmC6.findInDict ⟨bws "x"⟩ ∧
    vmC6.dictAlloc.cur + dictEntrySize ≤ vmC6'.dictAlloc.cur := by
  have h := c6_colon_missing_semicolon 10 vmC6 vmC6' rfl
  exact ⟨h.1, h.2.1, h.2.2.1 ⟨bws "x"⟩, h.2.2.2⟩

/-! #### C2: `if` code generation -/

/-- C2.  Conditional code generation: whenever the body munch loops
succeed, `munch_if` emits `(jump-zero)` followed by an offset cell equal to
`body_cells + 1` for `if … then`, and
`(jump-zero) (then_body+3) [then_body] (jmp) (else_body+1) [else_body]`
for `if … else … then` — cell counts relative to the jump's own cell. -/
theorem c2_if_codegen :
    (∀ (fuel : Nat) (vm vm1 vm2 vm3 : VM) (rjz : Ref) (body : List Cell),
      vm.findWord (bws "(jump-zero)") = some rjz →
      vm.bumpWord = .ok vm1 →
      vm1.bumpWord = .ok vm2 →
      munchIfLoopA fuel vm2 = .ok (body, false, vm3) →
      munchIf (fuel + 1) vm =
        .ok (.xt rjz :: .lit ((body.length : Int) + 1) :: body, vm3))
    ∧ (∀ (fuel : Nat) (vm vm1 vm2 vm3 vm4 vm5 vm6 : VM) (rjz rj : Ref)
        (tbody ebody : List Cell),
      vm.findWord (bws "(jump-zero)") = some rjz →
      vm.bumpWord = .ok vm1 →
      vm1.bumpWord = .ok vm2 →
      munchIfLoopA fuel vm2 = .ok (tbody, true, vm3) →
      vm3.findWord (bws "(jmp)") = some rj →
      vm3.bumpWord = .ok vm4 →
      vm4.bumpWord = .ok vm5 →
      munchIfLoopB fuel vm5 = .ok (ebody, vm6) →
      munchIf (fuel + 1) vm =
        .ok (.xt rjz :: .lit ((tbody.length : Int) + 3) ::
              (tbody ++ .xt rj :: .lit ((ebody.length : Int) + 1) :: ebody),
             vm6)) := by
  constructor
  · intro fuel vm vm1 vm2 vm3 rjz body hfw hb1 hb2 hla
    unfold munchIf
    simp [hfw, hb1, hb2, hla, Bind.bind, Except.bind]
  · intro fuel vm vm1 vm2 vm3 vm4 vm5 vm6 rjz rj tbody ebody hfw hb1 hb2 hla
      hfw2 hb3 hb4 hlb
    unfold munchIf
    simp [hfw, hb1, hb2, hla, hfw2, hb3, hb4, hlb, Bind.bind, Except.bind]

/-- C2 witness: compiling `if dup then` emits
`(jump-zero) 2 dup` (builtin indices 51 and 21). -/
theorem c2_if_codegen_witness :
    munchIf 11 vmC2a =
      .ok (.xt (.bi 51) ::
            .lit (((List.length [Cell.xt (.bi 21)] : Nat) : Int) + 1) ::
            [Cell.xt (.bi 21)], vmC2d) :=
  c2_if_codegen.1 10 vmC2a vmC2b vmC2c vmC2d (.bi 51) [Cell.xt (.bi 21)]
    rfl rfl rfl rfl

/-! #### C3: `do … loop` code generation and `(jmp-doloop)` -/

/-- C3.  Loop compilation and execution: `munch_do` emits a pointer to
`2d>2r`, the compiled body, then `(jmp-doloop)` with offset
`-(body_cells+1)`; at run time `(jmp-doloop)` pops the counter from the
return stack, compares `counter + 1` with the limit below it, and either
pushes the incremented counter and takes the (negative) jump, or discards
the limit and steps past the offset literal. -/
theorem c3_do_loop :
    (∀ (fuel : Nat) (vm vm1 vm2 vm3 vm4 : VM) (r2 rdj : Ref)
        (body : List Cell),
      vm.findWord (bws "2d>2r") = some r2 →
      vm.bumpWord = .ok vm1 →
      munchDoLoop fuel vm1 = .ok (body, vm2) →
      vm2.findWord (bws "(jmp-doloop)") = some rdj →
      vm2.bumpWord = .ok vm3 →
      vm3.bumpWord = .ok vm4 →
      munchDo (fuel + 1) vm =
        .ok (.xt r2 :: (body ++ [.xt rdj, .lit (-((body.length : Int) + 1))]),
             vm4))
    ∧ (∀ (vm : VM) (a bv off : Int) (rs : List Cell) (child parent : Frame)
        (rest : List Frame) (fr : Frame),
      vm.returnStack.items = .lit a :: .lit bv :: rs →
      vm.returnStack.items.length ≤ vm.returnStack.cap →
      vm.callStack.items = child :: parent :: rest →
      vm.cellAt parent.eh ((parent.idx : Int) + 1) = some (.lit off) →
      wrap32 (a + 1) ≠ bv →
      parent.offsetBy off = some fr →
      Forth.jumpDoloop vm =
        .ok { vm with
                returnStack :=
                  { vm.returnStack with
                    items := .lit (wrap32 (a + 1)) :: .lit bv :: rs },
                callStack :=
                  { vm.callStack with
                    items := child :: fr :: rest } })
    ∧ (∀ (vm : VM) (a bv : Int) (rs : List Cell) (child parent : Frame)
        (rest : List Frame) (fr : Frame),
      vm.returnStack.items = .lit a :: .lit bv :: rs →
      vm.callStack.items = child :: parent :: rest →
      wrap32 (a + 1) = bv →
      parent.offsetBy 1 = some fr →
      Forth.jumpDoloop vm =
        .ok { vm with
                returnStack := { vm.returnStack with items := rs },
                callStack :=
                  { vm.callStack with
                    items := child :: fr :: rest } }) := by
  refine ⟨?_, ?_, ?_⟩
  · intro fuel vm vm1 vm2 vm3 vm4 r2 rdj body hfw hb1 hdl hfw2 hb2 hb3
    unfold munchDo
    simp [hfw, hb1, hdl, hfw2, hb2, hb3, Bind.bind, Except.bind]
  · intro vm a bv off rs child parent rest fr hret hcap hcall hoff hne hofs
    unfold Forth.jumpDoloop
    simp only [Bind.bind, Except.bind, VM.tryPopRet, Stk.pop, hret,
      VM.tryPeekRet, Stk.peek, List.head?, Cell.dataView]
    have hne' : (Cell.lit (wrap32 (a + 1)) ≠ Cell.lit bv) := by
      simp [hne]
    rw [if_pos hne']
    have hlen : rs.length + 1 < vm.returnStack.cap := by
      rw [hret] at hcap
      simp at hcap
      omega
    simp only [VM.pushRet, Stk.push, List.length_cons, if_pos hlen]
    unfold Forth.jump
    simp only [Bind.bind, Except.bind, VM.tryPeekCallBackN, Stk.peekBackN,
      hcall]
    simp only [List.getElem?_cons_succ, List.getElem?_cons_zero]
    have hgn : Forth.getNextVal
        { vm with returnStack :=
            { vm.returnStack with
              items := .lit (wrap32 (a + 1)) :: .lit bv :: rs } } parent =
        .ok off := by
      unfold Forth.getNextVal
      simp only [VM.cellAt, VM.entryOf] at hoff ⊢
      rw [show ({ vm with returnStack :=
          { vm.returnStack with
            items := Cell.lit (wrap32 (a + 1)) :: Cell.lit bv :: rs } } : VM).heapGet =
          vm.heapGet from rfl]
      cases hp : parent.eh with
      | bi i =>
        rw [hp] at hoff
        simp only at hoff ⊢
        rw [hoff]
      | de ad =>
        rw [hp] at hoff
        simp only at hoff ⊢
        rw [hoff]
    rw [hgn]
    simp only [hofs, VM.overwriteCallBackN, Stk.overwriteBackN, hcall]
    simp [List.set]
  · intro vm a bv rs child parent rest fr hret hcall heq hofs
    unfold Forth.jumpDoloop
    simp only [Bind.bind, Except.bind, VM.tryPopRet, Stk.pop, hret,
      VM.tryPeekRet, Stk.peek, List.head?, Cell.dataView]
    have heq' : ¬(Cell.lit (wrap32 (a + 1)) ≠ Cell.lit bv) := by
      simp [heq]
    rw [if_neg heq']
    unfold Forth.skipLiteral
    simp only [Bind.bind, Except.bind, VM.tryPeekCallBackN, Stk.peekBackN,
      hcall]
    simp only [List.getElem?_cons_succ, List.getElem?_cons_zero]
    simp only [hofs, VM.overwriteCallBackN, Stk.overwriteBackN, hcall]
    simp [List.set]

/-- C3 witness: compiling `do dup loop` emits `2d>2r dup (jmp-doloop) -2`
(builtin indices 38, 21, 50), and on return stack `[0, 5]` the
`(jmp-doloop)` of the empty loop pushes counter 1 and jumps back. -/
theorem c3_do_loop_witness :
    munchDo 11 vmC3a =
      .ok (.xt (.bi 38) ::
            ([Cell.xt (.bi 21)] ++
              [.xt (.bi 50), .lit (-((List.length [Cell.xt (.bi 21)] : Int) + 1))]),
           vmC3e) ∧
    Forth.jumpDoloop vmC3r =
      .ok { vmC3r with
              returnStack :=
                { vmC3r.returnStack with
                  items := .lit (wrap32 (0 + 1)) :: .lit 5 :: [] },
              callStack :=
                { vmC3r.callStack with
                  items := ⟨.bi 50, 0, 0⟩ :: ⟨.de 2000, 0, 3⟩ :: [] } } :=
  ⟨c3_do_loop.1 10 vmC3a vmC3b vmC3c vmC3d vmC3e (.bi 38) (.bi 50)
      [Cell.xt (.bi 21)] rfl rfl rfl rfl rfl rfl,
   c3_do_loop.2.1 vmC3r 0 5 (-1) [] ⟨.bi 50, 0, 0⟩ ⟨.de 2000, 1, 3⟩ []
      ⟨.de 2000, 0, 3⟩ rfl (by decide) rfl rfl (by decide) rfl⟩

/-! #### C9: call-frame balance -/

theorem liftK_call {f : Kern → KRes} {vm vm' : VM}
    (h : liftK f vm = .ok vm') : vm'.callStack = vm.callStack := by
  unfold liftK at h
  rcases hf : f ⟨vm.dataStack, vm.returnStack, vm.output⟩ with ⟨e, k⟩ | k <;>
    rw [hf] at h
  · exact absurd h (by simp)
  · rw [Except.ok.injEq] at h
    rw [← h]

theorem forget_call {vm vm' : VM} (h : Forth.forget vm = .ok vm') :
    vm'.callStack = vm.callStack := by
  unfold Forth.forget at h
  dsimp only at h
  rcases hcw : vm.input.advance.curWord with _ | w <;> rw [hcw] at h
  · exact absurd h (by simp)
  · dsimp only at h
    rcases hfd : ({ vm with input := vm.input.advance } : VM).findInDict ⟨w⟩
      with _ | a <;> rw [hfd] at h
    · dsimp only at h
      split at h <;> simp at h
    · dsimp only at h
      rcases hg : ({ vm with input := vm.input.advance } : VM).heapGet a
        with _ | e <;> rw [hg] at h
      · exact absurd h (by simp)
      · dsimp only at h
        split at h
        · rw [Except.ok.injEq] at h
          rw [← h]
        · exact absurd h (by simp)

theorem pushData_call {vm vm' : VM} {c : Cell} (h : vm.pushData c = .ok vm') :
    vm'.callStack = vm.callStack := by
  unfold VM.pushData at h
  rcases hp : vm.dataStack.push c with _ | s <;> rw [hp] at h
  · exact absurd h (by simp)
  · rw [Except.ok.injEq] at h
    rw [← h]

theorem tryPopData_call {vm v : VM} {c : Cell} (h : vm.tryPopData = .ok (c, v)) :
    v.callStack = vm.callStack := by
  unfold VM.tryPopData at h
  rcases hq : vm.dataStack.pop with _ | p <;> rw [hq] at h
  · exact absurd h (by simp)
  · rw [Except.ok.injEq] at h
    have h2 := congrArg Prod.snd h
    simp only at h2
    rw [← h2]

theorem varLoad_call {vm vm' : VM} (h : Forth.varLoad vm = .ok vm') :
    vm'.callStack = vm.callStack := by
  unfold Forth.varLoad at h
  simp only [Bind.bind, Except.bind] at h
  rcases hp : vm.tryPopData with ⟨e, v⟩ | ⟨c, v⟩ <;> rw [hp] at h
  · exact absurd h (by simp)
  · have hv : v.callStack = vm.callStack := tryPopData_call hp
    dsimp only at h
    split at h
    · split at h
      · rw [← hv]
        exact pushData_call h
      · exact absurd h (by simp)
    · exact absurd h (by simp)

theorem varStore_call {vm vm' : VM} (h : Forth.varStore vm = .ok vm') :
    vm'.callStack = vm.callStack := by
  unfold Forth.varStore at h
  simp only [Bind.bind, Except.bind] at h
  rcases hp : vm.tryPopData with ⟨e, v⟩ | ⟨c, v⟩ <;> rw [hp] at h
  · exact absurd h (by simp)
  · dsimp only at h
    rcases hp2 : v.tryPopData with ⟨e2, v2⟩ | ⟨c2, v2⟩ <;> rw [hp2] at h
    · exact absurd h (by simp)
    · dsimp only at h
      have hv := tryPopData_call hp
      have hv2 := tryPopData_call hp2
      split at h
      · split at h
        · rw [Except.ok.injEq] at h
          rw [← h]
          simp [VM.heapSetCell, hv2, hv]
        · exact absurd h (by simp)
      · exact absurd h (by simp)

theorem wordAdd_call {vm vm' : VM} (h : Forth.wordAdd vm = .ok vm') :
    vm'.callStack = vm.callStack := by
  unfold Forth.wordAdd at h
  simp only [Bind.bind, Except.bind] at h
  rcases hp : vm.tryPopData with ⟨e, v⟩ | ⟨c, v⟩ <;> rw [hp] at h
  · exact absurd h (by simp)
  · dsimp only at h
    rcases hp2 : v.tryPopData with ⟨e2, v2⟩ | ⟨c2, v2⟩ <;> rw [hp2] at h
    · exact absurd h (by simp)
    · dsimp only at h
      have hv := tryPopData_call hp
      have hv2 := tryPopData_call hp2
      split at h
      · rw [← hv, ← hv2]
        exact pushData_call h
      · exact absurd h (by simp)

theorem constant_call {vm vm' : VM} (h : Forth.constant vm = .ok vm') :
    vm'.callStack = vm.callStack := by
  unfold Forth.constant at h
  simp only [Bind.bind, Except.bind] at h
  rcases hp : vm.tryPeekCall with ⟨e, v⟩ | me <;> rw [hp] at h
  · exact absurd h (by simp)
  · dsimp only at h
    split at h
    · exact pushData_call h
    · exact absurd h (by simp)

theorem varWord_call {vm vm' : VM} (h : Forth.varWord vm = .ok vm') :
    vm'.callStack = vm.callStack := by
  unfold Forth.varWord at h
  simp only [Bind.bind, Except.bind] at h
  rcases hp : vm.tryPeekCall with ⟨e, v⟩ | me <;> rw [hp] at h
  · exact absurd h (by simp)
  · exact pushData_call h

theorem overwriteCall_call {vm vm' : VM} {n : Nat} {fr : Frame}
    (h : vm.overwriteCallBackN n fr = .ok vm') :
    vm'.callStack.items.length = vm.callStack.items.length ∧
      vm'.callStack.cap = vm.callStack.cap := by
  by_cases hn : n < vm.callStack.items.length
  · simp only [VM.overwriteCallBackN, Stk.overwriteBackN, if_pos hn] at h
    rw [Except.ok.injEq] at h
    rw [← h]
    simp
  · simp only [VM.overwriteCallBackN, Stk.overwriteBackN, if_neg hn] at h
    simp at h

theorem jump_call {vm vm' : VM} (h : Forth.jump vm = .ok vm') :
    vm'.callStack.items.length = vm.callStack.items.length ∧
      vm'.callStack.cap = vm.callStack.cap := by
  unfold Forth.jump at h
  simp only [Bind.bind, Except.bind] at h
  rcases hp : vm.tryPeekCallBackN 1 with ⟨e, v⟩ | p <;> rw [hp] at h
  · exact absurd h (by simp)
  · dsimp only at h
    split at h
    · exact absurd h (by simp)
    · split at h
      · exact overwriteCall_call h
      · exact absurd h (by simp)

theorem skipLiteral_call {vm vm' : VM} (h : Forth.skipLiteral vm = .ok vm') :
    vm'.callStack.items.length = vm.callStack.items.length ∧
      vm'.callStack.cap = vm.callStack.cap := by
  unfold Forth.skipLiteral at h
  simp only [Bind.bind, Except.bind] at h
  rcases hp : vm.tryPeekCallBackN 1 with ⟨e, v⟩ | p <;> rw [hp] at h
  · exact absurd h (by simp)
  · dsimp only at h
    split at h
    · exact overwriteCall_call h
    · exact absurd h (by simp)

theorem jumpIfZero_call {vm vm' : VM} (h : Forth.jumpIfZero vm = .ok vm') :
    vm'.callStack.items.length = vm.callStack.items.length ∧
      vm'.callStack.cap = vm.callStack.cap := by
  unfold Forth.jumpIfZero at h
  simp only [Bind.bind, Except.bind] at h
  rcases hp : vm.tryPopData with ⟨e, v⟩ | ⟨c, v⟩ <;> rw [hp] at h
  · exact absurd h (by simp)
  · dsimp only at h
    have hv := tryPopData_call hp
    split at h
    · have := jump_call h
      rw [hv] at this
      exact this
    · have := skipLiteral_call h
      rw [hv] at this
      exact this

theorem pushRet_call {vm vm' : VM} {c : Cell} (h : vm.pushRet c = .ok vm') :
    vm'.callStack = vm.callStack := by
  unfold VM.pushRet at h
  rcases hp : vm.returnStack.push c with _ | s <;> rw [hp] at h
  · exact absurd h (by simp)
  · rw [Except.ok.injEq] at h
    rw [← h]

theorem tryPopRet_call {vm v : VM} {c : Cell} (h : vm.tryPopRet = .ok (c, v)) :
    v.callStack = vm.callStack := by
  unfold VM.tryPopRet at h
  rcases hq : vm.returnStack.pop with _ | p <;> rw [hq] at h
  · exact absurd h (by simp)
  · rw [Except.ok.injEq] at h
    have h2 := congrArg Prod.snd h
    simp only at h2
    rw [← h2]

theorem jumpDoloop_call {vm vm' : VM} (h : Forth.jumpDoloop vm = .ok vm') :
    vm'.callStack.items.length = vm.callStack.items.length ∧
      vm'.callStack.cap = vm.callStack.cap := by
  unfold Forth.jumpDoloop at h
  simp only [Bind.bind, Except.bind] at h
  rcases hp : vm.tryPopRet with ⟨e, v⟩ | ⟨c, v⟩ <;> rw [hp] at h
  · exact absurd h (by simp)
  · dsimp only at h
    have hv := tryPopRet_call hp
    rcases hp2 : v.tryPeekRet with ⟨e2, v2⟩ | b <;> rw [hp2] at h
    · exact absurd h (by simp)
    · dsimp only at h
      split at h
      · rcases hp3 : v.pushRet (.lit (wrap32 (c.dataView + 1)))
          with ⟨e3, v3⟩ | v3 <;> rw [hp3] at h
        · exact absurd h (by simp)
        · dsimp only at h
          have hv3 := pushRet_call hp3
          have := jump_call h
          rw [hv3, hv] at this
          exact this
      · rcases hp4 : v.tryPopRet with ⟨e4, v4⟩ | ⟨c4, v4⟩ <;> rw [hp4] at h
        · exact absurd h (by simp)
        · dsimp only at h
          have hv4 := tryPopRet_call hp4
          have := skipLiteral_call h
          rw [hv4, hv] at this
          exact this

theorem literal_call {vm vm' : VM} (h : Forth.literal vm = .ok vm') :
    vm'.callStack.items.length = vm.callStack.items.length ∧
      vm'.callStack.cap = vm.callStack.cap := by
  unfold Forth.literal at h
  simp only [Bind.bind, Except.bind] at h
  rcases hp : vm.tryPeekCallBackN 1 with ⟨e, v⟩ | p <;> rw [hp] at h
  · exact absurd h (by simp)
  · dsimp only at h
    split at h
    · exact absurd h (by simp)
    · split at h
      · exact absurd h (by simp)
      · rcases ho : vm.overwriteCallBackN 1 _ with ⟨e2, v2⟩ | v2 <;>
          rw [ho] at h
        · exact absurd h (by simp)
        · have h1 := overwriteCall_call ho
          have h2 := pushData_call h
          rw [h2]
          exact h1

theorem writeStrLit_call {vm vm' : VM} (h : Forth.writeStrLit vm = .ok vm') :
    vm'.callStack.items.length = vm.callStack.items.length ∧
      vm'.callStack.cap = vm.callStack.cap := by
  unfold Forth.writeStrLit at h
  simp only [Bind.bind, Except.bind] at h
  rcases hp : vm.tryPeekCallBackN 1 with ⟨e, v⟩ | p <;> rw [hp] at h
  · exact absurd h (by simp)
  · dsimp only at h
    split at h
    · exact absurd h (by simp)
    · split at h
      · exact absurd h (by simp)
      · split at h
        · exact absurd h (by simp)
        · split at h
          · have := overwriteCall_call h
            exact this
          · exact absurd h (by simp)

theorem stkPush_len {α} {s s' : Stk α} {x : α} (h : s.push x = some s') :
    s'.items.length = s.items.length + 1 ∧ s'.cap = s.cap := by
  unfold Stk.push at h
  split at h
  · rw [Option.some.injEq] at h
    rw [← h]
    simp
  · simp at h

theorem stkPop_len {α} {s s' : Stk α} {x : α} (h : s.pop = some (x, s')) :
    s.items.length = s'.items.length + 1 ∧ s'.cap = s.cap := by
  unfold Stk.pop at h
  rcases hi : s.items with _ | ⟨a, rest⟩ <;> rw [hi] at h
  · simp at h
  · rw [Option.some.injEq, Prod.mk.injEq] at h
    rw [← h.2]
    exact ⟨by simp [hi], rfl⟩

theorem stkOverwrite_len {α} {s s' : Stk α} {n : Nat} {x : α}
    (h : s.overwriteBackN n x = some s') :
    s'.items.length = s.items.length ∧ s'.cap = s.cap := by
  unfold Stk.overwriteBackN at h
  split at h
  · rw [Option.some.injEq] at h
    rw [← h]
    simp
  · simp at h

theorem colonLoop_ok_call : ∀ (fuel : Nat) (vm : VM) (name : FaStr)
    (base : Nat) (oldMode : Mode) (acc : List Cell) (vm' : VM),
    colonLoop fuel vm name base oldMode acc = .ok vm' →
    vm'.callStack = vm.callStack := by
  intro fuel
  induction fuel with
  | zero =>
    intro vm name base oldMode acc vm' h
    unfold colonLoop at h
    simp at h
  | succ n ih =>
    intro vm name base oldMode acc vm' h
    unfold colonLoop at h
    have h1 := (munch_family_pres n).1 vm
    rcases hm : munchOne n vm with ⟨e1, v1⟩ | ⟨cs, v1⟩ <;> rw [hm] at h
    · simp at h
    · rw [hm] at h1
      simp only [mresVM] at h1
      have hcs : v1.callStack = vm.callStack := h1.2.2.1
      dsimp only at h
      split at h
      · rcases hw : v1.input.curWord with _ | w <;> rw [hw] at h
        · simp at h
        · dsimp only at h
          split at h
          · rw [Except.ok.injEq] at h
            rw [← h]
            exact hcs
          · exact (ih _ _ _ _ _ _ h).trans hcs
      · exact (ih _ _ _ _ _ _ h).trans hcs

theorem colonFn_ok_call {fuel : Nat} {vm vm' : VM}
    (h : colonFn fuel vm = .ok vm') : vm'.callStack = vm.callStack := by
  cases fuel with
  | zero =>
    unfold colonFn at h
    simp at h
  | succ n =>
    unfold colonFn at h
    dsimp only at h
    rcases hw : ({ vm with input := vm.input.advance } : VM).input.curWord
      with _ | nb <;> rw [hw] at h
    · simp at h
    · dsimp only at h
      rcases hbs : ({ vm with input := vm.input.advance, mode := Mode.compile } :
          VM).dictAlloc.bumpStr nb with ⟨r, d⟩
      rw [hbs] at h
      rcases r with e | name
      · simp at h
      · dsimp only at h
        rcases hbe : d.bump dictEntryAlign dictEntrySize with ⟨r2, d2⟩
        rw [hbe] at h
        rcases r2 with e2 | base
        · simp at h
        · dsimp only at h
          have := colonLoop_ok_call n _ name base _ [] vm' h
          simpa using this

theorem exec_family_call : ∀ fuel : Nat,
    (∀ vm vm', processLine fuel vm = .ok vm' →
       vm'.callStack.items.length = vm.callStack.items.length ∧
       vm'.callStack.cap = vm.callStack.cap) ∧
    (∀ vm vm', interpretFn fuel vm = .ok vm' →
       vm'.callStack.items.length = vm.callStack.items.length ∧
       vm'.callStack.cap = vm.callStack.cap) ∧
    (∀ fid vm vm', execFunc fuel fid vm = .ok vm' →
       vm'.callStack.items.length = vm.callStack.items.length ∧
       vm'.callStack.cap = vm.callStack.cap) ∧
    (∀ f vm vm', execBFn fuel f vm = .ok vm' →
       vm'.callStack.items.length = vm.callStack.items.length ∧
       vm'.callStack.cap = vm.callStack.cap) := by
  intro fuel
  induction fuel with
  | zero =>
    refine ⟨?_, ?_, ?_, ?_⟩
    · intro vm vm' h
      unfold processLine at h
      simp at h
    · intro vm vm' h
      unfold interpretFn at h
      simp at h
    · intro fid vm vm' h
      unfold execFunc at h
      simp at h
    · intro f vm vm' h
      unfold execBFn at h
      simp at h
  | succ n ih =>
    obtain ⟨ihP, ihI, ihF, ihB⟩ := ih
    have eqc : ∀ {a b : VM}, a.callStack = b.callStack →
        a.callStack.items.length = b.callStack.items.length ∧
        a.callStack.cap = b.callStack.cap := by
      intro a b he
      rw [he]
      exact ⟨rfl, rfl⟩
    have hB : ∀ f vm vm', execBFn (n + 1) f vm = .ok vm' →
        vm'.callStack.items.length = vm.callStack.items.length ∧
        vm'.callStack.cap = vm.callStack.cap := by
      intro f vm vm' h
      cases f <;> simp only [execBFn] at h <;>
        first
          | exact eqc (liftK_call h)
          | exact eqc (colonFn_ok_call h)
          | exact eqc (forget_call h)
          | exact eqc (varLoad_call h)
          | exact eqc (varStore_call h)
          | exact eqc (wordAdd_call h)
          | exact eqc (constant_call h)
          | exact eqc (varWord_call h)
          | exact writeStrLit_call h
          | exact jumpDoloop_call h
          | exact jumpIfZero_call h
          | exact jump_call h
          | exact literal_call h
    have hF : ∀ fid vm vm', execFunc (n + 1) fid vm = .ok vm' →
        vm'.callStack.items.length = vm.callStack.items.length ∧
        vm'.callStack.cap = vm.callStack.cap := by
      intro fid vm vm' h
      cases fid with
      | interp =>
        simp only [execFunc] at h
        exact ihI _ _ h
      | table f =>
        simp only [execFunc] at h
        exact ihB f _ _ h
    have hI : ∀ vm vm', interpretFn (n + 1) vm = .ok vm' →
        vm'.callStack.items.length = vm.callStack.items.length ∧
        vm'.callStack.cap = vm.callStack.cap := by
      intro vm vm' h
      unfold interpretFn at h
      rcases hpk : vm.callStack.peek with _ | me <;> rw [hpk] at h
      · simp at h
      · dsimp only at h
        split at h
        · rcases hca : vm.cellAt me.eh (me.idx : Int) with _ | c <;>
            rw [hca] at h
          · rw [Except.ok.injEq] at h
            rw [← h]
            exact ⟨rfl, rfl⟩
          · rcases c with r | v | b | ⟨r, i⟩
            · dsimp only at h
              rcases he : vm.entryOf r with _ | ent <;> rw [he] at h
              · simp at h
              · dsimp only at h
                rcases hpu : vm.callStack.push ⟨r, 0, ent.flen⟩ with _ | cs <;>
                  rw [hpu] at h
                · simp at h
                · dsimp only at h
                  rcases hex : execFunc n ent.func { vm with callStack := cs }
                    with ⟨e2, vm2⟩ | vm2 <;> rw [hex] at h
                  · try dsimp only at h
                    split at h <;> simp at h
                  · dsimp only at h
                    rcases hpo : vm2.callStack.pop with _ | p <;> rw [hpo] at h
                    · simp at h
                    · obtain ⟨fr0, cs2⟩ := p
                      dsimp only at h
                      rcases hpk2 : cs2.peek with _ | me' <;> rw [hpk2] at h
                      · simp at h
                      · dsimp only at h
                        rcases hof : me'.offsetBy 1 with _ | fr <;>
                          rw [hof] at h
                        · simp at h
                        · dsimp only at h
                          rcases hob : cs2.overwriteBackN 0 fr with _ | cs3 <;>
                            rw [hob] at h
                          · simp at h
                          · dsimp only at h
                            have hrec := ihI _ _ h
                            simp only at hrec
                            have h1 := stkPush_len hpu
                            have h2 := ihF ent.func _ _ hex
                            simp only at h2
                            have h3 := stkPop_len hpo
                            have h4 := stkOverwrite_len hob
                            refine ⟨?_, ?_⟩
                            · omega
                            · rw [hrec.2, h4.2, h3.2, h2.2, h1.2]
            · dsimp only at h
              split at h <;> simp at h
            · simp at h
            · simp at h
        · rw [Except.ok.injEq] at h
          rw [← h]
          exact ⟨rfl, rfl⟩
    have hP : ∀ vm vm', processLine (n + 1) vm = .ok vm' →
        vm'.callStack.items.length = vm.callStack.items.length ∧
        vm'.callStack.cap = vm.callStack.cap := by
      intro vm vm' h
      unfold processLine at h
      dsimp only at h
      rcases hw : ({ vm with input := vm.input.advance } : VM).input.curWord
        with _ | w <;> rw [hw] at h
      · rw [Except.ok.injEq] at h
        rw [← h]
        exact ⟨rfl, rfl⟩
      · dsimp only at h
        rcases hlk : ({ vm with input := vm.input.advance } : VM).lookup w
          with e | l <;> rw [hlk] at h
        · simp at h
        · rcases l with _ | _ | _ | _ | _ | _ | _ | _ | a | i | v
          · simp at h
          · simp at h
          · simp at h
          · simp at h
          · simp at h
          · simp at h
          · dsimp only at h
            have hrec := ihP _ _ h
            simpa using hrec
          · dsimp only at h
            rcases has : ({ vm with input := vm.input.advance } : VM).input.advanceStr
              with _ | ib <;> rw [has] at h
            · simp at h
            · dsimp only at h
              rcases hcl : ib.curStrLiteral with _ | s <;> rw [hcl] at h
              · simp at h
              · dsimp only at h
                have hrec := ihP _ _ h
                simpa [VM.pushOut] using hrec
          · dsimp only at h
            rcases hg : ({ vm with input := vm.input.advance } : VM).heapGet a
              with _ | de <;> rw [hg] at h
            · simp at h
            · dsimp only at h
              rcases hpu : vm.callStack.push ⟨.de a, 0, de.flen⟩ with _ | cs <;>
                rw [hpu] at h
              · simp at h
              · dsimp only at h
                rcases hex : execFunc n de.func
                    { vm with input := vm.input.advance, callStack := cs }
                  with ⟨e2, vm2⟩ | vm2 <;> rw [hex] at h
                · try dsimp only at h
                  split at h <;> simp at h
                · dsimp only at h
                  rcases hpo : vm2.callStack.pop with _ | p <;> rw [hpo] at h
                  · simp at h
                  · obtain ⟨fr0, cs2⟩ := p
                    dsimp only at h
                    have hrec := ihP _ _ h
                    simp only at hrec
                    have h1 := stkPush_len hpu
                    have h2 := ihF de.func _ _ hex
                    simp only at h2
                    have h3 := stkPop_len hpo
                    refine ⟨?_, ?_⟩
                    · omega
                    · rw [hrec.2, h3.2, h2.2, h1.2]
          · dsimp only at h
            rcases hb : fullBuiltins[i]? with _ | b <;> rw [hb] at h
            · simp at h
            · dsimp only at h
              rcases hpu : vm.callStack.push ⟨.bi i, 0, 0⟩ with _ | cs <;>
                rw [hpu] at h
              · simp at h
              · dsimp only at h
                rcases hex : execBFn n b.fn
                    { vm with input := vm.input.advance, callStack := cs }
                  with ⟨e2, vm2⟩ | vm2 <;> rw [hex] at h
                · try dsimp only at h
                  split at h <;> simp at h
                · dsimp only at h
                  rcases hpo : vm2.callStack.pop with _ | p <;> rw [hpo] at h
                  · simp at h
                  · obtain ⟨fr0, cs2⟩ := p
                    dsimp only at h
                    have hrec := ihP _ _ h
                    simp only at hrec
                    have h1 := stkPush_len hpu
                    have h2 := ihB b.fn _ _ hex
                    simp only at h2
                    have h3 := stkPop_len hpo
                    refine ⟨?_, ?_⟩
                    · omega
                    · rw [hrec.2, h3.2, h2.2, h1.2]
          · dsimp only at h
            rcases hpu : vm.dataStack.push (.lit v) with _ | ds <;>
              rw [hpu] at h
            · simp at h
            · dsimp only at h
              have hrec := ihP _ _ h
              simpa using hrec
    exact ⟨hP, hI, hF, hB⟩

/-- C9: call-frame balance.  A successful synchronous `process_line`
returns with the call stack exactly as deep as it started — each
dispatched word pushes one frame and pops it — so a line started with an
empty call stack finishes with an empty call stack; and whenever the
async variant `AsyncForth::process_line` reports an error, the data,
return and call stacks are all empty after its cleanup. -/
theorem c9_call_frame_balance :
    (∀ fuel (vm vm' : VM), processLine fuel vm = .ok vm' →
       vm.callStack.items = [] → vm'.callStack.items = []) ∧
    (∀ fuel (vm : VM) e (vm' : VM),
       AsyncForth.processLine fuel vm = .error (e, vm') →
       vm'.dataStack.items = [] ∧ vm'.returnStack.items = [] ∧
       vm'.callStack.items = []) := by
  constructor
  · intro fuel vm vm' h he
    have hl := ((exec_family_call fuel).1 vm vm' h).1
    rw [he] at hl
    simpa using List.length_eq_zero.mp (by simpa using hl)
  · intro fuel vm e vm' h
    unfold AsyncForth.processLine at h
    rcases hp : Forth3.processLine fuel vm with ⟨e2, v2⟩ | v2 <;> rw [hp] at h
    · rw [Except.error.injEq, Prod.mk.injEq] at h
      rw [← h.2]
      exact ⟨rfl, rfl, rfl⟩
    · simp at h

/-- C9 witness: the empty line on `vm0` succeeds with an empty call stack,
and the failing token `q` makes the async variant report `LookupFailed`
with all three stacks empty. -/
theorem c9_call_frame_balance_witness :
    (∃ vm', processLine 1 vm0 = .ok vm' ∧ vm'.callStack.items = []) ∧
    (∃ e vm', AsyncForth.processLine 1 vmC9e = .error (e, vm') ∧
       vm'.dataStack.items = [] ∧ vm'.returnStack.items = [] ∧
       vm'.callStack.items = []) := by
  constructor
  · have h : processLine 1 vm0 =
        .ok (VM.pushOut { vm0 with input := vm0.input.advance } (bws "ok.\n")) := by
      rfl
    exact ⟨_, h, c9_call_frame_balance.1 1 vm0 _ h rfl⟩
  · have h : AsyncForth.processLine 1 vmC9e = .error (.lookupFailed, vmC9err) := by
      rfl
    have h2 := c9_call_frame_balance.2 1 vmC9e .lookupFailed vmC9err h
    exact ⟨_, _, h, h2.1, h2.2.1, h2.2.2⟩

/-! #### C1: compile/interpret duality -/

theorem lookup_eq_lookupIn (vm : VM) (w : Bytes) :
    vm.lookup w = lookupIn vm.heap vm.runDictTail w := rfl

theorem lookupBI_some {heap : List (Nat × DictEntry)} {tail : Option Nat}
    {w : Bytes} {i : Nat} (h : lookupBI heap tail w = some i) :
    lookupIn heap tail w = .ok (.builtin i) := by
  unfold lookupBI at h
  rcases hl : lookupIn heap tail w with e | l <;> rw [hl] at h
  · simp at h
  · rcases l with _ | _ | _ | _ | _ | _ | _ | _ | a | j | v <;> simp at h
    rw [h]

theorem execBFn_kern {m : Nat} {f : BFn} {g : Kern → KRes}
    (hkv : f.kernView = some g) (vm : VM) (hm : m ≠ 0) :
    execBFn m f vm = liftK g vm := by
  cases m with
  | zero => exact absurd rfl hm
  | succ n =>
    cases f <;> simp only [BFn.kernView] at hkv <;>
      first
        | (rw [Option.some.injEq] at hkv; rw [← hkv]; rfl)
        | exact absurd hkv (by simp)

theorem liftK_ok {g : Kern → KRes} {vm : VM} {k : Kern}
    (h : g vm.kern = .ok k) :
    liftK g vm =
      .ok { vm with dataStack := k.dataStack, returnStack := k.returnStack,
                    output := k.output } := by
  unfold liftK
  rw [show (⟨vm.dataStack, vm.returnStack, vm.output⟩ : Kern) = vm.kern from rfl,
      h]

theorem entryOf_frame {vm vm' : VM} (hh : vm'.heap = vm.heap) (r : Ref) :
    vm'.entryOf r = vm.entryOf r := by
  unfold VM.entryOf VM.heapGet
  cases r
  · rfl
  · rw [hh]

theorem findInDictGo_head (heap : List (Nat × DictEntry)) (q : FaStr)
    (fuel : Nat) (a : Nat) (e : DictEntry)
    (hget : (heap.find? (fun p => p.1 == a)).map (fun p => p.2) = some e)
    (hbq : FaStr.beq e.name q = true) :
    findInDictGo heap q (fuel + 1) (some a) = some a := by
  unfold findInDictGo
  rw [hget]
  dsimp only
  rw [if_pos hbq]

theorem zeroFill_zero (m : Nat → Nat) (a : Nat) : zeroFill m a 0 = m :=
  funext fun i => by
    unfold zeroFill
    rw [if_neg (by omega)]

theorem bumpWord_aligned (v : VM) (hal : v.dictAlloc.cur % 8 = 0)
    (hsp : v.dictAlloc.cur + 8 ≤ v.dictAlloc.endp) :
    v.bumpWord = .ok { v with dictAlloc :=
      { v.dictAlloc with cur := v.dictAlloc.cur + 8 } } := by
  unfold VM.bumpWord DictionaryBump.bump
  dsimp only
  have hoff : alignOffset v.dictAlloc.cur wordAlign = 0 := by
    unfold alignOffset wordAlign
    rw [if_neg (by omega)]
    omega
  rw [hoff, zeroFill_zero]
  rw [if_neg (by simp only [wordSize]; omega)]
  simp [wordSize]

theorem processLine_kern : ∀ (ws : List Bytes) (is : List Nat)
    (gs : List (Kern → KRes)) (vm : VM) (k' : Kern),
    ws.mapM (lookupBI vm.heap vm.runDictTail) = some is →
    is.mapM kernOf = some gs →
    vm.input.toks = ws.map .word →
    vm.callStack.items = [] →
    1 ≤ vm.callStack.cap →
    runK gs vm.kern = .ok k' →
    processLine (ws.length + 2) vm =
      .ok { vm with dataStack := k'.dataStack, returnStack := k'.returnStack,
                    input := ⟨[], none⟩,
                    output := k'.output ++ bws "ok.\n" } := by
  intro ws
  induction ws with
  | nil =>
    intro is gs vm k' h1 h2 h3 h4 h5 h6
    simp only [List.mapM_nil, pure, Option.some.injEq] at h1
    subst h1
    simp only [List.mapM_nil, pure, Option.some.injEq] at h2
    subst h2
    unfold runK at h6
    rw [Except.ok.injEq] at h6
    subst h6
    have ha : vm.input.advance = ⟨[], none⟩ := by
      unfold InBuf.advance
      rw [h3]
      rfl
    unfold processLine
    dsimp only
    rw [ha]
    rfl
  | cons w ws ih =>
    intro is gs vm k' h1 h2 h3 h4 h5 h6
    rw [List.mapM_cons] at h1
    rcases hw : lookupBI vm.heap vm.runDictTail w with _ | i <;> rw [hw] at h1
    · simp at h1
    · rcases hws : ws.mapM (lookupBI vm.heap vm.runDictTail) with _ | is' <;>
        rw [hws] at h1
      · simp at h1
      · simp only [Bind.bind, Option.bind, Option.pure_def, Option.some.injEq] at h1
        subst h1
        rw [List.mapM_cons] at h2
        rcases hko : kernOf i with _ | g <;> rw [hko] at h2
        · simp at h2
        · rcases hgs : is'.mapM kernOf with _ | gs' <;> rw [hgs] at h2
          · simp at h2
          · simp only [Bind.bind, Option.bind, Option.pure_def, Option.some.injEq] at h2
            subst h2
            unfold runK at h6
            rcases hg : g vm.kern with ⟨e1, kE⟩ | k1 <;> rw [hg] at h6
            · simp at h6
            · have ha : vm.input.advance = ⟨ws.map .word, some (.word w)⟩ := by
                unfold InBuf.advance
                rw [h3]
                rfl
              have hfb : ∃ b, fullBuiltins[i]? = some b ∧
                  b.fn.kernView = some g := by
                unfold kernOf at hko
                rcases hb : fullBuiltins[i]? with _ | b <;> rw [hb] at hko
                · simp at hko
                · exact ⟨b, rfl, hko⟩
              obtain ⟨b, hb, hkv⟩ := hfb
              have hcs : { vm.callStack with items := ([] : List Frame) } =
                  vm.callStack := by
                rw [← h4]
              show processLine (ws.length + 3) vm = _
              unfold processLine
              dsimp only
              rw [ha]
              dsimp only [InBuf.curWord]
              rw [lookup_eq_lookupIn]
              dsimp only
              rw [lookupBI_some hw]
              dsimp only
              rw [hb]
              dsimp only
              have hpu : vm.callStack.push ⟨.bi i, 0, 0⟩ =
                  some { vm.callStack with items := [⟨.bi i, 0, 0⟩] } := by
                unfold Stk.push
                rw [h4]
                rw [if_pos (by simpa using h5)]
              rw [hpu]
              dsimp only
              rw [execBFn_kern (m := ws.length + 2) hkv _ (by omega)]
              have hgB : g (VM.kern
                  { vm with input := ⟨ws.map .word, some (.word w)⟩,
                            callStack := ⟨[⟨.bi i, 0, 0⟩],
                                          vm.callStack.cap⟩ }) = .ok k1 := hg
              rw [liftK_ok hgB]
              dsimp only
              rw [show ({ vm.callStack with items := [⟨.bi i, 0, 0⟩] } :
                    Stk Frame).pop =
                  some (⟨.bi i, 0, 0⟩,
                        { vm.callStack with items := [] }) from rfl]
              rw [hcs]
              have hrec := ih is' gs'
                { vm with input := ⟨ws.map .word, some (.word w)⟩,
                          dataStack := k1.dataStack,
                          returnStack := k1.returnStack,
                          output := k1.output }
                k' hws hgs rfl h4 h5 h6
              dsimp only
              rw [hrec]

theorem colonLoop_kern : ∀ (ws : List Bytes) (is : List Nat) (vm : VM)
    (name : FaStr) (base : Nat) (oldMode : Mode) (acc : List Cell)
    (rest : List InTok),
    ws.mapM (lookupBI vm.heap vm.runDictTail) = some is →
    vm.input.toks = ws.map .word ++ .word (bws ";") :: rest →
    vm.dictAlloc.cur % 8 = 0 →
    vm.dictAlloc.cur + 8 * ws.length ≤ vm.dictAlloc.endp →
    colonLoop (ws.length + 3) vm name base oldMode acc =
      .ok { vm with
             heap := (base,
               { name := name, kind := .dictionary,
                 flen := (acc ++ xtsOf is).length, func := .interp,
                 link := vm.runDictTail, body := acc ++ xtsOf is }) :: vm.heap,
             runDictTail := some base, mode := oldMode,
             dictAlloc := { vm.dictAlloc with
                            cur := vm.dictAlloc.cur + 8 * ws.length },
             input := ⟨rest, some (.word (bws ";"))⟩ } := by
  intro ws
  induction ws with
  | nil =>
    intro is vm name base oldMode acc rest h1 h3 hal hsp
    simp only [List.mapM_nil, pure, Option.some.injEq] at h1
    subst h1
    have ha : vm.input.advance = ⟨rest, some (.word (bws ";"))⟩ := by
      unfold InBuf.advance
      rw [h3]
      rfl
    show colonLoop 3 vm name base oldMode acc = _
    unfold colonLoop
    dsimp only
    unfold munchOne
    dsimp only
    rw [ha]
    dsimp only [InBuf.curWord]
    rw [lookup_eq_lookupIn]
    dsimp only
    unfold lookupIn
    rw [if_pos rfl]
    try dsimp only [List.isEmpty_nil]
    try rw [if_pos rfl]
    try dsimp only [InBuf.curWord]
    try rw [if_pos rfl]
    simp [xtsOf]
  | cons w ws ih =>
    intro is vm name base oldMode acc rest h1 h3 hal hsp
    rw [List.mapM_cons] at h1
    rcases hw : lookupBI vm.heap vm.runDictTail w with _ | i <;> rw [hw] at h1
    · simp at h1
    · rcases hws : ws.mapM (lookupBI vm.heap vm.runDictTail) with _ | is' <;>
        rw [hws] at h1
      · simp at h1
      · simp only [Bind.bind, Option.bind, Option.pure_def,
          Option.some.injEq] at h1
        subst h1
        have ha : vm.input.advance =
            ⟨ws.map .word ++ .word (bws ";") :: rest, some (.word w)⟩ := by
          unfold InBuf.advance
          rw [h3]
          rfl
        have hs8 : vm.dictAlloc.cur + 8 ≤ vm.dictAlloc.endp := by
          simp only [List.length_cons] at hsp
          omega
        have hmo : munchOne (ws.length + 3) vm =
            .ok ([.xt (.bi i)],
                 { vm with
                    input := ⟨ws.map .word ++ .word (bws ";") :: rest,
                              some (.word w)⟩,
                    dictAlloc := { vm.dictAlloc with
                                   cur := vm.dictAlloc.cur + 8 } }) := by
          unfold munchOne
          dsimp only
          rw [ha]
          dsimp only [InBuf.curWord]
          rw [lookup_eq_lookupIn]
          dsimp only
          rw [lookupBI_some hw]
          dsimp only
          simp only [Bind.bind, Except.bind]
          rw [bumpWord_aligned
                { vm with input := ⟨ws.map .word ++ .word (bws ";") :: rest,
                                   some (.word w)⟩ } hal hs8]
        show colonLoop (ws.length + 4) vm name base oldMode acc = _
        unfold colonLoop
        dsimp only
        rw [hmo]
        dsimp only
        rw [if_neg (by simp)]
        have hrec := ih is'
          { vm with
             input := ⟨ws.map .word ++ .word (bws ";") :: rest,
                       some (.word w)⟩,
             dictAlloc := { vm.dictAlloc with
                            cur := vm.dictAlloc.cur + 8 } }
          name base oldMode (acc ++ [.xt (.bi i)]) rest hws rfl
          (by dsimp only; omega)
          (by dsimp only
              simp only [List.length_cons] at hsp
              omega)
        rw [hrec]
        have hlist : (acc ++ [Cell.xt (.bi i)]) ++ xtsOf is' =
            acc ++ xtsOf (i :: is') := by
          simp [xtsOf]
        have harith : vm.dictAlloc.cur + 8 + 8 * ws.length =
            vm.dictAlloc.cur + 8 * (w :: ws).length := by
          simp only [List.length_cons]
          ring
        rw [hlist, harith]

theorem colonFn_kern (v : VM) (nx : Bytes) (ws : List Bytes) (is : List Nat)
    (d1 d2 : DictionaryBump) (base : Nat) (rest : List InTok)
    (hin : v.input.toks = .word nx :: ws.map .word ++ .word (bws ";") :: rest)
    (hbs : v.dictAlloc.bumpStr nx = (.ok ⟨nx⟩, d1))
    (hbe : d1.bump dictEntryAlign dictEntrySize = (.ok base, d2))
    (hal2 : d2.cur % 8 = 0)
    (hsp : d2.cur + 8 * ws.length ≤ d2.endp)
    (h1 : ws.mapM (lookupBI v.heap v.runDictTail) = some is) :
    colonFn (ws.length + 4) v =
      .ok { v with
             heap := (base,
               { name := ⟨nx⟩, kind := .dictionary, flen := (xtsOf is).length,
                 func := .interp, link := v.runDictTail,
                 body := xtsOf is }) :: v.heap,
             runDictTail := some base,
             dictAlloc := { d2 with cur := d2.cur + 8 * ws.length },
             input := ⟨rest, some (.word (bws ";"))⟩ } := by
  have ha : v.input.advance =
      ⟨ws.map .word ++ .word (bws ";") :: rest, some (.word nx)⟩ := by
    unfold InBuf.advance
    rw [hin]
    rfl
  unfold colonFn
  dsimp only
  rw [ha]
  dsimp only [InBuf.curWord]
  rw [hbs]
  dsimp only
  rw [hbe]
  dsimp only
  rw [colonLoop_kern ws is
        { v with mode := Mode.compile, dictAlloc := d2,
                 input := ⟨ws.map .word ++ .word (bws ";") :: rest,
                           some (.word nx)⟩ }
        ⟨nx⟩ base v.mode [] rest h1 rfl hal2 hsp]
  simp [xtsOf]

theorem compile_line (v : VM) (nx : Bytes) (ws : List Bytes) (is : List Nat)
    (d1 d2 : DictionaryBump) (base : Nat)
    (hin : v.input.toks = mkColonLine nx ws)
    (hcol : v.findInDict ⟨bws ":"⟩ = none)
    (hcs : v.callStack.items = [])
    (hcap : 1 ≤ v.callStack.cap)
    (hbs : v.dictAlloc.bumpStr nx = (.ok ⟨nx⟩, d1))
    (hbe : d1.bump dictEntryAlign dictEntrySize = (.ok base, d2))
    (hsp : d2.cur + 8 * ws.length ≤ d2.endp)
    (h1 : ws.mapM (lookupBI v.heap v.runDictTail) = some is) :
    processLine (ws.length + 6) v =
      .ok { v with
             heap := (base,
               { name := ⟨nx⟩, kind := .dictionary, flen := (xtsOf is).length,
                 func := .interp, link := v.runDictTail,
                 body := xtsOf is }) :: v.heap,
             runDictTail := some base,
             dictAlloc := { d2 with cur := d2.cur + 8 * ws.length },
             input := ⟨[], none⟩,
             output := v.output ++ bws "ok.\n" } := by
  have hal2 : d2.cur % 8 = 0 := by
    unfold DictionaryBump.bump at hbe
    dsimp only at hbe
    split at hbe
    · simp at hbe
    · rw [Prod.mk.injEq] at hbe
      obtain ⟨hb1, hb2⟩ := hbe
      rw [← hb2]
      dsimp only
      simp only [alignOffset, dictEntryAlign, dictEntrySize]
      rw [if_neg (by omega)]
      omega
  have ha : v.input.advance =
      ⟨.word nx :: ws.map .word ++ [.word (bws ";")],
       some (.word (bws ":"))⟩ := by
    unfold InBuf.advance
    rw [hin]
    rfl
  have hcol' : findInDictGo v.heap ⟨bws ":"⟩ (v.heap.length + 1)
      v.runDictTail = none := hcol
  have hbis : findInBis ⟨bws ":"⟩ = some 35 := by decide
  unfold processLine
  dsimp only
  rw [ha]
  dsimp only [InBuf.curWord]
  rw [lookup_eq_lookupIn]
  dsimp only
  unfold lookupIn
  rw [if_neg (by decide), if_neg (by decide), if_neg (by decide),
      if_neg (by decide), if_neg (by decide), if_neg (by decide),
      if_neg (by decide), if_neg (by decide)]
  rw [hcol']
  dsimp only
  rw [hbis]
  dsimp only
  rw [show fullBuiltins[35]? = some ⟨bws ":", BFn.colon⟩ from rfl]
  dsimp only
  have hpu : v.callStack.push ⟨.bi 35, 0, 0⟩ =
      some { v.callStack with items := [⟨.bi 35, 0, 0⟩] } := by
    unfold Stk.push
    rw [hcs]
    rw [if_pos (by simpa using hcap)]
  rw [hpu]
  dsimp only
  unfold execBFn
  dsimp only
  rw [colonFn_kern
        { v with input := ⟨.word nx :: ws.map .word ++ [.word (bws ";")],
                           some (.word (bws ":"))⟩,
                 callStack := { v.callStack with
                                items := [⟨.bi 35, 0, 0⟩] } }
        nx ws is d1 d2 base [] rfl hbs hbe hal2 hsp h1]
  dsimp only
  rw [show ({ v.callStack with items := [⟨.bi 35, 0, 0⟩] } :
        Stk Frame).pop =
      some (⟨.bi 35, 0, 0⟩, { v.callStack with items := [] }) from rfl]
  have hcse : { v.callStack with items := ([] : List Frame) } =
      v.callStack := by
    rw [← hcs]
  rw [hcse]
  unfold processLine
  dsimp only [InBuf.advance, InBuf.curWord]
  simp [VM.pushOut, xtsOf]

theorem interpret_kern : ∀ (is : List Nat) (gs : List (Kern → KRes))
    (v : VM) (r : Ref) (j : Nat) (ent : DictEntry) (tl : List Frame)
    (cap : Nat) (k' : Kern),
    v.callStack = ⟨⟨r, j, ent.flen⟩ :: tl, cap⟩ →
    tl.length + 2 ≤ cap →
    v.entryOf r = some ent →
    ent.flen = ent.body.length →
    j ≤ ent.flen →
    ent.body.drop j = xtsOf is →
    is.mapM kernOf = some gs →
    runK gs v.kern = .ok k' →
    interpretFn (is.length + 3) v =
      .ok { v with dataStack := k'.dataStack, returnStack := k'.returnStack,
                   output := k'.output,
                   callStack := ⟨⟨r, ent.flen, ent.flen⟩ :: tl, cap⟩ } := by
  intro is
  induction is with
  | nil =>
    intro gs v r j ent tl cap k' hcs hcap hent hflen hjle hdrop hgs hrun
    simp only [List.mapM_nil, pure, Option.some.injEq] at hgs
    subst hgs
    unfold runK at hrun
    rw [Except.ok.injEq] at hrun
    subst hrun
    have hj : j = ent.flen := by
      have hl := congrArg List.length hdrop
      rw [List.length_drop] at hl
      simp [xtsOf] at hl
      omega
    subst hj
    unfold interpretFn
    dsimp only
    rw [hcs]
    dsimp only [Stk.peek, List.head?]
    rw [if_neg (by omega)]
    rw [← hcs]
    rfl
  | cons i is' ih =>
    intro gs v r j ent tl cap k' hcs hcap hent hflen hjle hdrop hgs hrun
    rw [List.mapM_cons] at hgs
    rcases hko : kernOf i with _ | g <;> rw [hko] at hgs
    · simp at hgs
    · rcases hgs' : is'.mapM kernOf with _ | gs' <;> rw [hgs'] at hgs
      · simp at hgs
      · simp only [Bind.bind, Option.bind, Option.pure_def,
          Option.some.injEq] at hgs
        subst hgs
        unfold runK at hrun
        rcases hg : g v.kern with ⟨e1, kE⟩ | k1 <;> rw [hg] at hrun
        · simp at hrun
        · have hj : j < ent.flen := by
            have hl := congrArg List.length hdrop
            rw [List.length_drop] at hl
            simp [xtsOf] at hl
            omega
          have hcell : ent.body[j]? = some (.xt (.bi i)) := by
            have h0 : (ent.body.drop j)[0]? = some (Cell.xt (.bi i)) := by
              rw [hdrop]
              simp [xtsOf]
            rw [List.getElem?_drop] at h0
            simpa using h0
          have hdrop' : ent.body.drop (j + 1) = xtsOf is' := by
            have h0 := congrArg (List.drop 1) hdrop
            rw [List.drop_drop] at h0
            simpa [xtsOf] using h0
          have hca : v.cellAt r (j : Int) = some (.xt (.bi i)) := by
            unfold VM.cellAt
            rw [hent]
            dsimp only
            rw [if_pos (by omega)]
            simpa using hcell
          have hfb : ∃ b, fullBuiltins[i]? = some b ∧
              b.fn.kernView = some g := by
            unfold kernOf at hko
            rcases hb : fullBuiltins[i]? with _ | b <;> rw [hb] at hko
            · simp at hko
            · exact ⟨b, rfl, hko⟩
          obtain ⟨b, hb, hkv⟩ := hfb
          have hent2 : v.entryOf (.bi i) =
              some { name := ⟨b.name⟩, kind := .staticBuiltin, flen := 0,
                     func := .table b.fn, link := none, body := [] } := by
            unfold VM.entryOf
            dsimp only
            rw [hb]
            rfl
          show interpretFn (is'.length + 4) v = _
          unfold interpretFn
          dsimp only
          rw [hcs]
          dsimp only [Stk.peek, List.head?]
          rw [if_pos hj]
          rw [hca]
          dsimp only
          rw [hent2]
          dsimp only
          rw [show (⟨⟨r, j, ent.flen⟩ :: tl, cap⟩ : Stk Frame).push
                ⟨.bi i, 0, 0⟩ =
              some ⟨⟨.bi i, 0, 0⟩ :: ⟨r, j, ent.flen⟩ :: tl, cap⟩ from by
            unfold Stk.push
            rw [if_pos (by simp only [List.length_cons]; omega)]]
          try dsimp only
          unfold execFunc
          try dsimp only
          rw [execBFn_kern (m := is'.length + 2) hkv _ (by omega)]
          have hgB : g (VM.kern
              { v with callStack :=
                  ⟨⟨.bi i, 0, 0⟩ :: ⟨r, j, ent.flen⟩ :: tl, cap⟩ }) =
              .ok k1 := hg
          rw [liftK_ok hgB]
          dsimp only
          rw [show (⟨⟨Ref.bi i, 0, 0⟩ :: ⟨r, j, ent.flen⟩ :: tl, cap⟩ :
                Stk Frame).pop =
              some (⟨.bi i, 0, 0⟩, ⟨⟨r, j, ent.flen⟩ :: tl, cap⟩) from rfl]
          dsimp only [Stk.peek, List.head?]
          have hoff : Frame.offsetBy ⟨r, j, ent.flen⟩ 1 =
              some ⟨r, j + 1, ent.flen⟩ := by
            unfold Frame.offsetBy
            dsimp only
            rw [if_pos (by constructor <;> omega)]
            have ht : ((j : Int) + 1).toNat = j + 1 := by omega
            rw [ht]
          rw [hoff]
          dsimp only
          rw [show (⟨⟨r, j, ent.flen⟩ :: tl, cap⟩ :
                Stk Frame).overwriteBackN 0 ⟨r, j + 1, ent.flen⟩ =
              some ⟨⟨r, j + 1, ent.flen⟩ :: tl, cap⟩ from by
            unfold Stk.overwriteBackN
            rw [if_pos (by simp)]
            rfl]
          dsimp only
          have hrec := ih gs'
            { v with dataStack := k1.dataStack, returnStack := k1.returnStack,
                     output := k1.output,
                     callStack := ⟨⟨r, j + 1, ent.flen⟩ :: tl, cap⟩ }
            r (j + 1) ent tl cap k' rfl hcap
            ((entryOf_frame rfl r).trans hent) hflen (by omega) hdrop'
            hgs' hrun
          rw [hrec]

theorem invoke_line (v : VM) (nx : Bytes) (is : List Nat)
    (gs : List (Kern → KRes)) (base : Nat) (ent : DictEntry)
    (cap : Nat) (k' : Kern)
    (hin : v.input.toks = [.word nx])
    (hnr : nx ∉ reservedToks)
    (hfd : v.findInDict ⟨nx⟩ = some base)
    (hge : v.heapGet base = some ent)
    (hflen : ent.flen = ent.body.length)
    (hbody : ent.body = xtsOf is)
    (hfunc : ent.func = .interp)
    (hcs : v.callStack = ⟨[], cap⟩)
    (hcap : 2 ≤ cap)
    (hgs : is.mapM kernOf = some gs)
    (hrun : runK gs v.kern = .ok k') :
    processLine (is.length + 5) v =
      .ok { v with dataStack := k'.dataStack, returnStack := k'.returnStack,
                   input := ⟨[], none⟩,
                   output := k'.output ++ bws "ok.\n" } := by
  have ha : v.input.advance = ⟨[], some (.word nx)⟩ := by
    unfold InBuf.advance
    rw [hin]
  have hrs : ∀ s : String, nx = bws s → bws s ∈ reservedToks → False :=
    fun s h hm => hnr (h ▸ hm)
  have hfd' : findInDictGo v.heap ⟨nx⟩ (v.heap.length + 1) v.runDictTail =
      some base := hfd
  unfold processLine
  dsimp only
  rw [ha]
  dsimp only [InBuf.curWord]
  rw [lookup_eq_lookupIn]
  dsimp only
  unfold lookupIn
  rw [if_neg (fun h => hrs ";" h (by decide)),
      if_neg (fun h => hrs "if" h (by decide)),
      if_neg (fun h => hrs "else" h (by decide)),
      if_neg (fun h => hrs "then" h (by decide)),
      if_neg (fun h => hrs "do" h (by decide)),
      if_neg (fun h => hrs "loop" h (by decide)),
      if_neg (fun h => hrs "(" h (by decide)),
      if_neg (fun h => hrs ".\"" h (by decide))]
  rw [hfd']
  dsimp only
  rw [show ({ v with input := ⟨[], some (.word nx)⟩ } : VM).heapGet base =
      some ent from hge]
  dsimp only
  have hpu : v.callStack.push ⟨.de base, 0, ent.flen⟩ =
      some ⟨[⟨.de base, 0, ent.flen⟩], cap⟩ := by
    rw [hcs]
    unfold Stk.push
    rw [if_pos (by simp only [List.length_nil]; omega)]
  rw [hpu]
  try dsimp only
  rw [hfunc]
  unfold execFunc
  try dsimp only
  rw [interpret_kern is gs
        { v with input := ⟨[], some (.word nx)⟩,
                 callStack := ⟨[⟨.de base, 0, ent.flen⟩], cap⟩ }
        (.de base) 0 ent [] cap k' rfl (by simpa using hcap) hge hflen
        (Nat.zero_le _) (by rw [List.drop_zero, hbody]) hgs hrun]
  dsimp only
  rw [show (⟨[⟨Ref.de base, ent.flen, ent.flen⟩], cap⟩ :
        Stk Frame).pop =
      some (⟨.de base, ent.flen, ent.flen⟩, ⟨[], cap⟩) from rfl]
  unfold processLine
  dsimp only [InBuf.advance, InBuf.curWord]
  rw [show (⟨[], cap⟩ : Stk Frame) = v.callStack from hcs.symm]
  rfl

set_option maxHeartbeats 1000000 in
/-- C1 (amended): compile/interpret duality for the kernel fragment.  The
original claim is false because input-consuming words (`:`, `forget`,
`."`) behave differently under compilation (see the counterexample).  For
a token sequence `ws` that resolves entirely to simple stack/output
builtins — both before and after the definition is added — compiling
`: nx ws ;` succeeds, yielding state `vmC` with one new linked entry whose
body is the threaded calls, and then interpreting `ws` directly from `vmC`
and invoking the freshly compiled word `nx` from `vmC` reach the *same*
final state `vmF` (same data/return stacks and the same output, each run
appending its own final `ok.` line). -/
theorem c1_compile_interpret_duality
    (v : VM) (nx : Bytes) (ws : List Bytes) (is : List Nat)
    (gs : List (Kern → KRes)) (d1 d2 : DictionaryBump) (base : Nat)
    (cap : Nat) (k' : Kern) (e : DictEntry) (vmC vmF : VM)
    (hcs : v.callStack = ⟨[], cap⟩)
    (hcap : 2 ≤ cap)
    (hcol : v.findInDict ⟨bws ":"⟩ = none)
    (hnr : nx ∉ reservedToks)
    (hbs : v.dictAlloc.bumpStr nx = (.ok ⟨nx⟩, d1))
    (hbe : d1.bump dictEntryAlign dictEntrySize = (.ok base, d2))
    (hsp : d2.cur + 8 * ws.length ≤ d2.endp)
    (h1 : ws.mapM (lookupBI v.heap v.runDictTail) = some is)
    (he : e = { name := ⟨nx⟩, kind := .dictionary, flen := (xtsOf is).length,
                func := .interp, link := v.runDictTail, body := xtsOf is })
    (hvmC : vmC = { v with
             heap := (base, e) :: v.heap,
             runDictTail := some base,
             dictAlloc := { d2 with cur := d2.cur + 8 * ws.length },
             input := ⟨[], none⟩,
             output := v.output ++ bws "ok.\n" })
    (h2 : ws.mapM (lookupBI vmC.heap vmC.runDictTail) = some is)
    (hgs : is.mapM kernOf = some gs)
    (hrun : runK gs vmC.kern = .ok k')
    (hvmF : vmF = { vmC with dataStack := k'.dataStack,
                             returnStack := k'.returnStack,
                             input := ⟨[], none⟩,
                             output := k'.output ++ bws "ok.\n" }) :
    processLine (ws.length + 6)
        { v with input := ⟨mkColonLine nx ws, none⟩ } = .ok vmC ∧
    processLine (ws.length + 2)
        { vmC with input := ⟨ws.map .word, none⟩ } = .ok vmF ∧
    processLine (is.length + 5)
        { vmC with input := ⟨[.word nx], none⟩ } = .ok vmF := by
  subst he
  subst hvmC
  subst hvmF
  have hbeq : FaStr.beq ⟨nx⟩ ⟨nx⟩ = true := (FaStr.beq_iff_asBytes _ _).mpr rfl
  refine ⟨?_, ?_, ?_⟩
  · rw [compile_line { v with input := ⟨mkColonLine nx ws, none⟩ }
          nx ws is d1 d2 base rfl hcol
          (by show v.callStack.items = []; rw [hcs])
          (by show 1 ≤ v.callStack.cap; rw [hcs]; show 1 ≤ cap; omega)
          hbs hbe hsp h1]
  · exact processLine_kern ws is gs
          { { v with
               heap := (base,
                 { name := ⟨nx⟩, kind := .dictionary,
                   flen := (xtsOf is).length, func := .interp,
                   link := v.runDictTail, body := xtsOf is }) :: v.heap,
               runDictTail := some base,
               dictAlloc := { d2 with cur := d2.cur + 8 * ws.length },
               input := ⟨[], none⟩,
               output := v.output ++ bws "ok.\n" } with
            input := ⟨ws.map .word, none⟩ }
          k' h2 hgs rfl
          (by show v.callStack.items = []; rw [hcs])
          (by show 1 ≤ v.callStack.cap; rw [hcs]; show 1 ≤ cap; omega)
          hrun
  · have hfind : ((base,
        ({ name := ⟨nx⟩, kind := .dictionary, flen := (xtsOf is).length,
           func := .interp, link := v.runDictTail,
           body := xtsOf is } : DictEntry)) :: v.heap).find?
          (fun p => p.1 == base) =
        some (base,
          { name := ⟨nx⟩, kind := .dictionary, flen := (xtsOf is).length,
            func := .interp, link := v.runDictTail, body := xtsOf is }) :=
      List.find?_cons_of_pos _ (by simp)
    have hge3 : (((base,
        ({ name := ⟨nx⟩, kind := .dictionary, flen := (xtsOf is).length,
           func := .interp, link := v.runDictTail,
           body := xtsOf is } : DictEntry)) :: v.heap).find?
          (fun p => p.1 == base)).map (fun p => p.2) =
        some { name := ⟨nx⟩, kind := .dictionary,
               flen := (xtsOf is).length, func := .interp,
               link := v.runDictTail, body := xtsOf is } := by
      rw [hfind]
      rfl
    have hfd3 : ({ { v with
               heap := (base,
                 { name := ⟨nx⟩, kind := .dictionary,
                   flen := (xtsOf is).length, func := .interp,
                   link := v.runDictTail, body := xtsOf is }) :: v.heap,
               runDictTail := some base,
               dictAlloc := { d2 with cur := d2.cur + 8 * ws.length },
               input := ⟨[], none⟩,
               output := v.output ++ bws "ok.\n" } with
            input := ⟨[.word nx], none⟩ } : VM).findInDict ⟨nx⟩ =
        some base :=
      findInDictGo_head _ ⟨nx⟩
        (((base,
           ({ name := ⟨nx⟩, kind := .dictionary, flen := (xtsOf is).length,
              func := .interp, link := v.runDictTail,
              body := xtsOf is } : DictEntry)) :: v.heap).length)
        base _ hge3 hbeq
    have hge3' : ({ { v with
               heap := (base,
                 { name := ⟨nx⟩, kind := .dictionary,
                   flen := (xtsOf is).length, func := .interp,
                   link := v.runDictTail, body := xtsOf is }) :: v.heap,
               runDictTail := some base,
               dictAlloc := { d2 with cur := d2.cur + 8 * ws.length },
               input := ⟨[], none⟩,
               output := v.output ++ bws "ok.\n" } with
            input := ⟨[.word nx], none⟩ } : VM).heapGet base =
        some { name := ⟨nx⟩, kind := .dictionary,
               flen := (xtsOf is).length, func := .interp,
               link := v.runDictTail, body := xtsOf is } := hge3
    exact invoke_line
          { { v with
               heap := (base,
                 { name := ⟨nx⟩, kind := .dictionary,
                   flen := (xtsOf is).length, func := .interp,
                   link := v.runDictTail, body := xtsOf is }) :: v.heap,
               runDictTail := some base,
               dictAlloc := { d2 with cur := d2.cur + 8 * ws.length },
               input := ⟨[], none⟩,
               output := v.output ++ bws "ok.\n" } with
            input := ⟨[.word nx], none⟩ }
          nx is gs base
          { name := ⟨nx⟩, kind := .dictionary, flen := (xtsOf is).length,
            func := .interp, link := v.runDictTail, body := xtsOf is }
          cap k' rfl hnr hfd3 hge3' rfl rfl rfl hcs hcap hgs hrun

/-- C1 counterexample: the duality of the original claim fails for token
sequences holding input-consuming words.  `T = : y ; 65 emit` interprets
directly to one successful line that prints `A` (then `ok.`), but
compiling `: x T ;` fails at `y` with `LookupFailed` before anything is
printed — and the line `x` afterwards fails the same way, so no run of
the compiled program ever prints `A`. -/
theorem c1_duality_counterexample :
    processLine 6 { vm0 with input :=
        ⟨[.word (bws ":"), .word (bws "y"), .word (bws ";"),
          .word (bws "65"), .word (bws "emit")], none⟩ } = .ok vmD ∧
    vmD.output = 65 :: bws "ok.\n" ∧
    processLine 7 { vm0 with input :=
        ⟨[.word (bws ":"), .word (bws "x"), .word (bws ":"), .word (bws "y"),
          .word (bws ";"), .word (bws "65"), .word (bws "emit"),
          .word (bws ";")], none⟩ } = .error (.lookupFailed, vmE) ∧
    vmE.output = [] ∧
    processLine 2 { vmE with input := ⟨[.word (bws "x")], none⟩ } =
      .error (.lookupFailed,
              { vmE with input := ⟨[], some (.word (bws "x"))⟩ }) ∧
    ({ vmE with input := ⟨[], some (.word (bws "x"))⟩ } : VM).output = [] := by
  have hD2 : processLine 4
      ({ vm0 with heap := [(1008, entY)], runDictTail := some 1008,
                  dictAlloc := dY2,
                  dataStack := ⟨[.lit 65], 64⟩,
                  input := ⟨[.word (bws "emit")],
                            some (.word (bws "65"))⟩ } : VM) = .ok vmD := by
    unfold processLine
    dsimp only
    rw [show (⟨[InTok.word (bws "emit")], some (.word (bws "65"))⟩ :
          InBuf).advance = ⟨[], some (.word (bws "emit"))⟩ from rfl]
    dsimp only [InBuf.curWord]
    rw [show ({ vm0 with
          heap := [(1008, entY)], runDictTail := some 1008,
          dictAlloc := dY2, dataStack := ⟨[.lit 65], 64⟩,
          input := ⟨[], some (.word (bws "emit"))⟩ } :
          VM).lookup (bws "emit") = .ok (.builtin 29) from rfl]
    dsimp only
    rw [show fullBuiltins[29]? = some ⟨bws "emit", BFn.emit⟩ from rfl]
    dsimp only
    rw [show vm0.callStack.push ⟨.bi 29, 0, 0⟩ =
        some ⟨[⟨.bi 29, 0, 0⟩], 64⟩ from rfl]
    dsimp only
    rw [execBFn_kern (m := 3)
          (show BFn.emit.kernView = some Forth.emit from rfl) _ (by omega)]
    rw [liftK_ok (show Forth.emit (VM.kern
          { vm0 with heap := [(1008, entY)], runDictTail := some 1008,
                     dictAlloc := dY2, dataStack := ⟨[.lit 65], 64⟩,
                     input := ⟨[], some (.word (bws "emit"))⟩,
                     callStack := ⟨[⟨.bi 29, 0, 0⟩], 64⟩ }) =
        .ok ⟨⟨[], 64⟩, ⟨[], 64⟩, [65]⟩ from rfl)]
    dsimp only
    rw [show (⟨[⟨Ref.bi 29, 0, 0⟩], 64⟩ : Stk Frame).pop =
        some (⟨.bi 29, 0, 0⟩, ⟨[], 64⟩) from rfl]
    unfold processLine
    dsimp only
    rw [show (⟨[], some (.word (bws "emit"))⟩ : InBuf).advance =
        ⟨[], none⟩ from rfl]
    dsimp only [InBuf.curWord]
    rfl
  have hD1 : processLine 5
      ({ vm0 with heap := [(1008, entY)], runDictTail := some 1008,
                  dictAlloc := dY2,
                  input := ⟨[.word (bws "65"), .word (bws "emit")],
                            some (.word (bws ";"))⟩ } : VM) = .ok vmD := by
    unfold processLine
    dsimp only
    rw [show (⟨[InTok.word (bws "65"), .word (bws "emit")],
          some (.word (bws ";"))⟩ : InBuf).advance =
        ⟨[.word (bws "emit")], some (.word (bws "65"))⟩ from rfl]
    dsimp only [InBuf.curWord]
    rw [show ({ vm0 with
          heap := [(1008, entY)], runDictTail := some 1008,
          dictAlloc := dY2,
          input := ⟨[.word (bws "emit")],
                    some (.word (bws "65"))⟩ } :
          VM).lookup (bws "65") = .ok (.literalTok 65) from rfl]
    dsimp only
    rw [show vm0.dataStack.push (Cell.lit 65) =
        some ⟨[.lit 65], 64⟩ from rfl]
    dsimp only
    exact hD2
  refine ⟨?_, rfl, ?_, rfl, ?_, rfl⟩
  · unfold processLine
    dsimp only
    rw [show (⟨[InTok.word (bws ":"), .word (bws "y"), .word (bws ";"),
          .word (bws "65"), .word (bws "emit")], none⟩ : InBuf).advance =
        ⟨[.word (bws "y"), .word (bws ";"), .word (bws "65"),
          .word (bws "emit")], some (.word (bws ":"))⟩ from rfl]
    dsimp only [InBuf.curWord]
    rw [show ({ vm0 with input :=
          ⟨[InTok.word (bws "y"), .word (bws ";"), .word (bws "65"),
            .word (bws "emit")], some (.word (bws ":"))⟩ } :
          VM).lookup (bws ":") = .ok (.builtin 35) from rfl]
    dsimp only
    rw [show fullBuiltins[35]? = some ⟨bws ":", BFn.colon⟩ from rfl]
    dsimp only
    rw [show vm0.callStack.push ⟨.bi 35, 0, 0⟩ =
        some ⟨[⟨.bi 35, 0, 0⟩], 64⟩ from rfl]
    dsimp only
    unfold execBFn
    dsimp only
    rw [show colonFn 4
          ({ vm0 with
             input := ⟨[InTok.word (bws "y"), .word (bws ";"),
                        .word (bws "65"), .word (bws "emit")],
                       some (.word (bws ":"))⟩,
             callStack := ⟨[⟨.bi 35, 0, 0⟩], 64⟩ } : VM) = _ from
        colonFn_kern
          { vm0 with
            input := ⟨[InTok.word (bws "y"), .word (bws ";"),
                       .word (bws "65"), .word (bws "emit")],
                      some (.word (bws ":"))⟩,
            callStack := ⟨[⟨.bi 35, 0, 0⟩], 64⟩ }
          (bws "y") [] [] dY1 dY2 1008
          [.word (bws "65"), .word (bws "emit")]
          rfl rfl rfl (by decide) (by decide) rfl]
    dsimp only
    rw [show (⟨[⟨Ref.bi 35, 0, 0⟩], 64⟩ : Stk Frame).pop =
        some (⟨.bi 35, 0, 0⟩, ⟨[], 64⟩) from rfl]
    exact hD1
  · unfold processLine
    dsimp only
    rw [show (⟨[InTok.word (bws ":"), .word (bws "x"), .word (bws ":"),
          .word (bws "y"), .word (bws ";"), .word (bws "65"),
          .word (bws "emit"), .word (bws ";")], none⟩ : InBuf).advance =
        ⟨[.word (bws "x"), .word (bws ":"), .word (bws "y"), .word (bws ";"),
          .word (bws "65"), .word (bws "emit"), .word (bws ";")],
         some (.word (bws ":"))⟩ from rfl]
    dsimp only [InBuf.curWord]
    rw [show ({ vm0 with input :=
          ⟨[InTok.word (bws "x"), .word (bws ":"), .word (bws "y"),
            .word (bws ";"), .word (bws "65"), .word (bws "emit"),
            .word (bws ";")], some (.word (bws ":"))⟩ } :
          VM).lookup (bws ":") = .ok (.builtin 35) from rfl]
    dsimp only
    rw [show fullBuiltins[35]? = some ⟨bws ":", BFn.colon⟩ from rfl]
    dsimp only
    rw [show vm0.callStack.push ⟨.bi 35, 0, 0⟩ =
        some ⟨[⟨.bi 35, 0, 0⟩], 64⟩ from rfl]
    dsimp only
    unfold execBFn
    dsimp only
    unfold colonFn
    dsimp only
    rw [show (⟨[InTok.word (bws "x"), .word (bws ":"), .word (bws "y"),
          .word (bws ";"), .word (bws "65"), .word (bws "emit"),
          .word (bws ";")], some (.word (bws ":"))⟩ : InBuf).advance =
        ⟨[.word (bws ":"), .word (bws "y"), .word (bws ";"),
          .word (bws "65"), .word (bws "emit"), .word (bws ";")],
         some (.word (bws "x"))⟩ from rfl]
    dsimp only [InBuf.curWord]
    rw [show vm0.dictAlloc.bumpStr (bws "x") = (.ok ⟨bws "x"⟩, dX1)
        from rfl]
    dsimp only
    rw [show dX1.bump dictEntryAlign dictEntrySize = (.ok 1008, dX2)
        from rfl]
    dsimp only
    unfold colonLoop
    dsimp only
    unfold munchOne
    dsimp only
    rw [show (⟨[InTok.word (bws ":"), .word (bws "y"), .word (bws ";"),
          .word (bws "65"), .word (bws "emit"), .word (bws ";")],
          some (.word (bws "x"))⟩ : InBuf).advance =
        ⟨[.word (bws "y"), .word (bws ";"), .word (bws "65"),
          .word (bws "emit"), .word (bws ";")],
         some (.word (bws ":"))⟩ from rfl]
    dsimp only [InBuf.curWord]
    rw [show ({ vm0 with
          mode := Mode.compile, dictAlloc := dX2,
          input := ⟨[InTok.word (bws "y"), .word (bws ";"), .word (bws "65"),
                     .word (bws "emit"), .word (bws ";")],
                    some (.word (bws ":"))⟩,
          callStack := ⟨[⟨.bi 35, 0, 0⟩], 64⟩ } :
          VM).lookup (bws ":") = .ok (.builtin 35) from rfl]
    dsimp only
    simp only [Bind.bind, Except.bind]
    rw [bumpWord_aligned
          { vm0 with
            mode := Mode.compile, dictAlloc := dX2,
            input := ⟨[InTok.word (bws "y"), .word (bws ";"),
                       .word (bws "65"), .word (bws "emit"),
                       .word (bws ";")], some (.word (bws ":"))⟩,
            callStack := ⟨[⟨.bi 35, 0, 0⟩], 64⟩ }
          (by decide) (by decide)]
    dsimp only
    rw [if_neg (by simp)]
    unfold colonLoop
    dsimp only
    unfold munchOne
    dsimp only
    rw [show (⟨[InTok.word (bws "y"), .word (bws ";"), .word (bws "65"),
          .word (bws "emit"), .word (bws ";")],
          some (.word (bws ":"))⟩ : InBuf).advance =
        ⟨[.word (bws ";"), .word (bws "65"), .word (bws "emit"),
          .word (bws ";")], some (.word (bws "y"))⟩ from rfl]
    dsimp only [InBuf.curWord]
    rw [show ({ vm0 with
          mode := Mode.compile,
          dictAlloc := { dX2 with cur := dX2.cur + 8 },
          input := ⟨[InTok.word (bws ";"), .word (bws "65"),
                     .word (bws "emit"), .word (bws ";")],
                    some (.word (bws "y"))⟩,
          callStack := ⟨[⟨.bi 35, 0, 0⟩], 64⟩ } :
          VM).lookup (bws "y") = .error .lookupFailed from rfl]
    dsimp only
    rw [show (⟨[⟨Ref.bi 35, 0, 0⟩], 64⟩ : Stk Frame).pop =
        some (⟨.bi 35, 0, 0⟩, ⟨[], 64⟩) from rfl]
    rfl
  · unfold processLine
    dsimp only
    rw [show (⟨[InTok.word (bws "x")], none⟩ : InBuf).advance =
        ⟨[], some (.word (bws "x"))⟩ from rfl]
    dsimp only [InBuf.curWord]
    rw [show ({ vmE with input := ⟨[], some (.word (bws "x"))⟩ } :
          VM).lookup (bws "x") = .error .lookupFailed from rfl]

set_option maxHeartbeats 4000000 in
/-- C1 witness: on `vmC1` (a `3` on the data stack), compiling
`: sq dup * ;` and then running `sq` gives the same state as interpreting
`dup *` directly from the post-compile state: data stack `9`, two `ok.`
lines. -/
theorem c1_compile_interpret_duality_witness :
    ∃ vmC vmF : VM,
      processLine 8 { vmC1 with
          input := ⟨mkColonLine (bws "sq") [bws "dup", bws "*"], none⟩ } =
        .ok vmC ∧
      processLine 4 { vmC with
          input := ⟨[.word (bws "dup"), .word (bws "*")], none⟩ } = .ok vmF ∧
      processLine 7 { vmC with input := ⟨[.word (bws "sq")], none⟩ } =
        .ok vmF ∧
      vmF.dataStack.items = [.lit 9] ∧
      vmF.output = bws "ok.\n" ++ bws "ok.\n" := by
  have h := c1_compile_interpret_duality vmC1 (bws "sq")
    [bws "dup", bws "*"] [21, 5] [Forth.dup, Forth.mul] dC1a dC1b 1008 64
    ⟨⟨[.lit 9], 64⟩, ⟨[], 64⟩, bws "ok.\n"⟩ _ _ _
    rfl (by decide) rfl (by decide) rfl rfl (by decide) rfl rfl rfl
    (by decide) rfl (by rfl) rfl
  exact ⟨_, _, h.1, h.2.1, h.2.2, by decide, by decide⟩

/-- C5 witness: `forget y` on `vmC5` rewinds the tail to `y`'s link, the
cursor to 1200, zero-fills the freed bytes, and `y` is no longer found
while the older `x` still is. -/
theorem c5_forget_semantics_witness :
    vmC5'.runDictTail = some 1100 ∧ vmC5'.dictAlloc.cur = 1200 ∧
    vmC5'.dictAlloc.mem 1250 = 0 ∧ vmC5'.findInDict ⟨bws "y"⟩ = none ∧
    vmC5'.findInDict ⟨bws "x"⟩ = some 1100 := by
  have h := c5_forget_semantics.2.2.2 vmC5 vmC5' (bws "y") 1200
    (mkUserEntry "y" (some 1100) []) rfl rfl rfl rfl
  exact ⟨h.1, h.2.1, h.2.2.1 1250 (by decide) (by decide), by decide, by decide⟩

end Forth3
